import Mathlib

set_option maxHeartbeats 1600000

/-
Shallow embedding of `src/server.js`: the in-memory room registry
(`const rooms = new Map()`), the Socket.IO event handlers (`join-room`,
`start-talking`, `stop-talking`, `offer`, `answer`, `ice-candidate`,
`leave-room`, `disconnect`), the periodic empty-room sweep, and the
`GET /api/rooms/:roomId` HTTP endpoint.

Conventions of the embedding:
  * A client-supplied JavaScript value that we only ever pass around or
    compare is modelled as `Option String`: `none` is the value
    `undefined` (a destructured field that was absent from the payload),
    `some s` is the string `s`.
  * A JS `Map` is an insertion-ordered association list.  `Map.set` on an
    existing key overwrites the value but keeps the entry's position;
    on a fresh key it appends.  `Map.delete` removes the entry.
  * Socket.IO bookkeeping that the source relies on is part of the state:
    each socket carries the set of socket.io rooms it is in
    (`socket.rooms`, which always starts out holding the socket's own id),
    plus the ad hoc fields `socket.userName` and `socket.currentRoom`
    that the source bolts onto the socket object.
  * `io.to(room).emit(...)` delivers to every connected socket whose
    socket.io room set contains `room`; `socket.to(x).emit(...)` delivers
    to the same set minus the sender.  Delivery is modelled as a list of
    (target socket id, event) messages returned by the handler.
  * An event handler that throws (the only throw site is destructuring a
    `null`/`undefined` payload) is modelled with `Except`: `Except.error`
    means the handler threw and the process crashed.
  * The transport layer (out of scope of the repository, specified in the
    spec only at its boundary) guarantees globally unique connection ids;
    the ghost field `usedIds` records ids handed out so far and the
    `connect` transition refuses a reused id, modelling that guarantee.
-/

/-- A socket.io room name / registry key as the source manipulates it:
`none` embeds the JavaScript value `undefined`, `some s` a string. -/
abbrev RoomKey := Option String

section MapOps

variable {α : Type} [DecidableEq α] {β : Type}

/-- JS `Map.get`: the value stored at `k`, if any. -/
def mapLookup : List (α × β) → α → Option β
  | [], _ => none
  | (k', v) :: rest, k => if k' = k then some v else mapLookup rest k

/-- JS `Map.set`: overwrite in place if the key is present (keeping the
entry's insertion position), otherwise append a new entry. -/
def mapSet : List (α × β) → α → β → List (α × β)
  | [], k, v => [(k, v)]
  | (k', v') :: rest, k, v =>
    if k' = k then (k, v) :: rest else (k', v') :: mapSet rest k v

/-- JS `Map.delete`: drop the entry for `k` (drops every entry with key
`k`; identical to the JS behaviour on the duplicate-free maps the server
builds). -/
def mapDelete : List (α × β) → α → List (α × β)
  | [], _ => []
  | (k', v') :: rest, k =>
    if k' = k then mapDelete rest k else (k', v') :: mapDelete rest k

/-- JS `Map.has`. -/
def mapHas (m : List (α × β)) (k : α) : Bool :=
  (mapLookup m k).isSome

/-- The keys of a JS `Map`, in insertion order. -/
def mapKeys (m : List (α × β)) : List α :=
  m.map Prod.fst

/-- JS `Array.from(m.values())`: the values in insertion order. -/
def mapValues (m : List (α × β)) : List β :=
  m.map Prod.snd

end MapOps

/-- Removing an element from a JS `Set` held as a duplicate-free list. -/
def listRemove {α : Type} [DecidableEq α] : List α → α → List α
  | [], _ => []
  | x :: xs, a => if x = a then listRemove xs a else x :: listRemove xs a

/-- One entry of `roomData.participants` (`server.js` lines 91-96). -/
structure Participant where
  id : String
  name : Option String
  isTalking : Bool
  joinedAt : Nat
deriving DecidableEq

/-- One entry of the `rooms` map (`server.js` lines 81-85). -/
structure Room where
  name : RoomKey
  participants : List (String × Participant)
  createdAt : Nat
deriving DecidableEq

/-- A connected socket: its id, its socket.io room set (`socket.rooms`,
initialised to the singleton of its own id), and the `userName` /
`currentRoom` fields the source assigns on join.  `currentRoom = none`
covers both "never assigned" and "assigned `undefined`", which are
indistinguishable to the source's `if (socket.currentRoom)` test. -/
structure Socket where
  id : String
  sockRooms : List RoomKey
  userName : Option String
  currentRoom : RoomKey
deriving DecidableEq

/-- The whole server state: the `rooms` registry, the connected sockets,
the ghost list of all connection ids ever issued, and a clock used for
the `new Date()` timestamps. -/
structure ServerState where
  rooms : List (RoomKey × Room)
  sockets : List Socket
  usedIds : List String
  now : Nat
deriving DecidableEq

/-- Outbound events the server emits (spec section 6).  `src` embeds the
`from` field of the relayed messages (`from` is a Lean keyword). -/
inductive OutEvent where
  | userJoined (participants : List Participant)
  | userLeft (participants : List Participant)
  | userTalking (userId : String) (userName : Option String) (isTalking : Bool)
  | offerOut (offer : Option String) (src : String) (room : RoomKey)
  | answerOut (answer : Option String) (src : String) (room : RoomKey)
  | iceCandidateOut (candidate : Option String) (src : String) (room : RoomKey)
deriving DecidableEq

/-- A delivered message: which socket receives which event. -/
structure Msg where
  target : String
  event : OutEvent
deriving DecidableEq

/-- Payload of `join-room`, as destructured: `{ room, userName }`. -/
structure JoinPayload where
  room : RoomKey
  userName : Option String
deriving DecidableEq

/-- Payload of `start-talking` / `stop-talking` / `leave-room`: `{ room }`. -/
structure RoomPayload where
  room : RoomKey
deriving DecidableEq

/-- Payload of `offer`: `{ offer, to, room }`. -/
structure OfferPayload where
  offer : Option String
  toId : RoomKey
  room : RoomKey
deriving DecidableEq

/-- Payload of `answer`: `{ answer, to, room }`. -/
structure AnswerPayload where
  answer : Option String
  toId : RoomKey
  room : RoomKey
deriving DecidableEq

/-- Payload of `ice-candidate`: `{ candidate, to, room }`. -/
structure IcePayload where
  candidate : Option String
  toId : RoomKey
  room : RoomKey
deriving DecidableEq

/-- The only uncaught exception the handlers can raise: destructuring a
missing (`null`/`undefined`) payload object. -/
inductive JsError where
  | destructure
deriving DecidableEq

/-- Inbound events.  Each socket event carries the sender's id and the
payload (`none` = the client sent no usable payload object, so the
destructuring pattern in the handler head throws).  `connect`,
`disconnect`, `sweep` (the 30 s timer) and `tick` (passage of time for
`new Date()`) are environment events. -/
inductive InEvent where
  | connect (sid : String)
  | joinRoom (sid : String) (payload : Option JoinPayload)
  | startTalking (sid : String) (payload : Option RoomPayload)
  | stopTalking (sid : String) (payload : Option RoomPayload)
  | offerEv (sid : String) (payload : Option OfferPayload)
  | answerEv (sid : String) (payload : Option AnswerPayload)
  | iceCandidateEv (sid : String) (payload : Option IcePayload)
  | leaveRoom (sid : String) (payload : Option RoomPayload)
  | disconnect (sid : String)
  | sweep
  | tick
deriving DecidableEq

/-- Look a connected socket up by id. -/
def findSocket : List Socket → String → Option Socket
  | [], _ => none
  | s :: rest, sid => if s.id = sid then some s else findSocket rest sid

/-- Apply `f` to the socket with id `sid` (object mutation in the source). -/
def updateSocket : List Socket → String → (Socket → Socket) → List Socket
  | [], _, _ => []
  | s :: rest, sid, f => (if s.id = sid then f s else s) :: updateSocket rest sid f

/-- Drop the socket with id `sid` (socket.io forgets it after disconnect). -/
def removeSocket : List Socket → String → List Socket
  | [], _ => []
  | s :: rest, sid =>
    if s.id = sid then removeSocket rest sid else s :: removeSocket rest sid

/-- `socket.join(k)`: add `k` to the socket's room set. -/
def socketJoin (s : Socket) (k : RoomKey) : Socket :=
  if k ∈ s.sockRooms then s else { s with sockRooms := s.sockRooms ++ [k] }

/-- `socket.leave(k)`: remove `k` from the socket's room set. -/
def socketLeave (s : Socket) (k : RoomKey) : Socket :=
  { s with sockRooms := listRemove s.sockRooms k }

/-- `io.to(k).emit(ev)`: deliver `ev` to every connected socket whose
socket.io room set contains `k`. -/
def ioTo : List Socket → RoomKey → OutEvent → List Msg
  | [], _, _ => []
  | s :: rest, k, ev =>
    if k ∈ s.sockRooms then ⟨s.id, ev⟩ :: ioTo rest k ev else ioTo rest k ev

/-- `socket.to(k).emit(ev)` sent by `sender`: like `ioTo` but the sender
is excluded. -/
def socketTo : List Socket → RoomKey → String → OutEvent → List Msg
  | [], _, _, _ => []
  | s :: rest, k, sender, ev =>
    if k ∈ s.sockRooms ∧ s.id ≠ sender then
      ⟨s.id, ev⟩ :: socketTo rest k sender ev
    else socketTo rest k sender ev

/-- One iteration of the "leave any existing room" loop at the top of the
`join-room` handler (`server.js` lines 58-74): skip the socket's own-id
room, otherwise `socket.leave(roomName)`, remove the participant from the
registry room if it exists, delete the room if it became empty, else
broadcast `user-left` to the remaining members. -/
def cleanupStep (sid : String) (acc : ServerState × List Msg) (roomName : RoomKey) :
    ServerState × List Msg :=
  if roomName = some sid then acc
  else
    let st1 : ServerState :=
      { acc.1 with sockets := updateSocket acc.1.sockets sid (fun s => socketLeave s roomName) }
    match mapLookup st1.rooms roomName with
    | none => (st1, acc.2)
    | some existingRoom =>
      let parts1 := mapDelete existingRoom.participants sid
      if parts1.length = 0 then
        ({ st1 with rooms := mapDelete st1.rooms roomName }, acc.2)
      else
        let st2 : ServerState :=
          { st1 with rooms := mapSet st1.rooms roomName { existingRoom with participants := parts1 } }
        (st2, acc.2 ++ socketTo st2.sockets roomName sid (OutEvent.userLeft (mapValues parts1)))

/-- The `join-room` handler (`server.js` lines 54-107): run the cleanup
loop over `socket.rooms`, `socket.join(room)`, create the registry room
if absent, insert the participant record, store `userName` /
`currentRoom` on the socket, and broadcast the updated participant list
to everyone in the room (including the joiner). -/
def handleJoinRoom (st : ServerState) (sock : Socket) (p : JoinPayload) :
    ServerState × List Msg :=
  let cleaned := sock.sockRooms.foldl (cleanupStep sock.id) (st, [])
  let st1 := cleaned.1
  let st2 : ServerState :=
    { st1 with sockets := updateSocket st1.sockets sock.id (fun s => socketJoin s p.room) }
  let st3 : ServerState :=
    if mapHas st2.rooms p.room then st2
    else { st2 with rooms := mapSet st2.rooms p.room ⟨p.room, [], st2.now⟩ }
  let roomData := (mapLookup st3.rooms p.room).getD ⟨p.room, [], st3.now⟩
  let newPart : Participant := ⟨sock.id, p.userName, false, st3.now⟩
  let roomData1 : Room :=
    { roomData with participants := mapSet roomData.participants sock.id newPart }
  let st4 : ServerState := { st3 with rooms := mapSet st3.rooms p.room roomData1 }
  let st5 : ServerState :=
    { st4 with sockets := (updateSocket st4.sockets sock.id
        (fun s => { s with userName := p.userName, currentRoom := p.room })) }
  (st5, cleaned.2 ++ ioTo st5.sockets p.room (OutEvent.userJoined (mapValues roomData1.participants)))

/-- `handleUserLeave(socket, room)` (`server.js` lines 185-203): if the
registry has the room, delete the participant; if the room became empty
delete it, otherwise broadcast `user-left` with the remaining list; in
every case `socket.leave(room)`.  `socket.currentRoom` is NOT cleared. -/
def handleUserLeave (st : ServerState) (sid : String) (room : RoomKey) :
    ServerState × List Msg :=
  let acted : ServerState × List Msg :=
    match mapLookup st.rooms room with
    | none => (st, [])
    | some roomData =>
      let parts1 := mapDelete roomData.participants sid
      if parts1.length = 0 then
        ({ st with rooms := mapDelete st.rooms room }, [])
      else
        let st1 : ServerState :=
          { st with rooms := mapSet st.rooms room { roomData with participants := parts1 } }
        (st1, socketTo st1.sockets room sid (OutEvent.userLeft (mapValues parts1)))
  ({ acted.1 with sockets := updateSocket acted.1.sockets sid (fun s => socketLeave s room) },
   acted.2)

/-- The `start-talking` handler (`server.js` lines 109-125). -/
def handleStartTalking (st : ServerState) (sock : Socket) (p : RoomPayload) :
    ServerState × List Msg :=
  match mapLookup st.rooms p.room with
  | none => (st, [])
  | some roomData =>
    if mapHas roomData.participants sock.id then
      let user := (mapLookup roomData.participants sock.id).getD ⟨sock.id, none, false, 0⟩
      let user1 := { user with isTalking := true }
      let st1 : ServerState :=
        { st with rooms := (mapSet st.rooms p.room
            { roomData with participants := mapSet roomData.participants sock.id user1 }) }
      (st1, socketTo st1.sockets p.room sock.id
        (OutEvent.userTalking sock.id sock.userName true))
    else (st, [])

/-- The `stop-talking` handler (`server.js` lines 127-143). -/
def handleStopTalking (st : ServerState) (sock : Socket) (p : RoomPayload) :
    ServerState × List Msg :=
  match mapLookup st.rooms p.room with
  | none => (st, [])
  | some roomData =>
    if mapHas roomData.participants sock.id then
      let user := (mapLookup roomData.participants sock.id).getD ⟨sock.id, none, false, 0⟩
      let user1 := { user with isTalking := false }
      let st1 : ServerState :=
        { st with rooms := (mapSet st.rooms p.room
            { roomData with participants := mapSet roomData.participants sock.id user1 }) }
      (st1, socketTo st1.sockets p.room sock.id
        (OutEvent.userTalking sock.id sock.userName false))
    else (st, [])

/-- The `offer` handler (`server.js` lines 146-153): pure relay, no
registry access. -/
def handleOffer (st : ServerState) (sock : Socket) (p : OfferPayload) :
    ServerState × List Msg :=
  (st, socketTo st.sockets p.toId sock.id (OutEvent.offerOut p.offer sock.id p.room))

/-- The `answer` handler (`server.js` lines 155-162). -/
def handleAnswer (st : ServerState) (sock : Socket) (p : AnswerPayload) :
    ServerState × List Msg :=
  (st, socketTo st.sockets p.toId sock.id (OutEvent.answerOut p.answer sock.id p.room))

/-- The `ice-candidate` handler (`server.js` lines 164-171). -/
def handleIceCandidate (st : ServerState) (sock : Socket) (p : IcePayload) :
    ServerState × List Msg :=
  (st, socketTo st.sockets p.toId sock.id (OutEvent.iceCandidateOut p.candidate sock.id p.room))

/-- JS truthiness of `socket.currentRoom` in the `disconnect` handler:
`undefined` and the empty string are falsy, every other string truthy. -/
def jsTruthyRoom : RoomKey → Bool
  | none => false
  | some s => decide (s ≠ "")

/-- The `disconnect` handler (`server.js` lines 178-183): run
`handleUserLeave` on the recorded current room if that is truthy, then
the transport forgets the socket. -/
def handleDisconnect (st : ServerState) (sock : Socket) : ServerState × List Msg :=
  let acted :=
    if jsTruthyRoom sock.currentRoom then handleUserLeave st sock.id sock.currentRoom
    else (st, [])
  ({ acted.1 with sockets := removeSocket acted.1.sockets sock.id }, acted.2)

/-- The periodic cleanup body (`server.js` lines 207-223): collect the
rooms with zero participants and delete them; net effect on the map is
keeping exactly the nonempty rooms. -/
def sweepRooms : List (RoomKey × Room) → List (RoomKey × Room)
  | [] => []
  | (k, r) :: rest =>
    if r.participants.length = 0 then sweepRooms rest else (k, r) :: sweepRooms rest

/-- The sweep timer tick. -/
def handleSweep (st : ServerState) : ServerState :=
  { st with rooms := sweepRooms st.rooms }

/-- A freshly connected socket: socket.io puts it in the room named by
its own id; `userName` and `currentRoom` are still undefined. -/
def freshSocket (sid : String) : Socket :=
  ⟨sid, [some sid], none, none⟩

/-- One inbound event processed to completion.  `Except.error` is an
uncaught handler exception (the process crashes). -/
def step (st : ServerState) (e : InEvent) : Except JsError (ServerState × List Msg) :=
  match e with
  | .connect sid =>
    if sid ∈ st.usedIds then Except.ok (st, [])
    else Except.ok
      ({ st with sockets := st.sockets ++ [freshSocket sid],
                 usedIds := st.usedIds ++ [sid] }, [])
  | .joinRoom sid payload =>
    match findSocket st.sockets sid with
    | none => Except.ok (st, [])
    | some sock =>
      match payload with
      | none => Except.error JsError.destructure
      | some p => Except.ok (handleJoinRoom st sock p)
  | .startTalking sid payload =>
    match findSocket st.sockets sid with
    | none => Except.ok (st, [])
    | some sock =>
      match payload with
      | none => Except.error JsError.destructure
      | some p => Except.ok (handleStartTalking st sock p)
  | .stopTalking sid payload =>
    match findSocket st.sockets sid with
    | none => Except.ok (st, [])
    | some sock =>
      match payload with
      | none => Except.error JsError.destructure
      | some p => Except.ok (handleStopTalking st sock p)
  | .offerEv sid payload =>
    match findSocket st.sockets sid with
    | none => Except.ok (st, [])
    | some sock =>
      match payload with
      | none => Except.error JsError.destructure
      | some p => Except.ok (handleOffer st sock p)
  | .answerEv sid payload =>
    match findSocket st.sockets sid with
    | none => Except.ok (st, [])
    | some sock =>
      match payload with
      | none => Except.error JsError.destructure
      | some p => Except.ok (handleAnswer st sock p)
  | .iceCandidateEv sid payload =>
    match findSocket st.sockets sid with
    | none => Except.ok (st, [])
    | some sock =>
      match payload with
      | none => Except.error JsError.destructure
      | some p => Except.ok (handleIceCandidate st sock p)
  | .leaveRoom sid payload =>
    match findSocket st.sockets sid with
    | none => Except.ok (st, [])
    | some _ =>
      match payload with
      | none => Except.error JsError.destructure
      | some p => Except.ok (handleUserLeave st sid p.room)
  | .disconnect sid =>
    match findSocket st.sockets sid with
    | none => Except.ok (st, [])
    | some sock => Except.ok (handleDisconnect st sock)
  | .sweep => Except.ok (handleSweep st, [])
  | .tick => Except.ok ({ st with now := st.now + 1 }, [])

/-- The state after an event; a crashed process keeps its last state. -/
def stepState (st : ServerState) (e : InEvent) : ServerState :=
  match step st e with
  | Except.ok (st1, _) => st1
  | Except.error _ => st

/-- The messages delivered while processing an event. -/
def stepMsgs (st : ServerState) (e : InEvent) : List Msg :=
  match step st e with
  | Except.ok (_, msgs) => msgs
  | Except.error _ => []

/-- The server right after startup: no rooms, no sockets. -/
def initialState : ServerState :=
  ⟨[], [], [], 0⟩

/-- States reachable by any sequence of events. -/
inductive Reachable : ServerState → Prop where
  | init : Reachable initialState
  | next (st : ServerState) (e : InEvent) : Reachable st → Reachable (stepState st e)

/-- A `join-room` event that does not name the joining connection's own
socket id as the room id (such a join is skipped by the implicit-leave
loop, see the C2/C9 counterexamples). -/
def allowedEvent : InEvent → Prop
  | .joinRoom sid (some p) => p.room ≠ some sid
  | _ => True

/-- States reachable when no client ever joins a room named by its own
connection id. -/
inductive ReachableR : ServerState → Prop where
  | init : ReachableR initialState
  | next (st : ServerState) (e : InEvent) :
      ReachableR st → allowedEvent e → ReachableR (stepState st e)

/-- Response body of `GET /api/rooms/:roomId` (`server.js` lines 39-49). -/
structure RoomInfoResponse where
  participants : List Participant
  participantCount : Nat
deriving DecidableEq

/-- The `GET /api/rooms/:roomId` handler: a read-only adapter over the
registry.  Returned as (state after the request, HTTP status, body); the
source handler only ever calls `res.json` (status 200) and never touches
the registry, which the embedding makes explicit by returning `st`. -/
def getRoomInfo (st : ServerState) (roomId : String) :
    ServerState × Nat × RoomInfoResponse :=
  match mapLookup st.rooms (some roomId) with
  | some room => (st, 200, ⟨mapValues room.participants, room.participants.length⟩)
  | none => (st, 200, ⟨[], 0⟩)

/-- The keys of a room's participants map: the connection ids present. -/
def partKeys (r : Room) : List String :=
  mapKeys r.participants

/-- The socket.io rooms of a socket other than its own-id room. -/
def userRooms (s : Socket) : List RoomKey :=
  listRemove s.sockRooms (some s.id)

/-- Registry rooms that hold a participant record for `sid`. -/
def roomsContaining (st : ServerState) (sid : String) : List RoomKey :=
  mapKeys (st.rooms.filter (fun p => decide (sid ∈ partKeys p.2)))

/-- Well-formedness of the registry: duplicate-free room keys,
duplicate-free participant keys, no empty room stored, and every
participant record keyed by an id the transport issued. -/
def RoomsOk (rooms : List (RoomKey × Room)) (used : List String) : Prop :=
  (mapKeys rooms).Nodup ∧
  (∀ p ∈ rooms, (mapKeys p.2.participants).Nodup) ∧
  (∀ p ∈ rooms, p.2.participants ≠ []) ∧
  (∀ p ∈ rooms, ∀ q ∈ p.2.participants, q.1 ∈ used)

/-- Well-formedness of the socket list: distinct ids, all issued. -/
def SocketsOk (sockets : List Socket) (used : List String) : Prop :=
  (sockets.map Socket.id).Nodup ∧
  (∀ s ∈ sockets, s.id ∈ used)

/-- Basic well-formedness of the state. -/
def InvBase (st : ServerState) : Prop :=
  RoomsOk st.rooms st.usedIds ∧ SocketsOk st.sockets st.usedIds

/-- Consistency of one socket's socket.io room set with the registry:
the set is duplicate-free, holds at most one room besides the own-id
room, every such room exists in the registry and holds the socket, and
conversely every registry room holding the socket is that one. -/
def SockShape (st : ServerState) (s : Socket) : Prop :=
  s.sockRooms.Nodup ∧
  (userRooms s).length ≤ 1 ∧
  (∀ k ∈ userRooms s, ∃ p ∈ st.rooms, p.1 = k ∧ s.id ∈ partKeys p.2) ∧
  (∀ p ∈ st.rooms, s.id ∈ partKeys p.2 → p.1 ∈ userRooms s)

/-- The full inductive invariant maintained (absent own-id-room joins). -/
def InvR (st : ServerState) : Prop :=
  InvBase st ∧ ∀ s ∈ st.sockets, SockShape st s

instance (rooms : List (RoomKey × Room)) (used : List String) :
    Decidable (RoomsOk rooms used) := by
  unfold RoomsOk; infer_instance

instance (sockets : List Socket) (used : List String) :
    Decidable (SocketsOk sockets used) := by
  unfold SocketsOk; infer_instance

instance (st : ServerState) : Decidable (InvBase st) := by
  unfold InvBase; infer_instance

instance (st : ServerState) (s : Socket) : Decidable (SockShape st s) := by
  unfold SockShape; infer_instance

instance (st : ServerState) : Decidable (InvR st) := by
  unfold InvR; infer_instance


theorem mem_listRemove {α : Type} [DecidableEq α] {l : List α} {a x : α} :
    x ∈ listRemove l a ↔ x ∈ l ∧ x ≠ a := by
  induction l with
  | nil => simp [listRemove]
  | cons y ys ih =>
    simp only [listRemove]
    split
    next h =>
      subst h
      rw [ih]
      constructor
      · rintro ⟨hx, hne⟩
        exact ⟨List.mem_cons_of_mem _ hx, hne⟩
      · rintro ⟨hx, hne⟩
        rcases List.mem_cons.mp hx with rfl | hx
        · exact absurd rfl hne
        · exact ⟨hx, hne⟩
    next h =>
      constructor
      · intro hx
        rcases List.mem_cons.mp hx with rfl | hx
        · exact ⟨List.mem_cons_self _ _, h⟩
        · have := ih.mp hx
          exact ⟨List.mem_cons_of_mem _ this.1, this.2⟩
      · rintro ⟨hx, hne⟩
        rcases List.mem_cons.mp hx with rfl | hx
        · exact List.mem_cons_self _ _
        · exact List.mem_cons_of_mem _ (ih.mpr ⟨hx, hne⟩)

theorem listRemove_sublist {α : Type} [DecidableEq α] (l : List α) (a : α) :
    List.Sublist (listRemove l a) l := by
  induction l with
  | nil => simp [listRemove]
  | cons y ys ih =>
    simp only [listRemove]
    split
    · exact ih.cons y
    · exact ih.cons₂ y

theorem listRemove_nodup {α : Type} [DecidableEq α] {l : List α} (h : l.Nodup) (a : α) :
    (listRemove l a).Nodup :=
  h.sublist (listRemove_sublist l a)

theorem listRemove_eq_self {α : Type} [DecidableEq α] {l : List α} {a : α} (h : a ∉ l) :
    listRemove l a = l := by
  induction l with
  | nil => simp [listRemove]
  | cons y ys ih =>
    simp only [List.mem_cons] at h
    push_neg at h
    simp only [listRemove]
    split
    next heq => exact absurd heq.symm h.1
    next => rw [ih h.2]

theorem listRemove_comm {α : Type} [DecidableEq α] (l : List α) (a b : α) :
    listRemove (listRemove l a) b = listRemove (listRemove l b) a := by
  induction l with
  | nil => simp [listRemove]
  | cons y ys ih =>
    by_cases ha : y = a
    · subst ha
      by_cases hb : y = b
      · subst hb
        simp [listRemove]
      · simp [listRemove, hb, ih]
    · by_cases hb : y = b
      · subst hb
        simp [listRemove, ha, ih]
      · simp [listRemove, ha, hb, ih]

theorem length_listRemove_le {α : Type} [DecidableEq α] (l : List α) (a : α) :
    (listRemove l a).length ≤ l.length :=
  (listRemove_sublist l a).length_le

section MapLemmas

variable {α : Type} [DecidableEq α] {β : Type}

theorem mapLookup_eq_none_iff {m : List (α × β)} {k : α} :
    mapLookup m k = none ↔ k ∉ mapKeys m := by
  induction m with
  | nil => simp [mapLookup, mapKeys]
  | cons p rest ih =>
    obtain ⟨k', v⟩ := p
    simp only [mapLookup, mapKeys, List.map_cons, List.mem_cons]
    split
    next h =>
      subst h
      simp
    next h =>
      rw [ih]
      simp only [mapKeys]
      constructor
      · intro hk hor
        rcases hor with rfl | hmem
        · exact h rfl
        · exact hk hmem
      · intro hk hmem
        exact hk (Or.inr hmem)

theorem mapLookup_isSome_iff {m : List (α × β)} {k : α} :
    (mapLookup m k).isSome = true ↔ k ∈ mapKeys m := by
  rcases ho : mapLookup m k with _ | v
  · simpa using mapLookup_eq_none_iff.mp ho
  · simp only [Option.isSome_some, true_iff]
    by_contra hk
    rw [mapLookup_eq_none_iff.mpr hk] at ho
    exact Option.noConfusion ho

theorem mem_of_mapLookup_eq_some {m : List (α × β)} {k : α} {v : β}
    (h : mapLookup m k = some v) : (k, v) ∈ m := by
  induction m with
  | nil => simp [mapLookup] at h
  | cons p rest ih =>
    obtain ⟨k', v'⟩ := p
    simp only [mapLookup] at h
    split at h
    next heq =>
      subst heq
      rw [Option.some.injEq] at h
      subst h
      exact List.mem_cons_self _ _
    next =>
      exact List.mem_cons_of_mem _ (ih h)

theorem mapLookup_of_mem_nodup {m : List (α × β)} {k : α} {v : β}
    (hnd : (mapKeys m).Nodup) (h : (k, v) ∈ m) : mapLookup m k = some v := by
  induction m with
  | nil => simp at h
  | cons p rest ih =>
    obtain ⟨k', v'⟩ := p
    simp only [mapKeys, List.map_cons, List.nodup_cons] at hnd
    rcases List.mem_cons.mp h with heq | hmem
    · rw [Prod.mk.injEq] at heq
      obtain ⟨rfl, rfl⟩ := heq
      simp [mapLookup]
    · have hk : ¬ k' = k := by
        rintro rfl
        exact hnd.1 (List.mem_map.mpr ⟨(k', v), hmem, rfl⟩)
      simp only [mapLookup, if_neg hk]
      exact ih hnd.2 hmem

theorem mapLookup_mapSet_self {m : List (α × β)} {k : α} {v : β} :
    mapLookup (mapSet m k v) k = some v := by
  induction m with
  | nil => simp [mapSet, mapLookup]
  | cons p rest ih =>
    obtain ⟨k', v'⟩ := p
    simp only [mapSet]
    split
    next => simp [mapLookup]
    next h => simp only [mapLookup, if_neg h, ih]

theorem mapLookup_mapSet_ne {m : List (α × β)} {k k' : α} {v : β} (h : ¬ k' = k) :
    mapLookup (mapSet m k v) k' = mapLookup m k' := by
  induction m with
  | nil =>
    simp only [mapSet, mapLookup]
    rw [if_neg (fun hk => h hk.symm)]
  | cons p rest ih =>
    obtain ⟨k0, v0⟩ := p
    simp only [mapSet]
    split
    next heq =>
      subst heq
      simp only [mapLookup]
      rw [if_neg (fun hk => h hk.symm), if_neg (fun hk => h hk.symm)]
    next hne =>
      simp only [mapLookup, ih]

theorem mapLookup_mapDelete_self {m : List (α × β)} {k : α} :
    mapLookup (mapDelete m k) k = none := by
  induction m with
  | nil => simp [mapDelete, mapLookup]
  | cons p rest ih =>
    obtain ⟨k', v'⟩ := p
    simp only [mapDelete]
    split
    next => exact ih
    next h => simp only [mapLookup, if_neg h, ih]

theorem mapLookup_mapDelete_ne {m : List (α × β)} {k k' : α} (h : ¬ k' = k) :
    mapLookup (mapDelete m k) k' = mapLookup m k' := by
  induction m with
  | nil => simp [mapDelete]
  | cons p rest ih =>
    obtain ⟨k0, v0⟩ := p
    simp only [mapDelete]
    split
    next heq =>
      subst heq
      simp only [mapLookup]
      rw [if_neg (fun hk => h hk.symm)]
      exact ih
    next hne =>
      simp only [mapLookup, ih]

theorem mem_mapDelete_iff {m : List (α × β)} {k : α} {p : α × β} :
    p ∈ mapDelete m k ↔ p ∈ m ∧ p.1 ≠ k := by
  induction m with
  | nil => simp [mapDelete]
  | cons q rest ih =>
    obtain ⟨k', v'⟩ := q
    simp only [mapDelete]
    split
    next heq =>
      subst heq
      rw [ih]
      constructor
      · rintro ⟨hp, hne⟩
        exact ⟨List.mem_cons_of_mem _ hp, hne⟩
      · rintro ⟨hp, hne⟩
        rcases List.mem_cons.mp hp with rfl | hp
        · exact absurd rfl hne
        · exact ⟨hp, hne⟩
    next hne =>
      constructor
      · intro hp
        rcases List.mem_cons.mp hp with rfl | hp
        · exact ⟨List.mem_cons_self _ _, hne⟩
        · have := ih.mp hp
          exact ⟨List.mem_cons_of_mem _ this.1, this.2⟩
      · rintro ⟨hp, hpk⟩
        rcases List.mem_cons.mp hp with rfl | hp
        · exact List.mem_cons_self _ _
        · exact List.mem_cons_of_mem _ (ih.mpr ⟨hp, hpk⟩)

theorem mapKeys_mapDelete {m : List (α × β)} {k : α} :
    mapKeys (mapDelete m k) = listRemove (mapKeys m) k := by
  induction m with
  | nil => simp [mapDelete, mapKeys, listRemove]
  | cons p rest ih =>
    obtain ⟨k', v'⟩ := p
    simp only [mapDelete, mapKeys, List.map_cons, listRemove]
    split
    next => simpa [mapKeys] using ih
    next =>
      simp only [mapKeys] at ih
      rw [List.map_cons, ih]

theorem mapDelete_eq_self {m : List (α × β)} {k : α} (h : k ∉ mapKeys m) :
    mapDelete m k = m := by
  induction m with
  | nil => simp [mapDelete]
  | cons p rest ih =>
    obtain ⟨k', v'⟩ := p
    simp only [mapKeys, List.map_cons, List.mem_cons] at h
    push_neg at h
    simp only [mapDelete]
    split
    next heq => exact absurd heq.symm h.1
    next => rw [ih h.2]

theorem mapSet_eq_of_lookup {m : List (α × β)} {k : α} {v : β}
    (h : mapLookup m k = some v) : mapSet m k v = m := by
  induction m with
  | nil => simp [mapLookup] at h
  | cons p rest ih =>
    obtain ⟨k', v'⟩ := p
    simp only [mapLookup] at h
    simp only [mapSet]
    split
    next heq =>
      subst heq
      rw [if_pos rfl] at h
      rw [Option.some.injEq] at h
      rw [h]
    next hne =>
      rw [if_neg hne] at h
      rw [ih h]

theorem mapSet_eq_append {m : List (α × β)} {k : α} {v : β} (h : k ∉ mapKeys m) :
    mapSet m k v = m ++ [(k, v)] := by
  induction m with
  | nil => simp [mapSet]
  | cons p rest ih =>
    obtain ⟨k', v'⟩ := p
    simp only [mapKeys, List.map_cons, List.mem_cons] at h
    push_neg at h
    simp only [mapSet]
    split
    next heq => exact absurd heq.symm h.1
    next => rw [ih h.2, List.cons_append]

theorem mapKeys_mapSet_of_mem {m : List (α × β)} {k : α} {v : β} (h : k ∈ mapKeys m) :
    mapKeys (mapSet m k v) = mapKeys m := by
  induction m with
  | nil => simp [mapKeys] at h
  | cons p rest ih =>
    obtain ⟨k', v'⟩ := p
    simp only [mapSet]
    split
    next heq => subst heq; simp [mapKeys]
    next hne =>
      simp only [mapKeys, List.map_cons] at h ⊢
      rcases List.mem_cons.mp h with rfl | h
      · exact absurd rfl hne
      · simp only [mapKeys] at ih
        rw [ih h]

theorem mapKeys_mapSet_of_not_mem {m : List (α × β)} {k : α} {v : β} (h : k ∉ mapKeys m) :
    mapKeys (mapSet m k v) = mapKeys m ++ [k] := by
  rw [mapSet_eq_append h]
  simp [mapKeys]

theorem mapKeys_nodup_mapSet {m : List (α × β)} {k : α} {v : β}
    (h : (mapKeys m).Nodup) : (mapKeys (mapSet m k v)).Nodup := by
  by_cases hk : k ∈ mapKeys m
  · rw [mapKeys_mapSet_of_mem hk]; exact h
  · rw [mapKeys_mapSet_of_not_mem hk]
    rw [List.nodup_append]
    refine ⟨h, List.nodup_singleton k, ?_⟩
    intro a ha hb
    rw [List.mem_singleton] at hb
    subst hb
    exact hk ha

theorem mapKeys_nodup_mapDelete {m : List (α × β)} {k : α}
    (h : (mapKeys m).Nodup) : (mapKeys (mapDelete m k)).Nodup := by
  rw [mapKeys_mapDelete]
  exact listRemove_nodup h k

theorem mem_mapSet_nodup {m : List (α × β)} {k : α} {v : β} {p : α × β}
    (hnd : (mapKeys m).Nodup) :
    p ∈ mapSet m k v ↔ p = (k, v) ∨ (p ∈ m ∧ p.1 ≠ k) := by
  induction m with
  | nil => simp [mapSet]
  | cons q rest ih =>
    obtain ⟨k', v'⟩ := q
    simp only [mapKeys, List.map_cons, List.nodup_cons] at hnd
    simp only [mapSet]
    split
    next heq =>
      subst heq
      constructor
      · intro hp
        rcases List.mem_cons.mp hp with rfl | hp
        · exact Or.inl rfl
        · refine Or.inr ⟨List.mem_cons_of_mem _ hp, ?_⟩
          intro hpk
          exact hnd.1 (List.mem_map.mpr ⟨p, hp, hpk⟩)
      · rintro (rfl | ⟨hp, hne⟩)
        · exact List.mem_cons_self _ _
        · rcases List.mem_cons.mp hp with rfl | hp
          · exact absurd rfl hne
          · exact List.mem_cons_of_mem _ hp
    next hne =>
      constructor
      · intro hp
        rcases List.mem_cons.mp hp with rfl | hp
        · exact Or.inr ⟨List.mem_cons_self _ _, hne⟩
        · rcases (ih hnd.2).mp hp with rfl | ⟨hp2, hpk⟩
          · exact Or.inl rfl
          · exact Or.inr ⟨List.mem_cons_of_mem _ hp2, hpk⟩
      · rintro (rfl | ⟨hp, hpk⟩)
        · exact List.mem_cons_of_mem _ ((ih hnd.2).mpr (Or.inl rfl))
        · rcases List.mem_cons.mp hp with rfl | hp
          · exact List.mem_cons_self _ _
          · exact List.mem_cons_of_mem _ ((ih hnd.2).mpr (Or.inr ⟨hp, hpk⟩))

theorem mapSet_ne_nil {m : List (α × β)} {k : α} {v : β} : mapSet m k v ≠ [] := by
  cases m with
  | nil => simp [mapSet]
  | cons p rest =>
    obtain ⟨k', v'⟩ := p
    simp only [mapSet]
    split <;> simp

end MapLemmas

theorem findSocket_eq_some {socks : List Socket} {sid : String} {s : Socket}
    (h : findSocket socks sid = some s) : s ∈ socks ∧ s.id = sid := by
  induction socks with
  | nil => simp [findSocket] at h
  | cons t rest ih =>
    simp only [findSocket] at h
    split at h
    next heq =>
      rw [Option.some.injEq] at h
      subst h
      exact ⟨List.mem_cons_self _ _, heq⟩
    next =>
      have := ih h
      exact ⟨List.mem_cons_of_mem _ this.1, this.2⟩

theorem findSocket_eq_none_iff {socks : List Socket} {sid : String} :
    findSocket socks sid = none ↔ ∀ s ∈ socks, s.id ≠ sid := by
  induction socks with
  | nil => simp [findSocket]
  | cons t rest ih =>
    simp only [findSocket]
    split
    next heq =>
      constructor
      · intro h
        exact Option.noConfusion h
      · intro hall
        exact ((hall t (List.mem_cons_self _ _)) heq).elim
    next hne =>
      rw [ih]
      constructor
      · intro hall s hs
        rcases List.mem_cons.mp hs with rfl | hs
        · exact hne
        · exact hall s hs
      · intro hall s hs
        exact hall s (List.mem_cons_of_mem _ hs)

theorem findSocket_of_mem_nodup {socks : List Socket} {s : Socket}
    (hnd : (socks.map Socket.id).Nodup) (hmem : s ∈ socks) :
    findSocket socks s.id = some s := by
  induction socks with
  | nil => simp at hmem
  | cons t rest ih =>
    simp only [List.map_cons, List.nodup_cons] at hnd
    rcases List.mem_cons.mp hmem with rfl | hmem
    · simp [findSocket]
    · have hne : ¬ t.id = s.id := by
        intro heq
        exact hnd.1 (List.mem_map.mpr ⟨s, hmem, heq.symm⟩)
      simp only [findSocket, if_neg hne]
      exact ih hnd.2 hmem

theorem mem_updateSocket_iff {socks : List Socket} {sid : String} {f : Socket → Socket}
    {s' : Socket} :
    s' ∈ updateSocket socks sid f ↔
      ∃ s ∈ socks, s' = if s.id = sid then f s else s := by
  induction socks with
  | nil => simp [updateSocket]
  | cons t rest ih =>
    simp only [updateSocket, List.mem_cons, ih]
    constructor
    · rintro (rfl | ⟨s, hs, rfl⟩)
      · exact ⟨t, Or.inl rfl, rfl⟩
      · exact ⟨s, Or.inr hs, rfl⟩
    · rintro ⟨s, rfl | hs, rfl⟩
      · exact Or.inl rfl
      · exact Or.inr ⟨s, hs, rfl⟩

theorem updateSocket_map_id {socks : List Socket} {sid : String} {f : Socket → Socket}
    (hf : ∀ s, (f s).id = s.id) :
    (updateSocket socks sid f).map Socket.id = socks.map Socket.id := by
  induction socks with
  | nil => simp [updateSocket]
  | cons t rest ih =>
    simp only [updateSocket, List.map_cons, ih]
    split
    next => rw [hf]
    next => rfl

theorem updateSocket_eq_self {socks : List Socket} {sid : String} {f : Socket → Socket}
    (h : ∀ s ∈ socks, s.id = sid → f s = s) :
    updateSocket socks sid f = socks := by
  induction socks with
  | nil => simp [updateSocket]
  | cons t rest ih =>
    simp only [updateSocket]
    have hrest : updateSocket rest sid f = rest :=
      ih (fun s hs => h s (List.mem_cons_of_mem _ hs))
    rw [hrest]
    split
    next heq => rw [h t (List.mem_cons_self _ _) heq]
    next => rfl

theorem mem_removeSocket_iff {socks : List Socket} {sid : String} {s : Socket} :
    s ∈ removeSocket socks sid ↔ s ∈ socks ∧ s.id ≠ sid := by
  induction socks with
  | nil => simp [removeSocket]
  | cons t rest ih =>
    simp only [removeSocket]
    split
    next heq =>
      rw [ih]
      constructor
      · rintro ⟨hs, hne⟩
        exact ⟨List.mem_cons_of_mem _ hs, hne⟩
      · rintro ⟨hs, hne⟩
        rcases List.mem_cons.mp hs with rfl | hs
        · exact absurd heq hne
        · exact ⟨hs, hne⟩
    next hne =>
      constructor
      · intro hs
        rcases List.mem_cons.mp hs with rfl | hs
        · exact ⟨List.mem_cons_self _ _, hne⟩
        · have := ih.mp hs
          exact ⟨List.mem_cons_of_mem _ this.1, this.2⟩
      · rintro ⟨hs, hne2⟩
        rcases List.mem_cons.mp hs with rfl | hs
        · exact List.mem_cons_self _ _
        · exact List.mem_cons_of_mem _ (ih.mpr ⟨hs, hne2⟩)

theorem removeSocket_map_id_sublist {socks : List Socket} {sid : String} :
    List.Sublist ((removeSocket socks sid).map Socket.id) (socks.map Socket.id) := by
  induction socks with
  | nil => simp [removeSocket]
  | cons t rest ih =>
    simp only [removeSocket]
    split
    next => exact ih.trans (List.sublist_cons_self _ _)
    next => simpa using ih.cons₂ t.id

theorem mem_ioTo_iff {socks : List Socket} {k : RoomKey} {ev : OutEvent} {m : Msg} :
    m ∈ ioTo socks k ev ↔ ∃ s ∈ socks, k ∈ s.sockRooms ∧ m = ⟨s.id, ev⟩ := by
  induction socks with
  | nil => simp [ioTo]
  | cons t rest ih =>
    simp only [ioTo]
    split
    next hk =>
      simp only [List.mem_cons, ih]
      constructor
      · rintro (rfl | ⟨s, hs, hks, rfl⟩)
        · exact ⟨t, Or.inl rfl, hk, rfl⟩
        · exact ⟨s, Or.inr hs, hks, rfl⟩
      · rintro ⟨s, rfl | hs, hks, rfl⟩
        · exact Or.inl rfl
        · exact Or.inr ⟨s, hs, hks, rfl⟩
    next hk =>
      rw [ih]
      constructor
      · rintro ⟨s, hs, hks, rfl⟩
        exact ⟨s, List.mem_cons_of_mem _ hs, hks, rfl⟩
      · rintro ⟨s, hs, hks, rfl⟩
        rcases List.mem_cons.mp hs with rfl | hs
        · exact absurd hks hk
        · exact ⟨s, hs, hks, rfl⟩

theorem mem_socketTo_iff {socks : List Socket} {k : RoomKey} {sender : String}
    {ev : OutEvent} {m : Msg} :
    m ∈ socketTo socks k sender ev ↔
      ∃ s ∈ socks, k ∈ s.sockRooms ∧ s.id ≠ sender ∧ m = ⟨s.id, ev⟩ := by
  induction socks with
  | nil => simp [socketTo]
  | cons t rest ih =>
    simp only [socketTo]
    split
    next hk =>
      simp only [List.mem_cons, ih]
      constructor
      · rintro (rfl | ⟨s, hs, hks, hsne, rfl⟩)
        · exact ⟨t, Or.inl rfl, hk.1, hk.2, rfl⟩
        · exact ⟨s, Or.inr hs, hks, hsne, rfl⟩
      · rintro ⟨s, rfl | hs, hks, hsne, rfl⟩
        · exact Or.inl rfl
        · exact Or.inr ⟨s, hs, hks, hsne, rfl⟩
    next hk =>
      rw [ih]
      constructor
      · rintro ⟨s, hs, hks, hsne, rfl⟩
        exact ⟨s, List.mem_cons_of_mem _ hs, hks, hsne, rfl⟩
      · rintro ⟨s, hs, hks, hsne, rfl⟩
        rcases List.mem_cons.mp hs with rfl | hs
        · exact absurd ⟨hks, hsne⟩ hk
        · exact ⟨s, hs, hks, hsne, rfl⟩

theorem socketTo_eq_nil {socks : List Socket} {k : RoomKey} {sender : String}
    {ev : OutEvent} (h : ∀ s ∈ socks, k ∈ s.sockRooms → s.id = sender) :
    socketTo socks k sender ev = [] := by
  induction socks with
  | nil => simp [socketTo]
  | cons t rest ih =>
    simp only [socketTo]
    split
    next hk => exact absurd (h t (List.mem_cons_self _ _) hk.1) hk.2
    next => exact ih (fun s hs => h s (List.mem_cons_of_mem _ hs))

theorem socketTo_singleton {socks : List Socket} {t : String} {sender : String}
    {ev : OutEvent} {tgt : Socket}
    (hnd : (socks.map Socket.id).Nodup)
    (htgt : tgt ∈ socks) (hid : tgt.id = t) (hroom : some t ∈ tgt.sockRooms)
    (hts : t ≠ sender)
    (honly : ∀ s ∈ socks, some t ∈ s.sockRooms → s.id = t) :
    socketTo socks (some t) sender ev = [⟨t, ev⟩] := by
  induction socks with
  | nil => simp at htgt
  | cons u rest ih =>
    simp only [List.map_cons, List.nodup_cons] at hnd
    simp only [socketTo]
    rcases List.mem_cons.mp htgt with rfl | hmem
    · rw [if_pos ⟨hroom, by rw [hid]; exact hts⟩]
      rw [hid]
      have hrest : socketTo rest (some t) sender ev = [] := by
        apply socketTo_eq_nil
        intro s hs hk
        have hsid := honly s (List.mem_cons_of_mem _ hs) hk
        exfalso
        apply hnd.1
        rw [List.mem_map]
        exact ⟨s, hs, by rw [hsid, hid]⟩
      rw [hrest]
    · have hune : ¬ (some t ∈ u.sockRooms ∧ u.id ≠ sender) := by
        rintro ⟨huk, _⟩
        have huid := honly u (List.mem_cons_self _ _) huk
        apply hnd.1
        rw [List.mem_map]
        exact ⟨tgt, hmem, by rw [hid, huid]⟩
      rw [if_neg hune]
      exact ih hnd.2 hmem (fun s hs => honly s (List.mem_cons_of_mem _ hs))

theorem ioTo_map_target_sublist {socks : List Socket} {k : RoomKey} {ev : OutEvent} :
    List.Sublist ((ioTo socks k ev).map Msg.target) (socks.map Socket.id) := by
  induction socks with
  | nil => simp [ioTo]
  | cons t rest ih =>
    simp only [ioTo]
    split
    next => simpa using ih.cons₂ t.id
    next => exact ih.trans (List.sublist_cons_self _ _)

theorem ioTo_event {socks : List Socket} {k : RoomKey} {ev : OutEvent} {m : Msg}
    (h : m ∈ ioTo socks k ev) : m.event = ev := by
  obtain ⟨s, _, _, rfl⟩ := mem_ioTo_iff.mp h
  rfl

theorem socketTo_event {socks : List Socket} {k : RoomKey} {sender : String}
    {ev : OutEvent} {m : Msg} (h : m ∈ socketTo socks k sender ev) : m.event = ev := by
  obtain ⟨s, _, _, _, rfl⟩ := mem_socketTo_iff.mp h
  rfl


theorem mapSet_append_entry {β : Type} {m : List (RoomKey × β)} {k : RoomKey} {w v : β}
    (h : k ∉ mapKeys m) : mapSet (m ++ [(k, w)]) k v = m ++ [(k, v)] := by
  induction m with
  | nil => simp [mapSet]
  | cons p rest ih =>
    obtain ⟨k', v'⟩ := p
    simp only [mapKeys, List.map_cons, List.mem_cons] at h
    push_neg at h
    simp only [List.cons_append, mapSet]
    rw [if_neg (fun hk : k' = k => h.1 hk.symm)]
    exact congrArg _ (ih h.2)

theorem sweepRooms_sublist (m : List (RoomKey × Room)) :
    List.Sublist (sweepRooms m) m := by
  induction m with
  | nil => simp [sweepRooms]
  | cons p rest ih =>
    obtain ⟨k, r⟩ := p
    simp only [sweepRooms]
    split
    next => exact ih.cons _
    next => exact ih.cons₂ _

theorem sweepRooms_eq_self {m : List (RoomKey × Room)}
    (h : ∀ p ∈ m, p.2.participants ≠ []) : sweepRooms m = m := by
  induction m with
  | nil => simp [sweepRooms]
  | cons p rest ih =>
    obtain ⟨k, r⟩ := p
    simp only [sweepRooms]
    split
    next hlen =>
      exact absurd (List.length_eq_zero.mp hlen) (h (k, r) (List.mem_cons_self _ _))
    next =>
      rw [ih (fun q hq => h q (List.mem_cons_of_mem _ hq))]

theorem roomsOk_mono_used {rooms : List (RoomKey × Room)} {used used' : List String}
    (hsub : ∀ x ∈ used, x ∈ used') (h : RoomsOk rooms used) : RoomsOk rooms used' :=
  ⟨h.1, h.2.1, h.2.2.1, fun p hp q hq => hsub _ (h.2.2.2 p hp q hq)⟩

theorem roomsOk_mapDelete {rooms : List (RoomKey × Room)} {used : List String}
    {k : RoomKey} (h : RoomsOk rooms used) : RoomsOk (mapDelete rooms k) used := by
  obtain ⟨h1, h2, h3, h4⟩ := h
  refine ⟨mapKeys_nodup_mapDelete h1, ?_, ?_, ?_⟩
  · intro p hp
    exact h2 p (mem_mapDelete_iff.mp hp).1
  · intro p hp
    exact h3 p (mem_mapDelete_iff.mp hp).1
  · intro p hp
    exact h4 p (mem_mapDelete_iff.mp hp).1

theorem roomsOk_mapSet {rooms : List (RoomKey × Room)} {used : List String}
    {k : RoomKey} {r : Room} (h : RoomsOk rooms used)
    (hr1 : (mapKeys r.participants).Nodup)
    (hr2 : r.participants ≠ [])
    (hr3 : ∀ q ∈ r.participants, q.1 ∈ used) :
    RoomsOk (mapSet rooms k r) used := by
  obtain ⟨h1, h2, h3, h4⟩ := h
  refine ⟨mapKeys_nodup_mapSet h1, ?_, ?_, ?_⟩
  · intro p hp
    rcases (mem_mapSet_nodup h1).mp hp with rfl | ⟨hp2, _⟩
    · exact hr1
    · exact h2 p hp2
  · intro p hp
    rcases (mem_mapSet_nodup h1).mp hp with rfl | ⟨hp2, _⟩
    · exact hr2
    · exact h3 p hp2
  · intro p hp
    rcases (mem_mapSet_nodup h1).mp hp with rfl | ⟨hp2, _⟩
    · exact hr3
    · exact h4 p hp2

theorem roomsOk_sweep {rooms : List (RoomKey × Room)} {used : List String}
    (h : RoomsOk rooms used) : RoomsOk (sweepRooms rooms) used := by
  obtain ⟨h1, h2, h3, h4⟩ := h
  have hsub := sweepRooms_sublist rooms
  refine ⟨h1.sublist (hsub.map Prod.fst), ?_, ?_, ?_⟩
  · intro p hp
    exact h2 p (hsub.mem hp)
  · intro p hp
    exact h3 p (hsub.mem hp)
  · intro p hp
    exact h4 p (hsub.mem hp)

theorem socketsOk_mono_used {socks : List Socket} {used used' : List String}
    (hsub : ∀ x ∈ used, x ∈ used') (h : SocketsOk socks used) : SocketsOk socks used' :=
  ⟨h.1, fun s hs => hsub _ (h.2 s hs)⟩

theorem socketsOk_update {socks : List Socket} {used : List String} {sid : String}
    {f : Socket → Socket} (hf : ∀ s, (f s).id = s.id) (h : SocketsOk socks used) :
    SocketsOk (updateSocket socks sid f) used := by
  refine ⟨by rw [updateSocket_map_id hf]; exact h.1, ?_⟩
  intro s' hs'
  obtain ⟨s, hs, rfl⟩ := mem_updateSocket_iff.mp hs'
  by_cases hid : s.id = sid
  · rw [if_pos hid, hf]
    exact h.2 s hs
  · rw [if_neg hid]
    exact h.2 s hs

theorem socketsOk_remove {socks : List Socket} {used : List String} {sid : String}
    (h : SocketsOk socks used) : SocketsOk (removeSocket socks sid) used := by
  refine ⟨h.1.sublist removeSocket_map_id_sublist, ?_⟩
  intro s hs
  exact h.2 s (mem_removeSocket_iff.mp hs).1

theorem socketJoin_id (s : Socket) (k : RoomKey) : (socketJoin s k).id = s.id := by
  unfold socketJoin
  split <;> rfl

theorem roomsOk_append_singleton {rooms : List (RoomKey × Room)} {used : List String}
    {k : RoomKey} {r : Room} (h : RoomsOk rooms used) (hk : k ∉ mapKeys rooms)
    (hr1 : (mapKeys r.participants).Nodup) (hr2 : r.participants ≠ [])
    (hr3 : ∀ q ∈ r.participants, q.1 ∈ used) :
    RoomsOk (rooms ++ [(k, r)]) used := by
  obtain ⟨h1, h2, h3, h4⟩ := h
  refine ⟨?_, ?_, ?_, ?_⟩
  · rw [show mapKeys (rooms ++ [(k, r)]) = mapKeys rooms ++ [k] from by simp [mapKeys]]
    rw [List.nodup_append]
    refine ⟨h1, List.nodup_singleton k, ?_⟩
    intro a ha hb
    rw [List.mem_singleton] at hb
    subst hb
    exact hk ha
  · intro q hq
    rcases List.mem_append.mp hq with hq | hq
    · exact h2 q hq
    · rw [List.mem_singleton] at hq
      subst hq
      exact hr1
  · intro q hq
    rcases List.mem_append.mp hq with hq | hq
    · exact h3 q hq
    · rw [List.mem_singleton] at hq
      subst hq
      exact hr2
  · intro q hq
    rcases List.mem_append.mp hq with hq | hq
    · exact h4 q hq
    · rw [List.mem_singleton] at hq
      subst hq
      show ∀ q ∈ r.participants, q.1 ∈ used
      exact hr3

theorem handleUserLeave_absent {st : ServerState} {sid : String} {room : RoomKey}
    (hl : mapLookup st.rooms room = none) :
    handleUserLeave st sid room =
      ({ st with sockets := updateSocket st.sockets sid (fun s => socketLeave s room) }, []) := by
  unfold handleUserLeave
  rw [hl]

theorem handleUserLeave_last {st : ServerState} {sid : String} {room : RoomKey}
    {roomData : Room} (hl : mapLookup st.rooms room = some roomData)
    (hlen : mapDelete roomData.participants sid = []) :
    handleUserLeave st sid room =
      ({ st with rooms := mapDelete st.rooms room,
                 sockets := updateSocket st.sockets sid (fun s => socketLeave s room) }, []) := by
  unfold handleUserLeave
  rw [hl]
  simp [hlen]

theorem handleUserLeave_rest {st : ServerState} {sid : String} {room : RoomKey}
    {roomData : Room} (hl : mapLookup st.rooms room = some roomData)
    (hlen : mapDelete roomData.participants sid ≠ []) :
    handleUserLeave st sid room =
      ({ st with
           rooms := mapSet st.rooms room
             { roomData with participants := mapDelete roomData.participants sid },
           sockets := updateSocket st.sockets sid (fun s => socketLeave s room) },
       socketTo st.sockets room sid
         (OutEvent.userLeft (mapValues (mapDelete roomData.participants sid)))) := by
  unfold handleUserLeave
  rw [hl]
  simp only [List.length_eq_zero, if_neg hlen]

theorem cleanupStep_self {sid : String} {acc : ServerState × List Msg} {k : RoomKey}
    (h : k = some sid) : cleanupStep sid acc k = acc := by
  unfold cleanupStep
  rw [if_pos h]

theorem cleanupStep_absent {sid : String} {acc : ServerState × List Msg} {k : RoomKey}
    (h : ¬ k = some sid) (hl : mapLookup acc.1.rooms k = none) :
    cleanupStep sid acc k =
      ({ acc.1 with sockets := updateSocket acc.1.sockets sid (fun s => socketLeave s k) },
       acc.2) := by
  unfold cleanupStep
  rw [if_neg h]
  dsimp only
  rw [hl]

theorem cleanupStep_last {sid : String} {acc : ServerState × List Msg} {k : RoomKey}
    {existingRoom : Room} (h : ¬ k = some sid)
    (hl : mapLookup acc.1.rooms k = some existingRoom)
    (hlen : mapDelete existingRoom.participants sid = []) :
    cleanupStep sid acc k =
      ({ acc.1 with rooms := mapDelete acc.1.rooms k,
                    sockets := updateSocket acc.1.sockets sid (fun s => socketLeave s k) },
       acc.2) := by
  unfold cleanupStep
  rw [if_neg h]
  dsimp only
  rw [hl]
  simp [hlen]

theorem cleanupStep_rest {sid : String} {acc : ServerState × List Msg} {k : RoomKey}
    {existingRoom : Room} (h : ¬ k = some sid)
    (hl : mapLookup acc.1.rooms k = some existingRoom)
    (hlen : mapDelete existingRoom.participants sid ≠ []) :
    cleanupStep sid acc k =
      ({ acc.1 with
           rooms := mapSet acc.1.rooms k
             { existingRoom with participants := mapDelete existingRoom.participants sid },
           sockets := updateSocket acc.1.sockets sid (fun s => socketLeave s k) },
       acc.2 ++ socketTo (updateSocket acc.1.sockets sid (fun s => socketLeave s k)) k sid
         (OutEvent.userLeft (mapValues (mapDelete existingRoom.participants sid)))) := by
  unfold cleanupStep
  rw [if_neg h]
  dsimp only
  rw [hl]
  simp only [List.length_eq_zero, if_neg hlen]


/-- The part of the `join-room` handler after the implicit-leave loop
(`server.js` lines 76-106), abstracted over the loop's result so the loop
and the join proper can be reasoned about separately.
`handleJoinRoom` is definitionally this applied to the loop's output. -/
def joinPhase (acc : ServerState × List Msg) (sid : String) (p : JoinPayload) :
    ServerState × List Msg :=
  let st1 := acc.1
  let st2 : ServerState :=
    { st1 with sockets := updateSocket st1.sockets sid (fun s => socketJoin s p.room) }
  let st3 : ServerState :=
    if mapHas st2.rooms p.room then st2
    else { st2 with rooms := mapSet st2.rooms p.room ⟨p.room, [], st2.now⟩ }
  let roomData := (mapLookup st3.rooms p.room).getD ⟨p.room, [], st3.now⟩
  let newPart : Participant := ⟨sid, p.userName, false, st3.now⟩
  let roomData1 : Room :=
    { roomData with participants := mapSet roomData.participants sid newPart }
  let st4 : ServerState := { st3 with rooms := mapSet st3.rooms p.room roomData1 }
  let st5 : ServerState :=
    { st4 with sockets := (updateSocket st4.sockets sid
        (fun s => { s with userName := p.userName, currentRoom := p.room })) }
  (st5, acc.2 ++ ioTo st5.sockets p.room (OutEvent.userJoined (mapValues roomData1.participants)))

theorem handleJoinRoom_eq (st : ServerState) (sock : Socket) (p : JoinPayload) :
    handleJoinRoom st sock p =
      joinPhase (sock.sockRooms.foldl (cleanupStep sock.id) (st, [])) sock.id p := rfl

theorem joinPhase_present {acc : ServerState × List Msg} {sid : String} {p : JoinPayload}
    {roomData : Room} (hl : mapLookup acc.1.rooms p.room = some roomData) :
    joinPhase acc sid p =
      ({ acc.1 with
           rooms := (mapSet acc.1.rooms p.room
             { roomData with participants :=
                 (mapSet roomData.participants sid ⟨sid, p.userName, false, acc.1.now⟩) }),
           sockets := (updateSocket (updateSocket acc.1.sockets sid (fun s => socketJoin s p.room)) sid
             (fun s => { s with userName := p.userName, currentRoom := p.room })) },
       acc.2 ++ ioTo (updateSocket (updateSocket acc.1.sockets sid (fun s => socketJoin s p.room)) sid
           (fun s => { s with userName := p.userName, currentRoom := p.room })) p.room
         (OutEvent.userJoined (mapValues
           (mapSet roomData.participants sid ⟨sid, p.userName, false, acc.1.now⟩)))) := by
  have hhas : mapHas acc.1.rooms p.room = true := by
    rw [mapHas, hl]
    rfl
  unfold joinPhase
  dsimp only
  rw [if_pos hhas, hl]
  simp only [Option.getD_some]

theorem joinPhase_absent {acc : ServerState × List Msg} {sid : String} {p : JoinPayload}
    (hl : mapLookup acc.1.rooms p.room = none) :
    joinPhase acc sid p =
      ({ acc.1 with
           rooms := acc.1.rooms ++
             [(p.room, ⟨p.room, [(sid, ⟨sid, p.userName, false, acc.1.now⟩)], acc.1.now⟩)],
           sockets := (updateSocket (updateSocket acc.1.sockets sid (fun s => socketJoin s p.room)) sid
             (fun s => { s with userName := p.userName, currentRoom := p.room })) },
       acc.2 ++ ioTo (updateSocket (updateSocket acc.1.sockets sid (fun s => socketJoin s p.room)) sid
           (fun s => { s with userName := p.userName, currentRoom := p.room })) p.room
         (OutEvent.userJoined [⟨sid, p.userName, false, acc.1.now⟩])) := by
  have hhas : ¬ mapHas acc.1.rooms p.room = true := by
    rw [mapHas, hl]
    simp
  have hnk : p.room ∉ mapKeys acc.1.rooms := mapLookup_eq_none_iff.mp hl
  unfold joinPhase
  dsimp only
  rw [if_neg hhas, mapLookup_mapSet_self]
  simp only [Option.getD_some]
  rw [mapSet_eq_append hnk, mapSet_append_entry hnk]
  rfl

theorem cleanupStep_frame (sid : String) (acc : ServerState × List Msg) (k : RoomKey) :
    (cleanupStep sid acc k).1.usedIds = acc.1.usedIds ∧
    (cleanupStep sid acc k).1.now = acc.1.now := by
  by_cases hk : k = some sid
  · rw [cleanupStep_self hk]
    exact ⟨rfl, rfl⟩
  · rcases hl : mapLookup acc.1.rooms k with _ | r
    · rw [cleanupStep_absent hk hl]
      exact ⟨rfl, rfl⟩
    · by_cases hlen : mapDelete r.participants sid = []
      · rw [cleanupStep_last hk hl hlen]
        exact ⟨rfl, rfl⟩
      · rw [cleanupStep_rest hk hl hlen]
        exact ⟨rfl, rfl⟩

theorem foldl_cleanup_frame (sid : String) (l : List RoomKey) (acc : ServerState × List Msg) :
    (l.foldl (cleanupStep sid) acc).1.usedIds = acc.1.usedIds ∧
    (l.foldl (cleanupStep sid) acc).1.now = acc.1.now := by
  induction l generalizing acc with
  | nil => exact ⟨rfl, rfl⟩
  | cons x xs ih =>
    simp only [List.foldl_cons]
    have h1 := cleanupStep_frame sid acc x
    have h2 := ih (cleanupStep sid acc x)
    exact ⟨h2.1.trans h1.1, h2.2.trans h1.2⟩

theorem foldl_cleanup_filter (sid : String) (l : List RoomKey) (acc : ServerState × List Msg) :
    l.foldl (cleanupStep sid) acc = (listRemove l (some sid)).foldl (cleanupStep sid) acc := by
  induction l generalizing acc with
  | nil => rfl
  | cons x xs ih =>
    simp only [List.foldl_cons, listRemove]
    split
    next hx =>
      rw [cleanupStep_self hx]
      exact ih acc
    next hx =>
      simp only [List.foldl_cons]
      exact ih (cleanupStep sid acc x)

theorem invBase_cleanupStep {sid : String} {acc : ServerState × List Msg} (k : RoomKey)
    (h : InvBase acc.1) : InvBase (cleanupStep sid acc k).1 := by
  obtain ⟨hr, hs⟩ := h
  by_cases hk : k = some sid
  · rw [cleanupStep_self hk]
    exact ⟨hr, hs⟩
  · rcases hl : mapLookup acc.1.rooms k with _ | r
    · rw [cleanupStep_absent hk hl]
      exact ⟨hr, socketsOk_update (fun s => rfl) hs⟩
    · have hmem := mem_of_mapLookup_eq_some hl
      by_cases hlen : mapDelete r.participants sid = []
      · rw [cleanupStep_last hk hl hlen]
        exact ⟨roomsOk_mapDelete hr, socketsOk_update (fun s => rfl) hs⟩
      · rw [cleanupStep_rest hk hl hlen]
        refine ⟨?_, socketsOk_update (fun s => rfl) hs⟩
        refine roomsOk_mapSet hr ?_ ?_ ?_
        · show (mapKeys (mapDelete r.participants sid)).Nodup
          rw [mapKeys_mapDelete]
          exact listRemove_nodup (hr.2.1 _ hmem) sid
        · show mapDelete r.participants sid ≠ []
          exact hlen
        · intro q hq
          exact hr.2.2.2 _ hmem q (mem_mapDelete_iff.mp hq).1

theorem invBase_foldl_cleanup {sid : String} (l : List RoomKey)
    {acc : ServerState × List Msg} (h : InvBase acc.1) :
    InvBase (l.foldl (cleanupStep sid) acc).1 := by
  induction l generalizing acc with
  | nil => exact h
  | cons x xs ih =>
    simp only [List.foldl_cons]
    exact ih (invBase_cleanupStep x h)

theorem invBase_joinPhase {acc : ServerState × List Msg} {sid : String} {p : JoinPayload}
    (h : InvBase acc.1) (hsid : sid ∈ acc.1.usedIds) : InvBase (joinPhase acc sid p).1 := by
  obtain ⟨hr, hs⟩ := h
  have hsock : SocketsOk
      (updateSocket (updateSocket acc.1.sockets sid (fun s => socketJoin s p.room)) sid
        (fun s => { s with userName := p.userName, currentRoom := p.room })) acc.1.usedIds :=
    socketsOk_update (fun s => rfl)
      (socketsOk_update (fun s => socketJoin_id s p.room) hs)
  rcases hl : mapLookup acc.1.rooms p.room with _ | roomData
  · rw [joinPhase_absent hl]
    refine ⟨?_, hsock⟩
    refine roomsOk_append_singleton hr (mapLookup_eq_none_iff.mp hl) ?_ ?_ ?_
    · simp [mapKeys]
    · simp
    · intro q hq
      rw [List.mem_singleton] at hq
      subst hq
      exact hsid
  · rw [joinPhase_present hl]
    have hmem := mem_of_mapLookup_eq_some hl
    refine ⟨?_, hsock⟩
    refine roomsOk_mapSet hr ?_ ?_ ?_
    · show (mapKeys (mapSet roomData.participants sid ⟨sid, p.userName, false, acc.1.now⟩)).Nodup
      exact mapKeys_nodup_mapSet (hr.2.1 _ hmem)
    · show mapSet roomData.participants sid ⟨sid, p.userName, false, acc.1.now⟩ ≠ []
      exact mapSet_ne_nil
    · intro q hq
      rcases (mem_mapSet_nodup (hr.2.1 _ hmem)).mp hq with rfl | ⟨hq2, _⟩
      · exact hsid
      · exact hr.2.2.2 _ hmem q hq2

theorem invBase_handleJoinRoom {st : ServerState} {sock : Socket} {p : JoinPayload}
    (h : InvBase st) (hsid : sock.id ∈ st.usedIds) :
    InvBase (handleJoinRoom st sock p).1 := by
  rw [handleJoinRoom_eq]
  have hbase := @invBase_foldl_cleanup sock.id sock.sockRooms (st, []) h
  have hused := (foldl_cleanup_frame sock.id sock.sockRooms (st, [])).1
  exact invBase_joinPhase hbase (by rw [hused]; exact hsid)

theorem invBase_handleUserLeave {st : ServerState} (sid : String) (room : RoomKey)
    (h : InvBase st) : InvBase (handleUserLeave st sid room).1 := by
  obtain ⟨hr, hs⟩ := h
  rcases hl : mapLookup st.rooms room with _ | roomData
  · rw [handleUserLeave_absent hl]
    exact ⟨hr, socketsOk_update (fun s => rfl) hs⟩
  · have hmem := mem_of_mapLookup_eq_some hl
    by_cases hlen : mapDelete roomData.participants sid = []
    · rw [handleUserLeave_last hl hlen]
      exact ⟨roomsOk_mapDelete hr, socketsOk_update (fun s => rfl) hs⟩
    · rw [handleUserLeave_rest hl hlen]
      refine ⟨?_, socketsOk_update (fun s => rfl) hs⟩
      refine roomsOk_mapSet hr ?_ ?_ ?_
      · show (mapKeys (mapDelete roomData.participants sid)).Nodup
        rw [mapKeys_mapDelete]
        exact listRemove_nodup (hr.2.1 _ hmem) sid
      · show mapDelete roomData.participants sid ≠ []
        exact hlen
      · intro q hq
        exact hr.2.2.2 _ hmem q (mem_mapDelete_iff.mp hq).1

theorem handleStartTalking_absent {st : ServerState} {sock : Socket} {p : RoomPayload}
    (hl : mapLookup st.rooms p.room = none) :
    handleStartTalking st sock p = (st, []) := by
  unfold handleStartTalking
  rw [hl]

theorem handleStartTalking_notMember {st : ServerState} {sock : Socket} {p : RoomPayload}
    {roomData : Room} (hl : mapLookup st.rooms p.room = some roomData)
    (hm : mapLookup roomData.participants sock.id = none) :
    handleStartTalking st sock p = (st, []) := by
  unfold handleStartTalking
  rw [hl]
  simp [mapHas, hm]

theorem handleStartTalking_member {st : ServerState} {sock : Socket} {p : RoomPayload}
    {roomData : Room} {user : Participant}
    (hl : mapLookup st.rooms p.room = some roomData)
    (hm : mapLookup roomData.participants sock.id = some user) :
    handleStartTalking st sock p =
      ({ st with rooms := (mapSet st.rooms p.room
           { roomData with participants :=
               (mapSet roomData.participants sock.id { user with isTalking := true }) }) },
       socketTo st.sockets p.room sock.id
         (OutEvent.userTalking sock.id sock.userName true)) := by
  unfold handleStartTalking
  rw [hl]
  simp [mapHas, hm]

theorem handleStopTalking_absent {st : ServerState} {sock : Socket} {p : RoomPayload}
    (hl : mapLookup st.rooms p.room = none) :
    handleStopTalking st sock p = (st, []) := by
  unfold handleStopTalking
  rw [hl]

theorem handleStopTalking_notMember {st : ServerState} {sock : Socket} {p : RoomPayload}
    {roomData : Room} (hl : mapLookup st.rooms p.room = some roomData)
    (hm : mapLookup roomData.participants sock.id = none) :
    handleStopTalking st sock p = (st, []) := by
  unfold handleStopTalking
  rw [hl]
  simp [mapHas, hm]

theorem handleStopTalking_member {st : ServerState} {sock : Socket} {p : RoomPayload}
    {roomData : Room} {user : Participant}
    (hl : mapLookup st.rooms p.room = some roomData)
    (hm : mapLookup roomData.participants sock.id = some user) :
    handleStopTalking st sock p =
      ({ st with rooms := (mapSet st.rooms p.room
           { roomData with participants :=
               (mapSet roomData.participants sock.id { user with isTalking := false }) }) },
       socketTo st.sockets p.room sock.id
         (OutEvent.userTalking sock.id sock.userName false)) := by
  unfold handleStopTalking
  rw [hl]
  simp [mapHas, hm]

theorem invBase_handleStartTalking {st : ServerState} {sock : Socket} {p : RoomPayload}
    (h : InvBase st) : InvBase (handleStartTalking st sock p).1 := by
  obtain ⟨hr, hs⟩ := h
  rcases hl : mapLookup st.rooms p.room with _ | roomData
  · rw [handleStartTalking_absent hl]
    exact ⟨hr, hs⟩
  · rcases hm : mapLookup roomData.participants sock.id with _ | user
    · rw [handleStartTalking_notMember hl hm]
      exact ⟨hr, hs⟩
    · rw [handleStartTalking_member hl hm]
      have hmem := mem_of_mapLookup_eq_some hl
      have humem := mem_of_mapLookup_eq_some hm
      refine ⟨?_, hs⟩
      refine roomsOk_mapSet hr ?_ ?_ ?_
      · show (mapKeys (mapSet roomData.participants sock.id
          { user with isTalking := true })).Nodup
        exact mapKeys_nodup_mapSet (hr.2.1 _ hmem)
      · show mapSet roomData.participants sock.id { user with isTalking := true } ≠ []
        exact mapSet_ne_nil
      · intro q hq
        rcases (mem_mapSet_nodup (hr.2.1 _ hmem)).mp hq with rfl | ⟨hq2, _⟩
        · exact hr.2.2.2 _ hmem (sock.id, user) humem
        · exact hr.2.2.2 _ hmem q hq2

theorem invBase_handleStopTalking {st : ServerState} {sock : Socket} {p : RoomPayload}
    (h : InvBase st) : InvBase (handleStopTalking st sock p).1 := by
  obtain ⟨hr, hs⟩ := h
  rcases hl : mapLookup st.rooms p.room with _ | roomData
  · rw [handleStopTalking_absent hl]
    exact ⟨hr, hs⟩
  · rcases hm : mapLookup roomData.participants sock.id with _ | user
    · rw [handleStopTalking_notMember hl hm]
      exact ⟨hr, hs⟩
    · rw [handleStopTalking_member hl hm]
      have hmem := mem_of_mapLookup_eq_some hl
      have humem := mem_of_mapLookup_eq_some hm
      refine ⟨?_, hs⟩
      refine roomsOk_mapSet hr ?_ ?_ ?_
      · show (mapKeys (mapSet roomData.participants sock.id
          { user with isTalking := false })).Nodup
        exact mapKeys_nodup_mapSet (hr.2.1 _ hmem)
      · show mapSet roomData.participants sock.id { user with isTalking := false } ≠ []
        exact mapSet_ne_nil
      · intro q hq
        rcases (mem_mapSet_nodup (hr.2.1 _ hmem)).mp hq with rfl | ⟨hq2, _⟩
        · exact hr.2.2.2 _ hmem (sock.id, user) humem
        · exact hr.2.2.2 _ hmem q hq2

theorem handleDisconnect_truthy {st : ServerState} {sock : Socket}
    (h : jsTruthyRoom sock.currentRoom = true) :
    handleDisconnect st sock =
      ({ (handleUserLeave st sock.id sock.currentRoom).1 with
           sockets := removeSocket (handleUserLeave st sock.id sock.currentRoom).1.sockets sock.id },
       (handleUserLeave st sock.id sock.currentRoom).2) := by
  unfold handleDisconnect
  rw [if_pos h]

theorem handleDisconnect_falsy {st : ServerState} {sock : Socket}
    (h : jsTruthyRoom sock.currentRoom = false) :
    handleDisconnect st sock =
      ({ st with sockets := removeSocket st.sockets sock.id }, []) := by
  unfold handleDisconnect
  rw [h]
  simp

theorem invBase_handleDisconnect {st : ServerState} {sock : Socket}
    (h : InvBase st) : InvBase (handleDisconnect st sock).1 := by
  rcases htr : jsTruthyRoom sock.currentRoom with _ | _
  · rw [handleDisconnect_falsy htr]
    exact ⟨h.1, socketsOk_remove h.2⟩
  · rw [handleDisconnect_truthy htr]
    have := invBase_handleUserLeave sock.id sock.currentRoom h
    exact ⟨this.1, socketsOk_remove this.2⟩


theorem stepState_connect_old {st : ServerState} {sid : String} (h : sid ∈ st.usedIds) :
    stepState st (InEvent.connect sid) = st := by
  simp [stepState, step, h]

theorem stepState_connect_new {st : ServerState} {sid : String} (h : sid ∉ st.usedIds) :
    stepState st (InEvent.connect sid) =
      { st with sockets := st.sockets ++ [freshSocket sid],
                usedIds := st.usedIds ++ [sid] } := by
  simp [stepState, step, h]

theorem stepMsgs_connect {st : ServerState} {sid : String} :
    stepMsgs st (InEvent.connect sid) = [] := by
  by_cases h : sid ∈ st.usedIds <;> simp [stepMsgs, step, h]

theorem stepState_joinRoom_noSock {st : ServerState} {sid : String}
    {payload : Option JoinPayload} (h : findSocket st.sockets sid = none) :
    stepState st (InEvent.joinRoom sid payload) = st := by
  simp [stepState, step, h]

theorem stepState_joinRoom_crash {st : ServerState} {sid : String} {sock : Socket}
    (h : findSocket st.sockets sid = some sock) :
    stepState st (InEvent.joinRoom sid none) = st := by
  simp [stepState, step, h]

theorem stepState_joinRoom {st : ServerState} {sid : String} {sock : Socket}
    {p : JoinPayload} (h : findSocket st.sockets sid = some sock) :
    stepState st (InEvent.joinRoom sid (some p)) = (handleJoinRoom st sock p).1 := by
  simp [stepState, step, h]

theorem stepMsgs_joinRoom {st : ServerState} {sid : String} {sock : Socket}
    {p : JoinPayload} (h : findSocket st.sockets sid = some sock) :
    stepMsgs st (InEvent.joinRoom sid (some p)) = (handleJoinRoom st sock p).2 := by
  simp [stepMsgs, step, h]

theorem stepState_startTalking_noSock {st : ServerState} {sid : String}
    {payload : Option RoomPayload} (h : findSocket st.sockets sid = none) :
    stepState st (InEvent.startTalking sid payload) = st := by
  simp [stepState, step, h]

theorem stepState_startTalking_crash {st : ServerState} {sid : String} {sock : Socket}
    (h : findSocket st.sockets sid = some sock) :
    stepState st (InEvent.startTalking sid none) = st := by
  simp [stepState, step, h]

theorem stepState_startTalking {st : ServerState} {sid : String} {sock : Socket}
    {p : RoomPayload} (h : findSocket st.sockets sid = some sock) :
    stepState st (InEvent.startTalking sid (some p)) = (handleStartTalking st sock p).1 := by
  simp [stepState, step, h]

theorem stepMsgs_startTalking {st : ServerState} {sid : String} {sock : Socket}
    {p : RoomPayload} (h : findSocket st.sockets sid = some sock) :
    stepMsgs st (InEvent.startTalking sid (some p)) = (handleStartTalking st sock p).2 := by
  simp [stepMsgs, step, h]

theorem stepState_stopTalking_noSock {st : ServerState} {sid : String}
    {payload : Option RoomPayload} (h : findSocket st.sockets sid = none) :
    stepState st (InEvent.stopTalking sid payload) = st := by
  simp [stepState, step, h]

theorem stepState_stopTalking_crash {st : ServerState} {sid : String} {sock : Socket}
    (h : findSocket st.sockets sid = some sock) :
    stepState st (InEvent.stopTalking sid none) = st := by
  simp [stepState, step, h]

theorem stepState_stopTalking {st : ServerState} {sid : String} {sock : Socket}
    {p : RoomPayload} (h : findSocket st.sockets sid = some sock) :
    stepState st (InEvent.stopTalking sid (some p)) = (handleStopTalking st sock p).1 := by
  simp [stepState, step, h]

theorem stepMsgs_stopTalking {st : ServerState} {sid : String} {sock : Socket}
    {p : RoomPayload} (h : findSocket st.sockets sid = some sock) :
    stepMsgs st (InEvent.stopTalking sid (some p)) = (handleStopTalking st sock p).2 := by
  simp [stepMsgs, step, h]

theorem stepState_offer {st : ServerState} {sid : String} {sock : Socket}
    {p : OfferPayload} (h : findSocket st.sockets sid = some sock) :
    stepState st (InEvent.offerEv sid (some p)) = st := by
  simp [stepState, step, h, handleOffer]

theorem stepMsgs_offer {st : ServerState} {sid : String} {sock : Socket}
    {p : OfferPayload} (h : findSocket st.sockets sid = some sock) :
    stepMsgs st (InEvent.offerEv sid (some p)) =
      socketTo st.sockets p.toId sock.id (OutEvent.offerOut p.offer sock.id p.room) := by
  simp [stepMsgs, step, h, handleOffer]

theorem stepState_answer {st : ServerState} {sid : String} {sock : Socket}
    {p : AnswerPayload} (h : findSocket st.sockets sid = some sock) :
    stepState st (InEvent.answerEv sid (some p)) = st := by
  simp [stepState, step, h, handleAnswer]

theorem stepMsgs_answer {st : ServerState} {sid : String} {sock : Socket}
    {p : AnswerPayload} (h : findSocket st.sockets sid = some sock) :
    stepMsgs st (InEvent.answerEv sid (some p)) =
      socketTo st.sockets p.toId sock.id (OutEvent.answerOut p.answer sock.id p.room) := by
  simp [stepMsgs, step, h, handleAnswer]

theorem stepState_ice {st : ServerState} {sid : String} {sock : Socket}
    {p : IcePayload} (h : findSocket st.sockets sid = some sock) :
    stepState st (InEvent.iceCandidateEv sid (some p)) = st := by
  simp [stepState, step, h, handleIceCandidate]

theorem stepMsgs_ice {st : ServerState} {sid : String} {sock : Socket}
    {p : IcePayload} (h : findSocket st.sockets sid = some sock) :
    stepMsgs st (InEvent.iceCandidateEv sid (some p)) =
      socketTo st.sockets p.toId sock.id
        (OutEvent.iceCandidateOut p.candidate sock.id p.room) := by
  simp [stepMsgs, step, h, handleIceCandidate]

theorem stepState_offer_noSock {st : ServerState} {sid : String}
    {payload : Option OfferPayload} (h : findSocket st.sockets sid = none) :
    stepState st (InEvent.offerEv sid payload) = st := by
  simp [stepState, step, h]

theorem stepState_answer_noSock {st : ServerState} {sid : String}
    {payload : Option AnswerPayload} (h : findSocket st.sockets sid = none) :
    stepState st (InEvent.answerEv sid payload) = st := by
  simp [stepState, step, h]

theorem stepState_ice_noSock {st : ServerState} {sid : String}
    {payload : Option IcePayload} (h : findSocket st.sockets sid = none) :
    stepState st (InEvent.iceCandidateEv sid payload) = st := by
  simp [stepState, step, h]

theorem stepState_offer_crash {st : ServerState} {sid : String} {sock : Socket}
    (h : findSocket st.sockets sid = some sock) :
    stepState st (InEvent.offerEv sid none) = st := by
  simp [stepState, step, h]

theorem stepState_answer_crash {st : ServerState} {sid : String} {sock : Socket}
    (h : findSocket st.sockets sid = some sock) :
    stepState st (InEvent.answerEv sid none) = st := by
  simp [stepState, step, h]

theorem stepState_ice_crash {st : ServerState} {sid : String} {sock : Socket}
    (h : findSocket st.sockets sid = some sock) :
    stepState st (InEvent.iceCandidateEv sid none) = st := by
  simp [stepState, step, h]

theorem stepState_leaveRoom_noSock {st : ServerState} {sid : String}
    {payload : Option RoomPayload} (h : findSocket st.sockets sid = none) :
    stepState st (InEvent.leaveRoom sid payload) = st := by
  simp [stepState, step, h]

theorem stepState_leaveRoom_crash {st : ServerState} {sid : String} {sock : Socket}
    (h : findSocket st.sockets sid = some sock) :
    stepState st (InEvent.leaveRoom sid none) = st := by
  simp [stepState, step, h]

theorem stepState_leaveRoom {st : ServerState} {sid : String} {sock : Socket}
    {p : RoomPayload} (h : findSocket st.sockets sid = some sock) :
    stepState st (InEvent.leaveRoom sid (some p)) = (handleUserLeave st sid p.room).1 := by
  simp [stepState, step, h]

theorem stepMsgs_leaveRoom {st : ServerState} {sid : String} {sock : Socket}
    {p : RoomPayload} (h : findSocket st.sockets sid = some sock) :
    stepMsgs st (InEvent.leaveRoom sid (some p)) = (handleUserLeave st sid p.room).2 := by
  simp [stepMsgs, step, h]

theorem stepState_disconnect_noSock {st : ServerState} {sid : String}
    (h : findSocket st.sockets sid = none) :
    stepState st (InEvent.disconnect sid) = st := by
  simp [stepState, step, h]

theorem stepState_disconnect {st : ServerState} {sid : String} {sock : Socket}
    (h : findSocket st.sockets sid = some sock) :
    stepState st (InEvent.disconnect sid) = (handleDisconnect st sock).1 := by
  simp [stepState, step, h]

theorem stepMsgs_disconnect {st : ServerState} {sid : String} {sock : Socket}
    (h : findSocket st.sockets sid = some sock) :
    stepMsgs st (InEvent.disconnect sid) = (handleDisconnect st sock).2 := by
  simp [stepMsgs, step, h]

theorem stepState_sweep {st : ServerState} : stepState st InEvent.sweep = handleSweep st := by
  simp [stepState, step]

theorem stepState_tick {st : ServerState} :
    stepState st InEvent.tick = { st with now := st.now + 1 } := by
  simp [stepState, step]

theorem invBase_stepState {st : ServerState} (e : InEvent)
    (h : InvBase st) : InvBase (stepState st e) := by
  cases e with
  | connect sid =>
    by_cases hmem : sid ∈ st.usedIds
    · rw [stepState_connect_old hmem]
      exact h
    · rw [stepState_connect_new hmem]
      refine ⟨roomsOk_mono_used (fun x hx => List.mem_append_left _ hx) h.1, ?_, ?_⟩
      · show ((st.sockets ++ [freshSocket sid]).map Socket.id).Nodup
        rw [List.map_append, List.nodup_append]
        refine ⟨h.2.1, by simp [freshSocket], ?_⟩
        intro a ha hb
        simp only [freshSocket, List.map_cons, List.map_nil, List.mem_singleton] at hb
        subst hb
        rcases List.mem_map.mp ha with ⟨s, hs, hsid⟩
        exact hmem (hsid ▸ h.2.2 s hs)
      · intro s hs
        rcases List.mem_append.mp hs with hs | hs
        · exact List.mem_append_left _ (h.2.2 s hs)
        · rw [List.mem_singleton] at hs
          subst hs
          exact List.mem_append_right _ (List.mem_singleton.mpr rfl)
  | joinRoom sid payload =>
    rcases hfs : findSocket st.sockets sid with _ | sock
    · rw [stepState_joinRoom_noSock hfs]
      exact h
    · cases payload with
      | none =>
        rw [stepState_joinRoom_crash hfs]
        exact h
      | some p =>
        rw [stepState_joinRoom hfs]
        exact invBase_handleJoinRoom h (h.2.2 sock (findSocket_eq_some hfs).1)
  | startTalking sid payload =>
    rcases hfs : findSocket st.sockets sid with _ | sock
    · rw [stepState_startTalking_noSock hfs]
      exact h
    · cases payload with
      | none =>
        rw [stepState_startTalking_crash hfs]
        exact h
      | some p =>
        rw [stepState_startTalking hfs]
        exact invBase_handleStartTalking h
  | stopTalking sid payload =>
    rcases hfs : findSocket st.sockets sid with _ | sock
    · rw [stepState_stopTalking_noSock hfs]
      exact h
    · cases payload with
      | none =>
        rw [stepState_stopTalking_crash hfs]
        exact h
      | some p =>
        rw [stepState_stopTalking hfs]
        exact invBase_handleStopTalking h
  | offerEv sid payload =>
    rcases hfs : findSocket st.sockets sid with _ | sock
    · rw [stepState_offer_noSock hfs]
      exact h
    · cases payload with
      | none =>
        rw [stepState_offer_crash hfs]
        exact h
      | some p =>
        rw [stepState_offer hfs]
        exact h
  | answerEv sid payload =>
    rcases hfs : findSocket st.sockets sid with _ | sock
    · rw [stepState_answer_noSock hfs]
      exact h
    · cases payload with
      | none =>
        rw [stepState_answer_crash hfs]
        exact h
      | some p =>
        rw [stepState_answer hfs]
        exact h
  | iceCandidateEv sid payload =>
    rcases hfs : findSocket st.sockets sid with _ | sock
    · rw [stepState_ice_noSock hfs]
      exact h
    · cases payload with
      | none =>
        rw [stepState_ice_crash hfs]
        exact h
      | some p =>
        rw [stepState_ice hfs]
        exact h
  | leaveRoom sid payload =>
    rcases hfs : findSocket st.sockets sid with _ | sock
    · rw [stepState_leaveRoom_noSock hfs]
      exact h
    · cases payload with
      | none =>
        rw [stepState_leaveRoom_crash hfs]
        exact h
      | some p =>
        rw [stepState_leaveRoom hfs]
        exact invBase_handleUserLeave sid p.room h
  | disconnect sid =>
    rcases hfs : findSocket st.sockets sid with _ | sock
    · rw [stepState_disconnect_noSock hfs]
      exact h
    · rw [stepState_disconnect hfs]
      exact invBase_handleDisconnect h
  | sweep =>
    rw [stepState_sweep]
    exact ⟨roomsOk_sweep h.1, h.2⟩
  | tick =>
    rw [stepState_tick]
    exact h

theorem invBase_initial : InvBase initialState := by
  refine ⟨⟨?_, ?_, ?_, ?_⟩, ?_, ?_⟩ <;> simp [initialState, mapKeys]

theorem reachable_invBase {st : ServerState} (h : Reachable st) : InvBase st := by
  induction h with
  | init => exact invBase_initial
  | next st e _ ih => exact invBase_stepState e ih

/-- C1: after any sequence of events is processed to completion, every
room present in the `rooms` registry has at least one participant; and a
leave-room or disconnect operation that removes a room's last participant
deletes the room within that same operation, so a lookup immediately
afterwards finds the room absent, with no reliance on the periodic
sweep. -/
theorem claim1_rooms_nonempty_eager_delete :
    (∀ st, Reachable st → ∀ p ∈ st.rooms, p.2.participants ≠ []) ∧
    (∀ (st : ServerState) (sid : String) (sock : Socket) (k : RoomKey)
       (pt : Participant) (nm : RoomKey) (ct : Nat),
      findSocket st.sockets sid = some sock →
      mapLookup st.rooms k = some ⟨nm, [(sid, pt)], ct⟩ →
      mapLookup (stepState st (InEvent.leaveRoom sid (some ⟨k⟩))).rooms k = none) ∧
    (∀ (st : ServerState) (sid : String) (sock : Socket)
       (pt : Participant) (nm : RoomKey) (ct : Nat),
      findSocket st.sockets sid = some sock →
      jsTruthyRoom sock.currentRoom = true →
      mapLookup st.rooms sock.currentRoom = some ⟨nm, [(sid, pt)], ct⟩ →
      mapLookup (stepState st (InEvent.disconnect sid)).rooms sock.currentRoom = none) := by
  refine ⟨?_, ?_, ?_⟩
  · intro st hreach p hp
    exact (reachable_invBase hreach).1.2.2.1 p hp
  · intro st sid sock k pt nm ct hfs hl
    rw [stepState_leaveRoom hfs]
    have hdel : mapDelete (Room.mk nm [(sid, pt)] ct).participants sid = [] := by
      simp [mapDelete]
    rw [handleUserLeave_last hl hdel]
    exact mapLookup_mapDelete_self
  · intro st sid sock pt nm ct hfs htr hl
    rw [stepState_disconnect hfs, handleDisconnect_truthy htr]
    have hsid : sock.id = sid := (findSocket_eq_some hfs).2
    have hdel : mapDelete (Room.mk nm [(sid, pt)] ct).participants sock.id = [] := by
      simp [mapDelete, hsid]
    rw [handleUserLeave_last hl hdel]
    exact mapLookup_mapDelete_self

/-- A two-event demo run: connection "a" connects and joins room "R". -/
def demo1 : ServerState :=
  stepState (stepState initialState (InEvent.connect "a"))
    (InEvent.joinRoom "a" (some ⟨some "R", some "Al"⟩))

theorem demo1_reachable : Reachable demo1 :=
  Reachable.next _ _ (Reachable.next _ _ Reachable.init)

theorem claim1_rooms_nonempty_eager_delete_witness :
    (∀ p ∈ demo1.rooms, p.2.participants ≠ []) ∧
    mapLookup (stepState demo1 (InEvent.leaveRoom "a" (some ⟨some "R"⟩))).rooms
      (some "R") = none ∧
    mapLookup (stepState demo1 (InEvent.disconnect "a")).rooms
      (Socket.mk "a" [some "a", some "R"] (some "Al") (some "R")).currentRoom = none :=
  ⟨claim1_rooms_nonempty_eager_delete.1 demo1 demo1_reachable,
   claim1_rooms_nonempty_eager_delete.2.1 demo1 "a"
     ⟨"a", [some "a", some "R"], some "Al", some "R"⟩ (some "R")
     ⟨"a", some "Al", false, 0⟩ (some "R") 0 (by decide) (by decide),
   claim1_rooms_nonempty_eager_delete.2.2 demo1 "a"
     ⟨"a", [some "a", some "R"], some "Al", some "R"⟩
     ⟨"a", some "Al", false, 0⟩ (some "R") 0 (by decide) (by decide) (by decide)⟩

/-- C10: `GET /api/rooms/:roomId` answers 200 for every room id: an
absent room yields an empty participants list and count 0 rather than an
error, a present room yields its participant records and their count,
and the registry is returned unchanged (the handler is read-only). -/
theorem claim10_room_info_endpoint (st : ServerState) (roomId : String) :
    (mapLookup st.rooms (some roomId) = none →
      getRoomInfo st roomId = (st, 200, ⟨[], 0⟩)) ∧
    (∀ r, mapLookup st.rooms (some roomId) = some r →
      getRoomInfo st roomId =
        (st, 200, ⟨mapValues r.participants, r.participants.length⟩)) := by
  constructor
  · intro h
    unfold getRoomInfo
    rw [h]
  · intro r h
    unfold getRoomInfo
    rw [h]

theorem claim10_room_info_endpoint_witness :
    getRoomInfo initialState "nope" = (initialState, 200, ⟨[], 0⟩) ∧
    getRoomInfo demo1 "R" =
      (demo1, 200, ⟨[⟨"a", some "Al", false, 0⟩], 1⟩) :=
  ⟨(claim10_room_info_endpoint initialState "nope").1 (by decide),
   (claim10_room_info_endpoint demo1 "R").2
     ⟨some "R", [("a", ⟨"a", some "Al", false, 0⟩)], 0⟩ (by decide)⟩

/-- A one-event demo run: connection "a" connects. -/
def demo0 : ServerState :=
  stepState initialState (InEvent.connect "a")

/-- C8 counterexample: a `join-room` event from a connected socket whose
payload is missing entirely makes the handler throw while destructuring
(`({ room, userName })` of `undefined`), contradicting the claim that
every handler returns normally on malformed input. -/
theorem claim8_counterexample :
    step demo0 (InEvent.joinRoom "a" none) = Except.error JsError.destructure := by
  rfl

/-- C8 (amended): the handlers perform no payload validation.  An event
whose payload is an object is processed without throwing even when
required fields (room, userName, to) are absent — the missing fields flow
through as `undefined` values; but an event from a connected socket whose
payload is missing entirely (`null`/`undefined`) throws in the
destructuring pattern of the handler head instead of being ignored. -/
theorem claim8_no_payload_validation :
    (∀ (st : ServerState) (sid : String) (p : JoinPayload),
      ∃ pr, step st (InEvent.joinRoom sid (some p)) = Except.ok pr) ∧
    (∀ (st : ServerState) (sid : String) (p : RoomPayload),
      ∃ pr, step st (InEvent.startTalking sid (some p)) = Except.ok pr) ∧
    (∀ (st : ServerState) (sid : String) (p : RoomPayload),
      ∃ pr, step st (InEvent.stopTalking sid (some p)) = Except.ok pr) ∧
    (∀ (st : ServerState) (sid : String) (p : OfferPayload),
      ∃ pr, step st (InEvent.offerEv sid (some p)) = Except.ok pr) ∧
    (∀ (st : ServerState) (sid : String) (p : AnswerPayload),
      ∃ pr, step st (InEvent.answerEv sid (some p)) = Except.ok pr) ∧
    (∀ (st : ServerState) (sid : String) (p : IcePayload),
      ∃ pr, step st (InEvent.iceCandidateEv sid (some p)) = Except.ok pr) ∧
    (∀ (st : ServerState) (sid : String) (p : RoomPayload),
      ∃ pr, step st (InEvent.leaveRoom sid (some p)) = Except.ok pr) ∧
    (∀ (st : ServerState) (sid : String) (sock : Socket),
      findSocket st.sockets sid = some sock →
      step st (InEvent.joinRoom sid none) = Except.error JsError.destructure ∧
      step st (InEvent.startTalking sid none) = Except.error JsError.destructure ∧
      step st (InEvent.stopTalking sid none) = Except.error JsError.destructure ∧
      step st (InEvent.offerEv sid none) = Except.error JsError.destructure ∧
      step st (InEvent.answerEv sid none) = Except.error JsError.destructure ∧
      step st (InEvent.iceCandidateEv sid none) = Except.error JsError.destructure ∧
      step st (InEvent.leaveRoom sid none) = Except.error JsError.destructure) := by
  refine ⟨?_, ?_, ?_, ?_, ?_, ?_, ?_, ?_⟩
  · intro st sid p
    rcases hfs : findSocket st.sockets sid with _ | sock
    · exact ⟨(st, []), by simp [step, hfs]⟩
    · exact ⟨handleJoinRoom st sock p, by simp [step, hfs]⟩
  · intro st sid p
    rcases hfs : findSocket st.sockets sid with _ | sock
    · exact ⟨(st, []), by simp [step, hfs]⟩
    · exact ⟨handleStartTalking st sock p, by simp [step, hfs]⟩
  · intro st sid p
    rcases hfs : findSocket st.sockets sid with _ | sock
    · exact ⟨(st, []), by simp [step, hfs]⟩
    · exact ⟨handleStopTalking st sock p, by simp [step, hfs]⟩
  · intro st sid p
    rcases hfs : findSocket st.sockets sid with _ | sock
    · exact ⟨(st, []), by simp [step, hfs]⟩
    · exact ⟨handleOffer st sock p, by simp [step, hfs]⟩
  · intro st sid p
    rcases hfs : findSocket st.sockets sid with _ | sock
    · exact ⟨(st, []), by simp [step, hfs]⟩
    · exact ⟨handleAnswer st sock p, by simp [step, hfs]⟩
  · intro st sid p
    rcases hfs : findSocket st.sockets sid with _ | sock
    · exact ⟨(st, []), by simp [step, hfs]⟩
    · exact ⟨handleIceCandidate st sock p, by simp [step, hfs]⟩
  · intro st sid p
    rcases hfs : findSocket st.sockets sid with _ | sock
    · exact ⟨(st, []), by simp [step, hfs]⟩
    · exact ⟨handleUserLeave st sid p.room, by simp [step, hfs]⟩
  · intro st sid sock hfs
    refine ⟨?_, ?_, ?_, ?_, ?_, ?_, ?_⟩ <;> simp [step, hfs]

theorem claim8_no_payload_validation_witness :
    (∃ pr, step demo0 (InEvent.joinRoom "a"
      (some ⟨none, none⟩)) = Except.ok pr) ∧
    step demo0 (InEvent.joinRoom "a" none) = Except.error JsError.destructure :=
  ⟨claim8_no_payload_validation.1 demo0 "a" ⟨none, none⟩,
   (claim8_no_payload_validation.2.2.2.2.2.2.2 demo0 "a"
     ⟨"a", [some "a"], none, none⟩ (by decide)).1⟩

/-- C7 counterexample: relays are room broadcasts, not true unicasts.
Any client may send `join-room` naming another connection's socket id as
the room (garbage room ids are simply created): after "c" joins room "b",
an offer from "a" addressed to connection "b" is delivered to both "b"
and "c". -/
theorem claim7_counterexample :
    stepMsgs (stepState (stepState (stepState (stepState initialState
        (InEvent.connect "a")) (InEvent.connect "b"))
        (InEvent.connect "c"))
        (InEvent.joinRoom "c" (some ⟨some "b", some "Cy"⟩)))
      (InEvent.offerEv "a" (some ⟨some "sdp", some "b", some "R"⟩)) =
      [⟨"b", OutEvent.offerOut (some "sdp") "a" (some "R")⟩,
       ⟨"c", OutEvent.offerOut (some "sdp") "a" (some "R")⟩] := by
  decide

/-- C7 (corrected): an `offer` / `answer` / `ice-candidate` event
addressed to connection id `t` is delivered to every socket in the
socket.io room named `t` other than the sender — carrying the opaque
payload, the sender's id as `from`, and the room id from the inbound
event unmodified, with no membership check against the named room (the
room id `rk` is arbitrary here) and no registry mutation.  Normally that
socket.io room holds only the connection `t` itself and the relay is a
unicast to `t` (second part); but the room may also hold any client that
sent `join-room` naming `t` as the room id, and such bystanders receive
the relay too (see the counterexample), so only-to-target delivery is
conditional on no such join having occurred. -/
theorem claim7_relay_room_delivery :
    (∀ (st : ServerState) (sid : String) (sock : Socket) (o c a : Option String)
        (t : String) (rk : RoomKey),
      findSocket st.sockets sid = some sock →
      stepState st (InEvent.offerEv sid (some ⟨o, some t, rk⟩)) = st ∧
      stepMsgs st (InEvent.offerEv sid (some ⟨o, some t, rk⟩)) =
        socketTo st.sockets (some t) sid (OutEvent.offerOut o sid rk) ∧
      stepState st (InEvent.answerEv sid (some ⟨a, some t, rk⟩)) = st ∧
      stepMsgs st (InEvent.answerEv sid (some ⟨a, some t, rk⟩)) =
        socketTo st.sockets (some t) sid (OutEvent.answerOut a sid rk) ∧
      stepState st (InEvent.iceCandidateEv sid (some ⟨c, some t, rk⟩)) = st ∧
      stepMsgs st (InEvent.iceCandidateEv sid (some ⟨c, some t, rk⟩)) =
        socketTo st.sockets (some t) sid (OutEvent.iceCandidateOut c sid rk)) ∧
    (∀ (st : ServerState) (sid t : String) (sock tgt : Socket)
        (o c a : Option String) (rk : RoomKey),
      (st.sockets.map Socket.id).Nodup →
      findSocket st.sockets sid = some sock →
      tgt ∈ st.sockets → tgt.id = t → some t ∈ tgt.sockRooms → t ≠ sid →
      (∀ s ∈ st.sockets, some t ∈ s.sockRooms → s.id = t) →
      stepMsgs st (InEvent.offerEv sid (some ⟨o, some t, rk⟩)) =
        [⟨t, OutEvent.offerOut o sid rk⟩] ∧
      stepMsgs st (InEvent.answerEv sid (some ⟨a, some t, rk⟩)) =
        [⟨t, OutEvent.answerOut a sid rk⟩] ∧
      stepMsgs st (InEvent.iceCandidateEv sid (some ⟨c, some t, rk⟩)) =
        [⟨t, OutEvent.iceCandidateOut c sid rk⟩]) := by
  constructor
  · intro st sid sock o c a t rk hfs
    have hsid : sock.id = sid := (findSocket_eq_some hfs).2
    subst hsid
    exact ⟨stepState_offer hfs, stepMsgs_offer hfs, stepState_answer hfs,
      stepMsgs_answer hfs, stepState_ice hfs, stepMsgs_ice hfs⟩
  · intro st sid t sock tgt o c a rk hnd hfs htgt hid hroom hts honly
    have hsid : sock.id = sid := (findSocket_eq_some hfs).2
    subst hsid
    refine ⟨?_, ?_, ?_⟩
    · rw [stepMsgs_offer hfs]
      exact socketTo_singleton hnd htgt hid hroom hts honly
    · rw [stepMsgs_answer hfs]
      exact socketTo_singleton hnd htgt hid hroom hts honly
    · rw [stepMsgs_ice hfs]
      exact socketTo_singleton hnd htgt hid hroom hts honly

/-- A four-event demo run: "a" and "b" connect and join room "R". -/
def demo2 : ServerState :=
  stepState (stepState (stepState (stepState initialState
    (InEvent.connect "a")) (InEvent.connect "b"))
    (InEvent.joinRoom "a" (some ⟨some "R", some "Al"⟩)))
    (InEvent.joinRoom "b" (some ⟨some "R", some "Bo"⟩))

theorem claim7_relay_room_delivery_witness :
    (stepState demo2 (InEvent.offerEv "a" (some ⟨some "sdp", some "b", some "R"⟩)) = demo2 ∧
     stepMsgs demo2 (InEvent.offerEv "a" (some ⟨some "sdp", some "b", some "R"⟩)) =
       socketTo demo2.sockets (some "b") "a"
         (OutEvent.offerOut (some "sdp") "a" (some "R")) ∧
     stepState demo2 (InEvent.answerEv "a" (some ⟨some "ans", some "b", some "R"⟩)) = demo2 ∧
     stepMsgs demo2 (InEvent.answerEv "a" (some ⟨some "ans", some "b", some "R"⟩)) =
       socketTo demo2.sockets (some "b") "a"
         (OutEvent.answerOut (some "ans") "a" (some "R")) ∧
     stepState demo2 (InEvent.iceCandidateEv "a" (some ⟨some "cand", some "b", some "R"⟩)) = demo2 ∧
     stepMsgs demo2 (InEvent.iceCandidateEv "a" (some ⟨some "cand", some "b", some "R"⟩)) =
       socketTo demo2.sockets (some "b") "a"
         (OutEvent.iceCandidateOut (some "cand") "a" (some "R"))) ∧
    (stepMsgs demo2 (InEvent.offerEv "a" (some ⟨some "sdp", some "b", some "R"⟩)) =
       [⟨"b", OutEvent.offerOut (some "sdp") "a" (some "R")⟩] ∧
     stepMsgs demo2 (InEvent.answerEv "a" (some ⟨some "ans", some "b", some "R"⟩)) =
       [⟨"b", OutEvent.answerOut (some "ans") "a" (some "R")⟩] ∧
     stepMsgs demo2 (InEvent.iceCandidateEv "a" (some ⟨some "cand", some "b", some "R"⟩)) =
       [⟨"b", OutEvent.iceCandidateOut (some "cand") "a" (some "R")⟩]) :=
  ⟨claim7_relay_room_delivery.1 demo2 "a"
     ⟨"a", [some "a", some "R"], some "Al", some "R"⟩
     (some "sdp") (some "cand") (some "ans") "b" (some "R") (by decide),
   claim7_relay_room_delivery.2 demo2 "a" "b"
     ⟨"a", [some "a", some "R"], some "Al", some "R"⟩
     ⟨"b", [some "b", some "R"], some "Bo", some "R"⟩
     (some "sdp") (some "cand") (some "ans") (some "R")
     (by decide) (by decide) (by decide) (by decide) (by decide) (by decide) (by decide)⟩

theorem socket_eq_of_id {socks : List Socket} (hnd : (socks.map Socket.id).Nodup)
    {s t : Socket} (hs : s ∈ socks) (ht : t ∈ socks) (hid : s.id = t.id) : s = t := by
  induction socks with
  | nil => simp at hs
  | cons u rest ih =>
    simp only [List.map_cons, List.nodup_cons] at hnd
    rcases List.mem_cons.mp hs with rfl | hs2
    · rcases List.mem_cons.mp ht with rfl | ht2
      · rfl
      · exact absurd (List.mem_map.mpr ⟨t, ht2, hid.symm⟩) hnd.1
    · rcases List.mem_cons.mp ht with rfl | ht2
      · exact absurd (List.mem_map.mpr ⟨s, hs2, hid⟩) hnd.1
      · exact ih hnd.2 hs2 ht2

theorem updateSocket_eq_self_of_fix {socks : List Socket} {sock : Socket}
    (hnd : (socks.map Socket.id).Nodup) (hmem : sock ∈ socks) {f : Socket → Socket}
    (hfix : f sock = sock) : updateSocket socks sock.id f = socks :=
  updateSocket_eq_self (fun s hs hid => by
    have hse : s = sock := socket_eq_of_id hnd hs hmem hid
    rw [hse, hfix])

theorem socketLeave_fix {sock : Socket} {k : RoomKey} (h : k ∉ sock.sockRooms) :
    socketLeave sock k = sock := by
  unfold socketLeave
  rw [listRemove_eq_self h]

/-- A four-event demo run: "a" joins room "A", "b" joins room "B". -/
def demo3 : ServerState :=
  stepState (stepState (stepState (stepState initialState
    (InEvent.connect "a")) (InEvent.connect "b"))
    (InEvent.joinRoom "a" (some ⟨some "A", some "Al"⟩)))
    (InEvent.joinRoom "b" (some ⟨some "B", some "Bo"⟩))

/-- C3 counterexample: connection "a" is in room "A" but sends
`leave-room {room:"B"}`.  The claim predicts the leave targets the
recorded current room "A" and has no observable effect on "B"; the code
instead leaves "a" inside "A" untouched and emits a `user-left` broadcast
to room "B"'s member "b". -/
theorem claim3_counterexample :
    mapLookup (stepState demo3 (InEvent.leaveRoom "a" (some ⟨some "B"⟩))).rooms (some "A") =
      some ⟨some "A", [("a", ⟨"a", some "Al", false, 0⟩)], 0⟩ ∧
    stepMsgs demo3 (InEvent.leaveRoom "a" (some ⟨some "B"⟩)) =
      [⟨"b", OutEvent.userLeft [⟨"b", some "Bo", false, 0⟩]⟩] := by
  constructor
  · decide
  · decide

/-- C3 (amended): an explicit `leave-room` naming a room `B` different
from the connection's actual room `A` targets the named room `B`, not
the recorded current room: the connection stays in `A` and the whole
state is unchanged (a delete of an absent participant is a registry
no-op); if `B` is absent from the registry nothing is broadcast, but if
`B` exists, its members each receive a `user-left` broadcast carrying
`B`'s unchanged membership list. -/
theorem claim3_stray_leave_targets_named_room
    (st : ServerState) (sid : String) (sock : Socket) (A B : RoomKey) (rA : Room)
    (hfs : findSocket st.sockets sid = some sock)
    (hndids : (st.sockets.map Socket.id).Nodup)
    (hA : mapLookup st.rooms A = some rA)
    (hin : sid ∈ partKeys rA)
    (hBA : B ≠ A)
    (hBsock : B ∉ sock.sockRooms)
    (hnotin : ∀ p ∈ st.rooms, p.1 = B → sid ∉ partKeys p.2 ∧ p.2.participants ≠ []) :
    stepState st (InEvent.leaveRoom sid (some ⟨B⟩)) = st ∧
    (mapLookup st.rooms B = none → stepMsgs st (InEvent.leaveRoom sid (some ⟨B⟩)) = []) ∧
    (∀ rB, mapLookup st.rooms B = some rB →
      (∀ m ∈ stepMsgs st (InEvent.leaveRoom sid (some ⟨B⟩)),
        m.event = OutEvent.userLeft (mapValues rB.participants)) ∧
      (∀ (pid : String) (s : Socket), s ∈ st.sockets → s.id = pid → B ∈ s.sockRooms →
        pid ≠ sid →
        ∃ m ∈ stepMsgs st (InEvent.leaveRoom sid (some ⟨B⟩)),
          m.target = pid ∧ m.event = OutEvent.userLeft (mapValues rB.participants))) := by
  have hsid : sock.id = sid := (findSocket_eq_some hfs).2
  subst hsid
  have hmem : sock ∈ st.sockets := (findSocket_eq_some hfs).1
  have hupd : updateSocket st.sockets sock.id (fun s => socketLeave s B) = st.sockets :=
    updateSocket_eq_self_of_fix hndids hmem (socketLeave_fix hBsock)
  rcases hB : mapLookup st.rooms B with _ | rB
  · refine ⟨?_, ?_, ?_⟩
    · rw [stepState_leaveRoom hfs]
      show (handleUserLeave st sock.id B).1 = st
      rw [handleUserLeave_absent hB]
      show { st with sockets := (updateSocket st.sockets sock.id
        (fun s => socketLeave s B)) } = st
      rw [hupd]
    · intro
      rw [stepMsgs_leaveRoom hfs]
      show (handleUserLeave st sock.id B).2 = []
      rw [handleUserLeave_absent hB]
    · intro rB hrB
      exact Option.noConfusion hrB
  · obtain ⟨hni, hne⟩ := hnotin (B, rB) (mem_of_mapLookup_eq_some hB) rfl
    have hdel : mapDelete rB.participants sock.id = rB.participants :=
      mapDelete_eq_self hni
    have hlen : mapDelete rB.participants sock.id ≠ [] := by
      rw [hdel]
      exact hne
    have hmsgs : stepMsgs st (InEvent.leaveRoom sock.id (some ⟨B⟩)) =
        socketTo st.sockets B sock.id (OutEvent.userLeft (mapValues rB.participants)) := by
      rw [stepMsgs_leaveRoom hfs]
      show (handleUserLeave st sock.id B).2 = _
      rw [handleUserLeave_rest hB hlen, hdel]
    refine ⟨?_, ?_, ?_⟩
    · rw [stepState_leaveRoom hfs]
      show (handleUserLeave st sock.id B).1 = st
      rw [handleUserLeave_rest hB hlen]
      show { st with
        rooms := (mapSet st.rooms B { rB with participants := mapDelete rB.participants sock.id }),
        sockets := (updateSocket st.sockets sock.id (fun s => socketLeave s B)) } = st
      rw [hdel, hupd]
      rw [mapSet_eq_of_lookup (show mapLookup st.rooms B =
        some { rB with participants := rB.participants } from hB)]
    · intro hcon
      exact Option.noConfusion hcon
    · intro rB' hrB'
      injection hrB' with hrB2
      rw [← hrB2]
      constructor
      · intro m hm
        rw [hmsgs] at hm
        exact socketTo_event hm
      · intro pid s hs hpid hBs hne2
        refine ⟨⟨pid, OutEvent.userLeft (mapValues rB.participants)⟩, ?_, rfl, rfl⟩
        rw [hmsgs]
        refine mem_socketTo_iff.mpr ⟨s, hs, hBs, ?_, ?_⟩
        · rw [hpid]
          exact hne2
        · rw [hpid]

theorem claim3_stray_leave_targets_named_room_witness :
    stepState demo3 (InEvent.leaveRoom "a" (some ⟨some "B"⟩)) = demo3 ∧
    (mapLookup demo3.rooms (some "B") = none →
      stepMsgs demo3 (InEvent.leaveRoom "a" (some ⟨some "B"⟩)) = []) ∧
    (∀ rB, mapLookup demo3.rooms (some "B") = some rB →
      (∀ m ∈ stepMsgs demo3 (InEvent.leaveRoom "a" (some ⟨some "B"⟩)),
        m.event = OutEvent.userLeft (mapValues rB.participants)) ∧
      (∀ (pid : String) (s : Socket), s ∈ demo3.sockets → s.id = pid →
        some "B" ∈ s.sockRooms → pid ≠ "a" →
        ∃ m ∈ stepMsgs demo3 (InEvent.leaveRoom "a" (some ⟨some "B"⟩)),
          m.target = pid ∧ m.event = OutEvent.userLeft (mapValues rB.participants))) :=
  claim3_stray_leave_targets_named_room demo3 "a"
    ⟨"a", [some "a", some "A"], some "Al", some "A"⟩ (some "A") (some "B")
    ⟨some "A", [("a", ⟨"a", some "Al", false, 0⟩)], 0⟩
    (by decide) (by decide) (by decide) (by decide) (by decide) (by decide) (by decide)

/-- A five-event demo run: "a" and "b" join room "R", then "a" sends an
explicit `leave-room` for "R".  Note `socket.currentRoom` of "a" is still
"R": `handleUserLeave` never clears it. -/
def demo4 : ServerState :=
  stepState demo2 (InEvent.leaveRoom "a" (some ⟨some "R"⟩))

/-- C4 counterexample: after "a" already left room "R" explicitly, its
disconnect runs `handleUserLeave` again on the same pair ("a","R").  The
registry is unchanged, but a second `user-left` broadcast is emitted to
the remaining member "b" — the claim says no second broadcast occurs. -/
theorem claim4_counterexample :
    stepMsgs demo4 (InEvent.disconnect "a") =
      [⟨"b", OutEvent.userLeft [⟨"b", some "Bo", false, 0⟩]⟩] ∧
    (stepState demo4 (InEvent.disconnect "a")).rooms = demo4.rooms := by
  constructor
  · decide
  · decide

/-- C4 (amended): a second leave for the same connection/room pair (here
the disconnect that follows an explicit leave, which left
`socket.currentRoom` pointing at the room) leaves the registry unchanged
— membership is not double-decremented; when the first leave removed the
last participant (the room is absent) no broadcast is emitted; but when
the room still has participants, a duplicate `user-left` broadcast
carrying the unchanged membership list is delivered to them again. -/
theorem claim4_second_leave_rebroadcasts
    (st : ServerState) (sid : String) (sock : Socket)
    (hfs : findSocket st.sockets sid = some sock)
    (htr : jsTruthyRoom sock.currentRoom = true)
    (hndids : (st.sockets.map Socket.id).Nodup)
    (hnotin : ∀ p ∈ st.rooms, p.1 = sock.currentRoom →
      sid ∉ partKeys p.2 ∧ p.2.participants ≠ []) :
    ((stepState st (InEvent.disconnect sid)).rooms = st.rooms) ∧
    (mapLookup st.rooms sock.currentRoom = none →
      stepMsgs st (InEvent.disconnect sid) = []) ∧
    (∀ r, mapLookup st.rooms sock.currentRoom = some r →
      (∀ m ∈ stepMsgs st (InEvent.disconnect sid),
        m.event = OutEvent.userLeft (mapValues r.participants)) ∧
      (∀ (pid : String) (s : Socket), s ∈ st.sockets → s.id = pid →
        sock.currentRoom ∈ s.sockRooms → pid ≠ sid →
        ∃ m ∈ stepMsgs st (InEvent.disconnect sid),
          m.target = pid ∧ m.event = OutEvent.userLeft (mapValues r.participants))) := by
  have hsid : sock.id = sid := (findSocket_eq_some hfs).2
  subst hsid
  rcases hB : mapLookup st.rooms sock.currentRoom with _ | r
  · refine ⟨?_, ?_, ?_⟩
    · rw [stepState_disconnect hfs, handleDisconnect_truthy htr]
      show (handleUserLeave st sock.id sock.currentRoom).1.rooms = st.rooms
      rw [handleUserLeave_absent hB]
    · intro
      rw [stepMsgs_disconnect hfs, handleDisconnect_truthy htr]
      show (handleUserLeave st sock.id sock.currentRoom).2 = []
      rw [handleUserLeave_absent hB]
    · intro r hr
      exact Option.noConfusion hr
  · obtain ⟨hni, hne⟩ := hnotin (sock.currentRoom, r) (mem_of_mapLookup_eq_some hB) rfl
    have hdel : mapDelete r.participants sock.id = r.participants :=
      mapDelete_eq_self hni
    have hlen : mapDelete r.participants sock.id ≠ [] := by
      rw [hdel]
      exact hne
    have hmsgs : stepMsgs st (InEvent.disconnect sock.id) =
        socketTo st.sockets sock.currentRoom sock.id
          (OutEvent.userLeft (mapValues r.participants)) := by
      rw [stepMsgs_disconnect hfs, handleDisconnect_truthy htr]
      show (handleUserLeave st sock.id sock.currentRoom).2 = _
      rw [handleUserLeave_rest hB hlen, hdel]
    refine ⟨?_, ?_, ?_⟩
    · rw [stepState_disconnect hfs, handleDisconnect_truthy htr]
      show (handleUserLeave st sock.id sock.currentRoom).1.rooms = st.rooms
      rw [handleUserLeave_rest hB hlen]
      show mapSet st.rooms sock.currentRoom
        { r with participants := mapDelete r.participants sock.id } = st.rooms
      rw [hdel]
      exact mapSet_eq_of_lookup (show mapLookup st.rooms sock.currentRoom =
        some { r with participants := r.participants } from hB)
    · intro hcon
      exact Option.noConfusion hcon
    · intro r' hr'
      injection hr' with hr2
      rw [← hr2]
      constructor
      · intro m hm
        rw [hmsgs] at hm
        exact socketTo_event hm
      · intro pid s hs hpid hBs hne2
        refine ⟨⟨pid, OutEvent.userLeft (mapValues r.participants)⟩, ?_, rfl, rfl⟩
        rw [hmsgs]
        refine mem_socketTo_iff.mpr ⟨s, hs, hBs, ?_, ?_⟩
        · rw [hpid]
          exact hne2
        · rw [hpid]

theorem claim4_second_leave_rebroadcasts_witness :
    ((stepState demo4 (InEvent.disconnect "a")).rooms = demo4.rooms) ∧
    (mapLookup demo4.rooms (Socket.mk "a" [some "a"] (some "Al") (some "R")).currentRoom = none →
      stepMsgs demo4 (InEvent.disconnect "a") = []) ∧
    (∀ r, mapLookup demo4.rooms
        (Socket.mk "a" [some "a"] (some "Al") (some "R")).currentRoom = some r →
      (∀ m ∈ stepMsgs demo4 (InEvent.disconnect "a"),
        m.event = OutEvent.userLeft (mapValues r.participants)) ∧
      (∀ (pid : String) (s : Socket), s ∈ demo4.sockets → s.id = pid →
        (Socket.mk "a" [some "a"] (some "Al") (some "R")).currentRoom ∈ s.sockRooms →
        pid ≠ "a" →
        ∃ m ∈ stepMsgs demo4 (InEvent.disconnect "a"),
          m.target = pid ∧ m.event = OutEvent.userLeft (mapValues r.participants))) :=
  claim4_second_leave_rebroadcasts demo4 "a" ⟨"a", [some "a"], some "Al", some "R"⟩
    (by decide) (by decide) (by decide) (by decide)

/-- C6: for `start-talking` / `stop-talking`: when the named room exists
and the sender is a participant of it, the sender's `isTalking` flag is
set to true / false and a `user-talking` event carrying the sender's id,
display name and new flag is delivered to every other participant's
socket in the room but never to the originator; when the room or the
participant record is missing, the event leaves the state untouched,
emits nothing, and raises no error. -/
theorem claim6_talking_toggle (st : ServerState) (sid : String) (sock : Socket) (rk : RoomKey)
    (hfs : findSocket st.sockets sid = some sock) :
    (∀ roomData user,
      mapLookup st.rooms rk = some roomData →
      mapLookup roomData.participants sid = some user →
      ((stepState st (InEvent.startTalking sid (some ⟨rk⟩))).rooms =
        mapSet st.rooms rk { roomData with participants :=
          (mapSet roomData.participants sid { user with isTalking := true }) } ∧
      (stepState st (InEvent.startTalking sid (some ⟨rk⟩))).sockets = st.sockets ∧
      (∀ m ∈ stepMsgs st (InEvent.startTalking sid (some ⟨rk⟩)),
        m.event = OutEvent.userTalking sid sock.userName true ∧ m.target ≠ sid) ∧
      (∀ pid ∈ partKeys roomData, pid ≠ sid →
        (∃ s ∈ st.sockets, s.id = pid ∧ rk ∈ s.sockRooms) →
        ∃ m ∈ stepMsgs st (InEvent.startTalking sid (some ⟨rk⟩)),
          m.target = pid ∧ m.event = OutEvent.userTalking sid sock.userName true) ∧
      (stepState st (InEvent.stopTalking sid (some ⟨rk⟩))).rooms =
        mapSet st.rooms rk { roomData with participants :=
          (mapSet roomData.participants sid { user with isTalking := false }) } ∧
      (stepState st (InEvent.stopTalking sid (some ⟨rk⟩))).sockets = st.sockets ∧
      (∀ m ∈ stepMsgs st (InEvent.stopTalking sid (some ⟨rk⟩)),
        m.event = OutEvent.userTalking sid sock.userName false ∧ m.target ≠ sid) ∧
      (∀ pid ∈ partKeys roomData, pid ≠ sid →
        (∃ s ∈ st.sockets, s.id = pid ∧ rk ∈ s.sockRooms) →
        ∃ m ∈ stepMsgs st (InEvent.stopTalking sid (some ⟨rk⟩)),
          m.target = pid ∧ m.event = OutEvent.userTalking sid sock.userName false))) ∧
    (mapLookup st.rooms rk = none →
      step st (InEvent.startTalking sid (some ⟨rk⟩)) = Except.ok (st, []) ∧
      step st (InEvent.stopTalking sid (some ⟨rk⟩)) = Except.ok (st, [])) ∧
    (∀ roomData, mapLookup st.rooms rk = some roomData →
      mapLookup roomData.participants sid = none →
      step st (InEvent.startTalking sid (some ⟨rk⟩)) = Except.ok (st, []) ∧
      step st (InEvent.stopTalking sid (some ⟨rk⟩)) = Except.ok (st, [])) := by
  have hsid : sock.id = sid := (findSocket_eq_some hfs).2
  subst hsid
  refine ⟨?_, ?_, ?_⟩
  · intro roomData user hl hm
    have hstart := @handleStartTalking_member st sock ⟨rk⟩ _ _ hl hm
    have hstop := @handleStopTalking_member st sock ⟨rk⟩ _ _ hl hm
    have hmsgs1 : stepMsgs st (InEvent.startTalking sock.id (some ⟨rk⟩)) =
        socketTo st.sockets rk sock.id
          (OutEvent.userTalking sock.id sock.userName true) := by
      rw [stepMsgs_startTalking hfs, hstart]
    have hmsgs2 : stepMsgs st (InEvent.stopTalking sock.id (some ⟨rk⟩)) =
        socketTo st.sockets rk sock.id
          (OutEvent.userTalking sock.id sock.userName false) := by
      rw [stepMsgs_stopTalking hfs, hstop]
    refine ⟨?_, ?_, ?_, ?_, ?_, ?_, ?_, ?_⟩
    · rw [stepState_startTalking hfs, hstart]
    · rw [stepState_startTalking hfs, hstart]
    · intro m hm2
      rw [hmsgs1] at hm2
      obtain ⟨s, _, _, hne, rfl⟩ := mem_socketTo_iff.mp hm2
      exact ⟨rfl, hne⟩
    · intro pid hpid hne ⟨s, hs, hsp, hrk⟩
      refine ⟨⟨pid, OutEvent.userTalking sock.id sock.userName true⟩, ?_, rfl, rfl⟩
      rw [hmsgs1]
      refine mem_socketTo_iff.mpr ⟨s, hs, hrk, ?_, ?_⟩
      · rw [hsp]
        exact hne
      · rw [hsp]
    · rw [stepState_stopTalking hfs, hstop]
    · rw [stepState_stopTalking hfs, hstop]
    · intro m hm2
      rw [hmsgs2] at hm2
      obtain ⟨s, _, _, hne, rfl⟩ := mem_socketTo_iff.mp hm2
      exact ⟨rfl, hne⟩
    · intro pid hpid hne ⟨s, hs, hsp, hrk⟩
      refine ⟨⟨pid, OutEvent.userTalking sock.id sock.userName false⟩, ?_, rfl, rfl⟩
      rw [hmsgs2]
      refine mem_socketTo_iff.mpr ⟨s, hs, hrk, ?_, ?_⟩
      · rw [hsp]
        exact hne
      · rw [hsp]
  · intro hl
    constructor
    · simp only [step, hfs]
      rw [handleStartTalking_absent hl]
    · simp only [step, hfs]
      rw [handleStopTalking_absent hl]
  · intro roomData hl hm
    constructor
    · simp only [step, hfs]
      rw [handleStartTalking_notMember hl hm]
    · simp only [step, hfs]
      rw [handleStopTalking_notMember hl hm]

theorem claim6_talking_toggle_witness :
    (∀ roomData user,
      mapLookup demo2.rooms (some "R") = some roomData →
      mapLookup roomData.participants "a" = some user →
      ((stepState demo2 (InEvent.startTalking "a" (some ⟨some "R"⟩))).rooms =
        mapSet demo2.rooms (some "R") { roomData with participants :=
          (mapSet roomData.participants "a" { user with isTalking := true }) } ∧
      (stepState demo2 (InEvent.startTalking "a" (some ⟨some "R"⟩))).sockets =
        demo2.sockets ∧
      (∀ m ∈ stepMsgs demo2 (InEvent.startTalking "a" (some ⟨some "R"⟩)),
        m.event = OutEvent.userTalking "a" (some "Al") true ∧ m.target ≠ "a") ∧
      (∀ pid ∈ partKeys roomData, pid ≠ "a" →
        (∃ s ∈ demo2.sockets, s.id = pid ∧ some "R" ∈ s.sockRooms) →
        ∃ m ∈ stepMsgs demo2 (InEvent.startTalking "a" (some ⟨some "R"⟩)),
          m.target = pid ∧ m.event = OutEvent.userTalking "a" (some "Al") true) ∧
      (stepState demo2 (InEvent.stopTalking "a" (some ⟨some "R"⟩))).rooms =
        mapSet demo2.rooms (some "R") { roomData with participants :=
          (mapSet roomData.participants "a" { user with isTalking := false }) } ∧
      (stepState demo2 (InEvent.stopTalking "a" (some ⟨some "R"⟩))).sockets =
        demo2.sockets ∧
      (∀ m ∈ stepMsgs demo2 (InEvent.stopTalking "a" (some ⟨some "R"⟩)),
        m.event = OutEvent.userTalking "a" (some "Al") false ∧ m.target ≠ "a") ∧
      (∀ pid ∈ partKeys roomData, pid ≠ "a" →
        (∃ s ∈ demo2.sockets, s.id = pid ∧ some "R" ∈ s.sockRooms) →
        ∃ m ∈ stepMsgs demo2 (InEvent.stopTalking "a" (some ⟨some "R"⟩)),
          m.target = pid ∧ m.event = OutEvent.userTalking "a" (some "Al") false))) ∧
    (mapLookup demo2.rooms (some "R") = none →
      step demo2 (InEvent.startTalking "a" (some ⟨some "R"⟩)) = Except.ok (demo2, []) ∧
      step demo2 (InEvent.stopTalking "a" (some ⟨some "R"⟩)) = Except.ok (demo2, [])) ∧
    (∀ roomData, mapLookup demo2.rooms (some "R") = some roomData →
      mapLookup roomData.participants "a" = none →
      step demo2 (InEvent.startTalking "a" (some ⟨some "R"⟩)) = Except.ok (demo2, []) ∧
      step demo2 (InEvent.stopTalking "a" (some ⟨some "R"⟩)) = Except.ok (demo2, [])) :=
  claim6_talking_toggle demo2 "a" ⟨"a", [some "a", some "R"], some "Al", some "R"⟩
    (some "R") (by decide)

theorem listRemove_append {α : Type} [DecidableEq α] (l1 l2 : List α) (a : α) :
    listRemove (l1 ++ l2) a = listRemove l1 a ++ listRemove l2 a := by
  induction l1 with
  | nil => simp [listRemove]
  | cons x xs ih =>
    simp only [List.cons_append, listRemove]
    split
    next => exact ih
    next => exact congrArg _ ih

theorem mapSet_mem_self {α : Type} [DecidableEq α] {β : Type}
    {m : List (α × β)} {k : α} {v : β} : (k, v) ∈ mapSet m k v := by
  induction m with
  | nil => simp [mapSet]
  | cons p rest ih =>
    obtain ⟨k', v'⟩ := p
    simp only [mapSet]
    split
    next => exact List.mem_cons_self _ _
    next => exact List.mem_cons_of_mem _ ih

theorem mem_mapKeys_mapSet {α : Type} [DecidableEq α] {β : Type}
    {m : List (α × β)} {k k' : α} {v : β} :
    k' ∈ mapKeys (mapSet m k v) ↔ k' = k ∨ k' ∈ mapKeys m := by
  by_cases hk : k ∈ mapKeys m
  · rw [mapKeys_mapSet_of_mem hk]
    constructor
    · exact Or.inr
    · rintro (rfl | h)
      · exact hk
      · exact h
  · rw [mapKeys_mapSet_of_not_mem hk, List.mem_append, List.mem_singleton, or_comm]

theorem userRooms_socketLeave (s : Socket) (k : RoomKey) :
    userRooms (socketLeave s k) = listRemove (userRooms s) k := by
  unfold userRooms socketLeave
  exact listRemove_comm s.sockRooms k (some s.id)

theorem userRooms_socketJoin {s : Socket} {k : RoomKey}
    (hne : k ≠ some s.id) (hni : k ∉ s.sockRooms) :
    userRooms (socketJoin s k) = userRooms s ++ [k] := by
  unfold userRooms socketJoin
  rw [if_neg hni]
  show listRemove (s.sockRooms ++ [k]) (some s.id) = _
  rw [listRemove_append]
  simp only [listRemove, if_neg hne]

theorem socketJoin_sockRooms_of_not_mem {s : Socket} {k : RoomKey} (h : k ∉ s.sockRooms) :
    (socketJoin s k).sockRooms = s.sockRooms ++ [k] := by
  unfold socketJoin
  rw [if_neg h]

theorem updateSocket_comp {socks : List Socket} {sid : String} {f g : Socket → Socket}
    (hf : ∀ s, (f s).id = s.id) :
    updateSocket (updateSocket socks sid f) sid g =
      updateSocket socks sid (fun s => g (f s)) := by
  induction socks with
  | nil => simp [updateSocket]
  | cons t rest ih =>
    simp only [updateSocket, ih]
    by_cases ht : t.id = sid
    · rw [if_pos ht, if_pos ht, if_pos (by rw [hf]; exact ht)]
    · rw [if_neg ht, if_neg ht, if_neg ht]

theorem mem_updateSocket_nodup {socks : List Socket} {s0 : Socket} {g : Socket → Socket}
    {s2 : Socket} (hnd : (socks.map Socket.id).Nodup) (h0 : s0 ∈ socks) :
    s2 ∈ updateSocket socks s0.id g ↔ (s2 = g s0 ∨ (s2 ∈ socks ∧ s2.id ≠ s0.id)) := by
  constructor
  · intro hs
    obtain ⟨s, hsm, rfl⟩ := mem_updateSocket_iff.mp hs
    by_cases hid : s.id = s0.id
    · rw [if_pos hid]
      have : s = s0 := socket_eq_of_id hnd hsm h0 hid
      rw [this]
      exact Or.inl rfl
    · rw [if_neg hid]
      exact Or.inr ⟨hsm, hid⟩
  · rintro (rfl | ⟨hsm, hid⟩)
    · exact mem_updateSocket_iff.mpr ⟨s0, h0, by rw [if_pos rfl]⟩
    · exact mem_updateSocket_iff.mpr ⟨s2, hsm, by rw [if_neg hid]⟩

theorem mapDelete_eq_nil_keys {α : Type} [DecidableEq α] {β : Type}
    {m : List (α × β)} {k : α} (h : mapDelete m k = []) :
    ∀ q ∈ m, q.1 = k := by
  intro q hq
  by_contra hne
  have : q ∈ mapDelete m k := mem_mapDelete_iff.mpr ⟨hq, hne⟩
  rw [h] at this
  simp at this

theorem mem_userRooms {s : Socket} {k : RoomKey} :
    k ∈ userRooms s ↔ k ∈ s.sockRooms ∧ k ≠ some s.id :=
  mem_listRemove

theorem sockShape_update_room {st st' : ServerState} {k : RoomKey} {r r' : Room}
    (hnd : (mapKeys st.rooms).Nodup)
    (hl : mapLookup st.rooms k = some r)
    (hkeys : mapKeys r'.participants = mapKeys r.participants)
    (hrooms : st'.rooms = mapSet st.rooms k r')
    {s : Socket} (hs : SockShape st s) : SockShape st' s := by
  obtain ⟨h1, h2, h3, h4⟩ := hs
  refine ⟨h1, h2, ?_, ?_⟩
  · intro k1 hk1
    obtain ⟨p, hp, hpk, hpid⟩ := h3 k1 hk1
    by_cases hkk : p.1 = k
    · have hlp := mapLookup_of_mem_nodup hnd (show (p.1, p.2) ∈ st.rooms from hp)
      rw [hkk, hl] at hlp
      injection hlp with hpr
      refine ⟨(k, r'), by rw [hrooms]; exact mapSet_mem_self, by rw [← hkk, hpk], ?_⟩
      show s.id ∈ mapKeys r'.participants
      rw [hkeys, hpr]
      exact hpid
    · exact ⟨p, by rw [hrooms]; exact (mem_mapSet_nodup hnd).mpr (Or.inr ⟨hp, hkk⟩),
        hpk, hpid⟩
  · intro p hp hpid
    rw [hrooms] at hp
    rcases (mem_mapSet_nodup hnd).mp hp with rfl | ⟨hp2, _⟩
    · have : s.id ∈ partKeys r := by
        show s.id ∈ mapKeys r.participants
        rw [← hkeys]
        exact hpid
      exact h4 (k, r) (mem_of_mapLookup_eq_some hl) this
    · exact h4 p hp2 hpid

theorem shapes_handleStartTalking {st : ServerState} {sock : Socket} {p : RoomPayload}
    (hnd : (mapKeys st.rooms).Nodup)
    (hshapes : ∀ s ∈ st.sockets, SockShape st s) :
    ∀ s2 ∈ (handleStartTalking st sock p).1.sockets,
      SockShape (handleStartTalking st sock p).1 s2 := by
  rcases hl : mapLookup st.rooms p.room with _ | roomData
  · rw [handleStartTalking_absent hl]
    exact hshapes
  · rcases hm : mapLookup roomData.participants sock.id with _ | user
    · rw [handleStartTalking_notMember hl hm]
      exact hshapes
    · rw [handleStartTalking_member hl hm]
      intro s2 hs2
      refine sockShape_update_room hnd hl ?_ rfl (hshapes s2 hs2)
      show mapKeys (mapSet roomData.participants sock.id
        { user with isTalking := true }) = mapKeys roomData.participants
      refine mapKeys_mapSet_of_mem ?_
      rw [← mapLookup_isSome_iff, hm]
      rfl

theorem shapes_handleStopTalking {st : ServerState} {sock : Socket} {p : RoomPayload}
    (hnd : (mapKeys st.rooms).Nodup)
    (hshapes : ∀ s ∈ st.sockets, SockShape st s) :
    ∀ s2 ∈ (handleStopTalking st sock p).1.sockets,
      SockShape (handleStopTalking st sock p).1 s2 := by
  rcases hl : mapLookup st.rooms p.room with _ | roomData
  · rw [handleStopTalking_absent hl]
    exact hshapes
  · rcases hm : mapLookup roomData.participants sock.id with _ | user
    · rw [handleStopTalking_notMember hl hm]
      exact hshapes
    · rw [handleStopTalking_member hl hm]
      intro s2 hs2
      refine sockShape_update_room hnd hl ?_ rfl (hshapes s2 hs2)
      show mapKeys (mapSet roomData.participants sock.id
        { user with isTalking := false }) = mapKeys roomData.participants
      refine mapKeys_mapSet_of_mem ?_
      rw [← mapLookup_isSome_iff, hm]
      rfl

theorem shapes_handleUserLeave {st : ServerState} {sid : String} {k0 : RoomKey}
    (hnd : (mapKeys st.rooms).Nodup)
    (hshapes : ∀ s ∈ st.sockets, SockShape st s) :
    ∀ s2 ∈ (handleUserLeave st sid k0).1.sockets,
      SockShape (handleUserLeave st sid k0).1 s2 := by
  rcases hB : mapLookup st.rooms k0 with _ | r
  · rw [handleUserLeave_absent hB]
    intro s2 hs2
    obtain ⟨s, hs, rfl⟩ := mem_updateSocket_iff.mp hs2
    obtain ⟨h1, h2, h3, h4⟩ := hshapes s hs
    by_cases hid : s.id = sid
    · rw [if_pos hid]
      refine ⟨listRemove_nodup h1 k0, ?_, ?_, ?_⟩
      · rw [userRooms_socketLeave]
        exact le_trans (length_listRemove_le _ _) h2
      · intro k hk
        rw [userRooms_socketLeave] at hk
        exact h3 k (mem_listRemove.mp hk).1
      · intro p hp hpid
        rw [userRooms_socketLeave]
        refine mem_listRemove.mpr ⟨h4 p hp hpid, ?_⟩
        intro hpk
        have : p.1 ∈ mapKeys st.rooms := List.mem_map.mpr ⟨p, hp, rfl⟩
        rw [hpk] at this
        exact mapLookup_eq_none_iff.mp hB this
    · rw [if_neg hid]
      exact ⟨h1, h2, h3, h4⟩
  · by_cases hdel : mapDelete r.participants sid = []
    · rw [handleUserLeave_last hB hdel]
      have hallsid := mapDelete_eq_nil_keys hdel
      intro s2 hs2
      obtain ⟨s, hs, rfl⟩ := mem_updateSocket_iff.mp hs2
      obtain ⟨h1, h2, h3, h4⟩ := hshapes s hs
      by_cases hid : s.id = sid
      · rw [if_pos hid]
        refine ⟨listRemove_nodup h1 k0, ?_, ?_, ?_⟩
        · rw [userRooms_socketLeave]
          exact le_trans (length_listRemove_le _ _) h2
        · intro k hk
          rw [userRooms_socketLeave] at hk
          obtain ⟨hk1, hk2⟩ := mem_listRemove.mp hk
          obtain ⟨p, hp, hpk, hpid⟩ := h3 k hk1
          refine ⟨p, ?_, hpk, hpid⟩
          refine mem_mapDelete_iff.mpr ⟨hp, ?_⟩
          rw [hpk]
          exact hk2
        · intro p hp hpid
          obtain ⟨hp2, hpne⟩ := mem_mapDelete_iff.mp hp
          rw [userRooms_socketLeave]
          exact mem_listRemove.mpr ⟨h4 p hp2 hpid, hpne⟩
      · rw [if_neg hid]
        refine ⟨h1, h2, ?_, ?_⟩
        · intro k hk
          obtain ⟨p, hp, hpk, hpid⟩ := h3 k hk
          refine ⟨p, ?_, hpk, hpid⟩
          refine mem_mapDelete_iff.mpr ⟨hp, ?_⟩
          intro hpk0
          have hlp := mapLookup_of_mem_nodup hnd (show (p.1, p.2) ∈ st.rooms from hp)
          rw [hpk0, hB] at hlp
          injection hlp with hpr
          obtain ⟨q, hq, hqk⟩ := List.mem_map.mp hpid
          have : q.1 = sid := hallsid q (by rw [hpr]; exact hq)
          rw [hqk] at this
          exact hid this
        · intro p hp hpid
          exact h4 p (mem_mapDelete_iff.mp hp).1 hpid
    · rw [handleUserLeave_rest hB hdel]
      intro s2 hs2
      obtain ⟨s, hs, rfl⟩ := mem_updateSocket_iff.mp hs2
      obtain ⟨h1, h2, h3, h4⟩ := hshapes s hs
      by_cases hid : s.id = sid
      · rw [if_pos hid]
        refine ⟨listRemove_nodup h1 k0, ?_, ?_, ?_⟩
        · rw [userRooms_socketLeave]
          exact le_trans (length_listRemove_le _ _) h2
        · intro k hk
          rw [userRooms_socketLeave] at hk
          obtain ⟨hk1, hk2⟩ := mem_listRemove.mp hk
          obtain ⟨p, hp, hpk, hpid⟩ := h3 k hk1
          refine ⟨p, (mem_mapSet_nodup hnd).mpr (Or.inr ⟨hp, by rw [hpk]; exact hk2⟩),
            hpk, hpid⟩
        · intro p hp hpid
          rcases (mem_mapSet_nodup hnd).mp hp with rfl | ⟨hp2, hpne⟩
          · exfalso
            have : s.id ∈ mapKeys (mapDelete r.participants sid) := hpid
            rw [mapKeys_mapDelete] at this
            rw [hid] at this
            exact (mem_listRemove.mp this).2 rfl
          · rw [userRooms_socketLeave]
            exact mem_listRemove.mpr ⟨h4 p hp2 hpid, hpne⟩
      · rw [if_neg hid]
        refine ⟨h1, h2, ?_, ?_⟩
        · intro k hk
          obtain ⟨p, hp, hpk, hpid⟩ := h3 k hk
          by_cases hpk0 : p.1 = k0
          · have hlp := mapLookup_of_mem_nodup hnd (show (p.1, p.2) ∈ st.rooms from hp)
            rw [hpk0, hB] at hlp
            injection hlp with hpr
            refine ⟨(k0, { r with participants := mapDelete r.participants sid }),
              mapSet_mem_self, by rw [← hpk0, hpk], ?_⟩
            show s.id ∈ mapKeys (mapDelete r.participants sid)
            rw [mapKeys_mapDelete]
            refine mem_listRemove.mpr ⟨?_, hid⟩
            rw [← hpr] at hpid
            exact hpid
          · exact ⟨p, (mem_mapSet_nodup hnd).mpr (Or.inr ⟨hp, hpk0⟩), hpk, hpid⟩
        · intro p hp hpid
          rcases (mem_mapSet_nodup hnd).mp hp with rfl | ⟨hp2, hpne⟩
          · have : s.id ∈ mapKeys (mapDelete r.participants sid) := hpid
            rw [mapKeys_mapDelete] at this
            exact h4 (k0, r) (mem_of_mapLookup_eq_some hB) (mem_listRemove.mp this).1
          · exact h4 p hp2 hpid

theorem cleanupStep_state_eq {sid : String} {st : ServerState} {msgs : List Msg}
    {A : RoomKey} (hA : ¬ A = some sid) :
    (cleanupStep sid (st, msgs) A).1 = (handleUserLeave st sid A).1 := by
  rcases hl : mapLookup st.rooms A with _ | r
  · rw [cleanupStep_absent hA hl, @handleUserLeave_absent st _ _ hl]
  · by_cases hdel : mapDelete r.participants sid = []
    · rw [cleanupStep_last hA hl hdel, @handleUserLeave_last st _ _ _ hl hdel]
    · rw [cleanupStep_rest hA hl hdel, @handleUserLeave_rest st _ _ _ hl hdel]

theorem userRooms_cases {s : Socket} (h : (userRooms s).length ≤ 1) :
    userRooms s = [] ∨ ∃ A, userRooms s = [A] := by
  rcases hu : userRooms s with _ | ⟨A, rest⟩
  · exact Or.inl rfl
  · rcases hr : rest with _ | ⟨B, rest2⟩
    · exact Or.inr ⟨A, rfl⟩
    · rw [hu, hr] at h
      simp at h

theorem cleanup_fold_empty {st : ServerState} {sock : Socket}
    (h : userRooms sock = []) :
    sock.sockRooms.foldl (cleanupStep sock.id) (st, []) = (st, []) := by
  rw [foldl_cleanup_filter]
  show (userRooms sock).foldl (cleanupStep sock.id) (st, []) = (st, [])
  rw [h]
  rfl

theorem cleanup_fold_single {st : ServerState} {sock : Socket} {A : RoomKey}
    (h : userRooms sock = [A]) :
    sock.sockRooms.foldl (cleanupStep sock.id) (st, []) =
      cleanupStep sock.id (st, []) A := by
  rw [foldl_cleanup_filter]
  show (userRooms sock).foldl (cleanupStep sock.id) (st, []) = _
  rw [h]
  rfl

theorem userRooms_all_self {s : Socket} (h : userRooms s = []) :
    ∀ k ∈ s.sockRooms, k = some s.id := by
  intro k hk
  by_contra hne
  have : k ∈ userRooms s := mem_listRemove.mpr ⟨hk, hne⟩
  rw [h] at this
  simp at this

theorem shapes_joinPhase {acc : ServerState × List Msg} {sid : String} {p : JoinPayload}
    {s0 : Socket}
    (hnd : (mapKeys acc.1.rooms).Nodup)
    (hnids : (acc.1.sockets.map Socket.id).Nodup)
    (hshapes : ∀ s ∈ acc.1.sockets, SockShape acc.1 s)
    (h0 : s0 ∈ acc.1.sockets) (h0id : s0.id = sid)
    (hu0 : userRooms s0 = [])
    (hk0 : p.room ≠ some sid) :
    ∀ s2 ∈ (joinPhase acc sid p).1.sockets, SockShape (joinPhase acc sid p).1 s2 := by
  subst h0id
  have hk0m : p.room ∉ s0.sockRooms := by
    intro hmem
    exact hk0 (userRooms_all_self hu0 _ hmem)
  have hsock_eq :
      updateSocket (updateSocket acc.1.sockets s0.id (fun s => socketJoin s p.room)) s0.id
        (fun s => { s with userName := p.userName, currentRoom := p.room }) =
      updateSocket acc.1.sockets s0.id (fun s =>
        { socketJoin s p.room with userName := p.userName, currentRoom := p.room }) :=
    updateSocket_comp (fun s => socketJoin_id s p.room)
  have hg_id : ∀ s : Socket,
      ({ socketJoin s p.room with userName := p.userName, currentRoom := p.room } : Socket).id
        = s.id := fun s => socketJoin_id s p.room
  have hu2 : userRooms
      ({ socketJoin s0 p.room with userName := p.userName, currentRoom := p.room } : Socket)
        = [p.room] := by
    show userRooms (socketJoin s0 p.room) = [p.room]
    rw [userRooms_socketJoin hk0 hk0m, hu0]
    rfl
  have hrooms2 :
      ({ socketJoin s0 p.room with userName := p.userName, currentRoom := p.room } : Socket).sockRooms =
        s0.sockRooms ++ [p.room] := by
    show (socketJoin s0 p.room).sockRooms = _
    exact socketJoin_sockRooms_of_not_mem hk0m
  have hnodup2 :
      ({ socketJoin s0 p.room with userName := p.userName, currentRoom := p.room } : Socket).sockRooms.Nodup := by
    rw [hrooms2, List.nodup_append]
    refine ⟨(hshapes s0 h0).1, List.nodup_singleton _, ?_⟩
    intro a ha hb
    rw [List.mem_singleton] at hb
    subst hb
    exact hk0m ha
  rcases hl : mapLookup acc.1.rooms p.room with _ | r0
  · rw [joinPhase_absent hl]
    intro s2 hs2
    rw [show ({ acc.1 with
          rooms := acc.1.rooms ++
            [(p.room, ⟨p.room, [(s0.id, ⟨s0.id, p.userName, false, acc.1.now⟩)], acc.1.now⟩)],
          sockets := (updateSocket (updateSocket acc.1.sockets s0.id
            (fun s => socketJoin s p.room)) s0.id
              (fun s => { s with userName := p.userName, currentRoom := p.room })) }
          : ServerState).sockets =
        updateSocket acc.1.sockets s0.id (fun s =>
          { socketJoin s p.room with userName := p.userName, currentRoom := p.room })
      from hsock_eq] at hs2
    rcases (mem_updateSocket_nodup hnids h0).mp hs2 with rfl | ⟨hs2m, hs2ne⟩
    · refine ⟨hnodup2, ?_, ?_, ?_⟩
      · rw [show userRooms _ = [p.room] from hu2]
        exact le_refl 1
      · intro k hk
        rw [show userRooms _ = [p.room] from hu2] at hk
        rw [List.mem_singleton] at hk
        subst hk
        refine ⟨(p.room, ⟨p.room, [(s0.id, ⟨s0.id, p.userName, false, acc.1.now⟩)], acc.1.now⟩),
          List.mem_append_right _ (List.mem_singleton.mpr rfl), rfl, ?_⟩
        rw [hg_id s0]
        simp [partKeys, mapKeys]
      · intro q hq hqid
        rw [show userRooms _ = [p.room] from hu2]
        rcases List.mem_append.mp hq with hq | hq
        · exfalso
          rw [hg_id] at hqid
          have := (hshapes s0 h0).2.2.2 q hq hqid
          rw [hu0] at this
          simp at this
        · rw [List.mem_singleton] at hq
          subst hq
          rw [List.mem_singleton]
    · obtain ⟨h1, h2, h3, h4⟩ := hshapes s2 hs2m
      refine ⟨h1, h2, ?_, ?_⟩
      · intro k hk
        obtain ⟨q, hq, hqk, hqid⟩ := h3 k hk
        exact ⟨q, List.mem_append_left _ hq, hqk, hqid⟩
      · intro q hq hqid
        rcases List.mem_append.mp hq with hq | hq
        · exact h4 q hq hqid
        · rw [List.mem_singleton] at hq
          subst hq
          exfalso
          simp only [partKeys, mapKeys, List.map_cons, List.map_nil,
            List.mem_singleton] at hqid
          exact hs2ne hqid
  · rw [joinPhase_present hl]
    intro s2 hs2
    rw [show ({ acc.1 with
          rooms := (mapSet acc.1.rooms p.room
            { r0 with participants :=
               (mapSet r0.participants s0.id ⟨s0.id, p.userName, false, acc.1.now⟩) }),
          sockets := (updateSocket (updateSocket acc.1.sockets s0.id
            (fun s => socketJoin s p.room)) s0.id
              (fun s => { s with userName := p.userName, currentRoom := p.room })) }
          : ServerState).sockets =
        updateSocket acc.1.sockets s0.id (fun s =>
          { socketJoin s p.room with userName := p.userName, currentRoom := p.room })
      from hsock_eq] at hs2
    rcases (mem_updateSocket_nodup hnids h0).mp hs2 with rfl | ⟨hs2m, hs2ne⟩
    · refine ⟨hnodup2, ?_, ?_, ?_⟩
      · rw [show userRooms _ = [p.room] from hu2]
        exact le_refl 1
      · intro k hk
        rw [show userRooms _ = [p.room] from hu2] at hk
        rw [List.mem_singleton] at hk
        subst hk
        refine ⟨(p.room, { r0 with participants :=
            (mapSet r0.participants s0.id ⟨s0.id, p.userName, false, acc.1.now⟩) }),
          mapSet_mem_self, rfl, ?_⟩
        rw [hg_id s0]
        show s0.id ∈ mapKeys (mapSet r0.participants s0.id _)
        exact mem_mapKeys_mapSet.mpr (Or.inl rfl)
      · intro q hq hqid
        rw [show userRooms _ = [p.room] from hu2]
        rcases (mem_mapSet_nodup hnd).mp hq with rfl | ⟨hq2, _⟩
        · rw [List.mem_singleton]
        · exfalso
          rw [hg_id] at hqid
          have := (hshapes s0 h0).2.2.2 q hq2 hqid
          rw [hu0] at this
          simp at this
    · obtain ⟨h1, h2, h3, h4⟩ := hshapes s2 hs2m
      refine ⟨h1, h2, ?_, ?_⟩
      · intro k hk
        obtain ⟨q, hq, hqk, hqid⟩ := h3 k hk
        by_cases hqr : q.1 = p.room
        · have hlp := mapLookup_of_mem_nodup hnd (show (q.1, q.2) ∈ acc.1.rooms from hq)
          rw [hqr, hl] at hlp
          injection hlp with hpr
          refine ⟨(p.room, { r0 with participants :=
              (mapSet r0.participants s0.id ⟨s0.id, p.userName, false, acc.1.now⟩) }),
            mapSet_mem_self, by rw [← hqr, hqk], ?_⟩
          show s2.id ∈ mapKeys (mapSet r0.participants s0.id _)
          refine mem_mapKeys_mapSet.mpr (Or.inr ?_)
          rw [← hpr] at hqid
          exact hqid
        · exact ⟨q, (mem_mapSet_nodup hnd).mpr (Or.inr ⟨hq, hqr⟩), hqk, hqid⟩
      · intro q hq hqid
        rcases (mem_mapSet_nodup hnd).mp hq with rfl | ⟨hq2, hqne⟩
        · have : s2.id ∈ mapKeys (mapSet r0.participants s0.id
              ⟨s0.id, p.userName, false, acc.1.now⟩) := hqid
          rcases mem_mapKeys_mapSet.mp this with heq | hmem
          · exact absurd heq hs2ne
          · exact h4 (p.room, r0) (mem_of_mapLookup_eq_some hl) hmem
        · exact h4 q hq2 hqid

theorem handleUserLeave_sockets (st : ServerState) (sid : String) (room : RoomKey) :
    (handleUserLeave st sid room).1.sockets =
      updateSocket st.sockets sid (fun s => socketLeave s room) := by
  rcases hl : mapLookup st.rooms room with _ | r
  · rw [handleUserLeave_absent hl]
  · by_cases hdel : mapDelete r.participants sid = []
    · rw [handleUserLeave_last hl hdel]
    · rw [handleUserLeave_rest hl hdel]

theorem handleUserLeave_usedIds (st : ServerState) (sid : String) (room : RoomKey) :
    (handleUserLeave st sid room).1.usedIds = st.usedIds := by
  rcases hl : mapLookup st.rooms room with _ | r
  · rw [handleUserLeave_absent hl]
  · by_cases hdel : mapDelete r.participants sid = []
    · rw [handleUserLeave_last hl hdel]
    · rw [handleUserLeave_rest hl hdel]

theorem shapes_handleJoinRoom {st : ServerState} {sock : Socket} {pl : JoinPayload}
    (h : InvR st) (hmem : sock ∈ st.sockets) (hk0 : pl.room ≠ some sock.id) :
    ∀ s2 ∈ (handleJoinRoom st sock pl).1.sockets,
      SockShape (handleJoinRoom st sock pl).1 s2 := by
  obtain ⟨⟨hrooms, hsocks⟩, hshapes⟩ := h
  rw [handleJoinRoom_eq]
  obtain ⟨hs1, hs2len, _, _⟩ := hshapes sock hmem
  rcases userRooms_cases hs2len with hu | ⟨A, hu⟩
  · rw [cleanup_fold_empty hu]
    exact shapes_joinPhase hrooms.1 hsocks.1 hshapes hmem rfl hu hk0
  · rw [cleanup_fold_single hu]
    have hA_ne : ¬ A = some sock.id := by
      have : A ∈ userRooms sock := by
        rw [hu]
        exact List.mem_singleton.mpr rfl
      exact (mem_listRemove.mp this).2
    have hacc : (cleanupStep sock.id (st, []) A).1 = (handleUserLeave st sock.id A).1 :=
      cleanupStep_state_eq hA_ne
    have hinv1 : InvBase (handleUserLeave st sock.id A).1 :=
      invBase_handleUserLeave sock.id A ⟨hrooms, hsocks⟩
    have hshapes1 : ∀ s2 ∈ (handleUserLeave st sock.id A).1.sockets,
        SockShape (handleUserLeave st sock.id A).1 s2 :=
      shapes_handleUserLeave hrooms.1 hshapes
    have hs0mem : socketLeave sock A ∈ (handleUserLeave st sock.id A).1.sockets := by
      rw [handleUserLeave_sockets]
      exact (mem_updateSocket_nodup hsocks.1 hmem).mpr (Or.inl rfl)
    have hu0 : userRooms (socketLeave sock A) = [] := by
      rw [userRooms_socketLeave, hu]
      simp [listRemove]
    refine @shapes_joinPhase _ _ _ (socketLeave sock A) ?_ ?_ ?_ ?_ rfl hu0 ?_
    · rw [hacc]
      exact hinv1.1.1
    · rw [hacc]
      exact hinv1.2.1
    · rw [hacc]
      exact hshapes1
    · rw [hacc]
      exact hs0mem
    · show pl.room ≠ some (socketLeave sock A).id
      exact hk0

theorem shapes_handleDisconnect {st : ServerState} {sock : Socket}
    (hnd : (mapKeys st.rooms).Nodup)
    (hshapes : ∀ s ∈ st.sockets, SockShape st s) :
    ∀ s2 ∈ (handleDisconnect st sock).1.sockets,
      SockShape (handleDisconnect st sock).1 s2 := by
  rcases htr : jsTruthyRoom sock.currentRoom with _ | _
  · rw [handleDisconnect_falsy htr]
    intro s2 hs2
    exact hshapes s2 (mem_removeSocket_iff.mp hs2).1
  · rw [handleDisconnect_truthy htr]
    intro s2 hs2
    have hs2m : s2 ∈ (handleUserLeave st sock.id sock.currentRoom).1.sockets :=
      (mem_removeSocket_iff.mp hs2).1
    exact shapes_handleUserLeave hnd hshapes s2 hs2m

theorem freshSocket_shape {st : ServerState} {sid : String}
    (hbase : InvBase st) (hfresh : sid ∉ st.usedIds) :
    SockShape st (freshSocket sid) := by
  refine ⟨by simp [freshSocket], ?_, ?_, ?_⟩
  · show (userRooms (freshSocket sid)).length ≤ 1
    simp [userRooms, freshSocket, listRemove]
  · intro k hk
    simp [userRooms, freshSocket, listRemove] at hk
  · intro p hp hpid
    exfalso
    obtain ⟨q, hq, hqk⟩ := List.mem_map.mp hpid
    have : q.1 ∈ st.usedIds := hbase.1.2.2.2 p hp q hq
    rw [hqk] at this
    exact hfresh this

theorem sockShape_rooms_eq {st st' : ServerState} (h : st'.rooms = st.rooms)
    {s : Socket} (hs : SockShape st s) : SockShape st' s := by
  obtain ⟨h1, h2, h3, h4⟩ := hs
  refine ⟨h1, h2, ?_, ?_⟩
  · intro k hk
    rw [h]
    exact h3 k hk
  · intro p hp hpid
    rw [h] at hp
    exact h4 p hp hpid

theorem invR_stepState {st : ServerState} (e : InEvent)
    (h : InvR st) (ha : allowedEvent e) : InvR (stepState st e) := by
  have hbase := invBase_stepState e h.1
  refine ⟨hbase, ?_⟩
  cases e with
  | connect sid =>
    by_cases hmem : sid ∈ st.usedIds
    · rw [stepState_connect_old hmem]
      exact h.2
    · rw [stepState_connect_new hmem]
      intro s2 hs2
      rcases List.mem_append.mp hs2 with hs2 | hs2
      · exact @sockShape_rooms_eq st _ rfl _ (h.2 s2 hs2)
      · rw [List.mem_singleton] at hs2
        subst hs2
        exact @sockShape_rooms_eq st _ rfl _ (freshSocket_shape h.1 hmem)
  | joinRoom sid payload =>
    rcases hfs : findSocket st.sockets sid with _ | sock
    · rw [stepState_joinRoom_noSock hfs]
      exact h.2
    · cases payload with
      | none =>
        rw [stepState_joinRoom_crash hfs]
        exact h.2
      | some p =>
        rw [stepState_joinRoom hfs]
        have hks : p.room ≠ some sock.id := by
          rw [(findSocket_eq_some hfs).2]
          exact ha
        exact shapes_handleJoinRoom h (findSocket_eq_some hfs).1 hks
  | startTalking sid payload =>
    rcases hfs : findSocket st.sockets sid with _ | sock
    · rw [stepState_startTalking_noSock hfs]
      exact h.2
    · cases payload with
      | none =>
        rw [stepState_startTalking_crash hfs]
        exact h.2
      | some p =>
        rw [stepState_startTalking hfs]
        exact shapes_handleStartTalking h.1.1.1 h.2
  | stopTalking sid payload =>
    rcases hfs : findSocket st.sockets sid with _ | sock
    · rw [stepState_stopTalking_noSock hfs]
      exact h.2
    · cases payload with
      | none =>
        rw [stepState_stopTalking_crash hfs]
        exact h.2
      | some p =>
        rw [stepState_stopTalking hfs]
        exact shapes_handleStopTalking h.1.1.1 h.2
  | offerEv sid payload =>
    rcases hfs : findSocket st.sockets sid with _ | sock
    · rw [stepState_offer_noSock hfs]
      exact h.2
    · cases payload with
      | none =>
        rw [stepState_offer_crash hfs]
        exact h.2
      | some p =>
        rw [stepState_offer hfs]
        exact h.2
  | answerEv sid payload =>
    rcases hfs : findSocket st.sockets sid with _ | sock
    · rw [stepState_answer_noSock hfs]
      exact h.2
    · cases payload with
      | none =>
        rw [stepState_answer_crash hfs]
        exact h.2
      | some p =>
        rw [stepState_answer hfs]
        exact h.2
  | iceCandidateEv sid payload =>
    rcases hfs : findSocket st.sockets sid with _ | sock
    · rw [stepState_ice_noSock hfs]
      exact h.2
    · cases payload with
      | none =>
        rw [stepState_ice_crash hfs]
        exact h.2
      | some p =>
        rw [stepState_ice hfs]
        exact h.2
  | leaveRoom sid payload =>
    rcases hfs : findSocket st.sockets sid with _ | sock
    · rw [stepState_leaveRoom_noSock hfs]
      exact h.2
    · cases payload with
      | none =>
        rw [stepState_leaveRoom_crash hfs]
        exact h.2
      | some p =>
        rw [stepState_leaveRoom hfs]
        exact shapes_handleUserLeave h.1.1.1 h.2
  | disconnect sid =>
    rcases hfs : findSocket st.sockets sid with _ | sock
    · rw [stepState_disconnect_noSock hfs]
      exact h.2
    · rw [stepState_disconnect hfs]
      exact shapes_handleDisconnect h.1.1.1 h.2
  | sweep =>
    rw [stepState_sweep]
    intro s2 hs2
    refine sockShape_rooms_eq ?_ (h.2 s2 hs2)
    show sweepRooms st.rooms = st.rooms
    exact sweepRooms_eq_self h.1.1.2.2.1
  | tick =>
    rw [stepState_tick]
    exact h.2

theorem invR_initial : InvR initialState := by
  refine ⟨invBase_initial, ?_⟩
  intro s hs
  simp [initialState] at hs

theorem reachableR_invR {st : ServerState} (h : ReachableR st) : InvR st := by
  induction h with
  | init => exact invR_initial
  | next st e _ ha ih => exact invR_stepState e ih ha

theorem roomsContaining_length_le {st : ServerState} (h : InvR st) {s : Socket}
    (hs : s ∈ st.sockets) : (roomsContaining st s.id).length ≤ 1 := by
  obtain ⟨⟨hrooms, _⟩, hshapes⟩ := h
  obtain ⟨_, hlen, _, h4⟩ := hshapes s hs
  have hnd : (roomsContaining st s.id).Nodup := by
    unfold roomsContaining
    exact hrooms.1.sublist ((List.filter_sublist _).map Prod.fst)
  have hsub : ∀ k ∈ roomsContaining st s.id, k ∈ userRooms s := by
    intro k hk
    obtain ⟨p, hp, hpk⟩ := List.mem_map.mp hk
    have hpmem : p ∈ st.rooms := (List.mem_filter.mp hp).1
    have hcond : s.id ∈ partKeys p.2 :=
      of_decide_eq_true (List.mem_filter.mp hp).2
    rw [← hpk]
    exact h4 p hpmem hcond
  calc (roomsContaining st s.id).length
      ≤ (userRooms s).length := (List.subperm_of_subset hnd hsub).length_le
    _ ≤ 1 := hlen

theorem mapLookup_append_singleton_ne {β : Type} {m : List (RoomKey × β)}
    {k k' : RoomKey} {v : β} (h : k ≠ k') :
    mapLookup (m ++ [(k', v)]) k = mapLookup m k := by
  induction m with
  | nil =>
    simp only [List.nil_append, mapLookup]
    rw [if_neg (fun hk : k' = k => h hk.symm)]
  | cons p rest ih =>
    obtain ⟨k0, v0⟩ := p
    simp only [List.cons_append, mapLookup]
    split
    next => rfl
    next => exact ih

theorem mapLookup_append_singleton_self {β : Type} {m : List (RoomKey × β)}
    {k : RoomKey} {v : β} (h : mapLookup m k = none) :
    mapLookup (m ++ [(k, v)]) k = some v := by
  induction m with
  | nil => simp [mapLookup]
  | cons p rest ih =>
    obtain ⟨k0, v0⟩ := p
    simp only [mapLookup] at h
    split at h
    next => exact Option.noConfusion h
    next hne =>
      simp only [List.cons_append, mapLookup, if_neg hne]
      exact ih h

theorem eq_singleton_of_mem_of_length_le {α : Type} {l : List α} {a : α}
    (hlen : l.length ≤ 1) (hmem : a ∈ l) : l = [a] := by
  rcases l with _ | ⟨x, rest⟩
  · simp at hmem
  · rcases rest with _ | ⟨y, rest2⟩
    · rw [List.mem_singleton] at hmem
      rw [hmem]
    · simp at hlen

theorem joinPhase_switch {acc : ServerState × List Msg} {sid : String} {B : RoomKey}
    {u : Option String} {A : RoomKey}
    (hA1 : ∀ rA2, mapLookup acc.1.rooms A = some rA2 → sid ∉ partKeys rA2)
    (hBA : B ≠ A) :
    (∀ rA2, mapLookup (joinPhase acc sid ⟨B, u⟩).1.rooms A = some rA2 →
      sid ∉ partKeys rA2) ∧
    (∃ rB2, mapLookup (joinPhase acc sid ⟨B, u⟩).1.rooms B = some rB2 ∧
      sid ∈ partKeys rB2) ∧
    (∃ post, (joinPhase acc sid ⟨B, u⟩).2 = acc.2 ++ post ∧
      (∀ m ∈ post, ∃ ps, m.event = OutEvent.userJoined ps)) := by
  have hAB : A ≠ B := fun hh => hBA hh.symm
  rcases hB : mapLookup acc.1.rooms B with _ | rB
  · rw [joinPhase_absent hB]
    refine ⟨?_, ?_, ?_⟩
    · intro rA2 hl
      rw [show mapLookup (acc.1.rooms ++
          [(B, ⟨B, [(sid, ⟨sid, u, false, acc.1.now⟩)], acc.1.now⟩)]) A =
          mapLookup acc.1.rooms A from mapLookup_append_singleton_ne hAB] at hl
      exact hA1 rA2 hl
    · refine ⟨⟨B, [(sid, ⟨sid, u, false, acc.1.now⟩)], acc.1.now⟩, ?_, ?_⟩
      · exact mapLookup_append_singleton_self hB
      · simp [partKeys, mapKeys]
    · refine ⟨_, rfl, ?_⟩
      intro m hm
      exact ⟨_, ioTo_event hm⟩
  · rw [joinPhase_present hB]
    refine ⟨?_, ?_, ?_⟩
    · intro rA2 hl
      rw [show mapLookup (mapSet acc.1.rooms B
          { rB with participants :=
            (mapSet rB.participants sid ⟨sid, u, false, acc.1.now⟩) }) A =
          mapLookup acc.1.rooms A from mapLookup_mapSet_ne hAB] at hl
      exact hA1 rA2 hl
    · refine ⟨{ rB with participants :=
          (mapSet rB.participants sid ⟨sid, u, false, acc.1.now⟩) },
        mapLookup_mapSet_self, ?_⟩
      show sid ∈ mapKeys (mapSet rB.participants sid _)
      exact mem_mapKeys_mapSet.mpr (Or.inl rfl)
    · refine ⟨_, rfl, ?_⟩
      intro m hm
      exact ⟨_, ioTo_event hm⟩

theorem joinPhase_lookup_ne {acc : ServerState × List Msg} {sid : String} {B : RoomKey}
    {u : Option String} {A : RoomKey} (hBA : B ≠ A) :
    mapLookup (joinPhase acc sid ⟨B, u⟩).1.rooms A = mapLookup acc.1.rooms A := by
  have hAB : A ≠ B := fun hh => hBA hh.symm
  rcases hB : mapLookup acc.1.rooms B with _ | rB
  · rw [joinPhase_absent hB]
    exact mapLookup_append_singleton_ne hAB
  · rw [joinPhase_present hB]
    exact mapLookup_mapSet_ne hAB

theorem demo2_reachableR : ReachableR demo2 :=
  ReachableR.next _ _ (ReachableR.next _ _ (ReachableR.next _ _
    (ReachableR.next _ _ ReachableR.init (by simp [allowedEvent]))
    (by simp [allowedEvent])) (by simp [allowedEvent])) (by simp [allowedEvent])

/-- C2 counterexample: a connection that first joins the room named by its
own socket id and then joins another room ends up as a participant of two
registry rooms at once — the cleanup loop skips the room whose name equals
the socket id (`server.js` line 60), so the first membership survives. -/
theorem claim2_counterexample :
    roomsContaining
      (stepState (stepState (stepState initialState (InEvent.connect "a"))
          (InEvent.joinRoom "a" (some ⟨some "a", some "Al"⟩)))
        (InEvent.joinRoom "a" (some ⟨some "B", some "Al"⟩))) "a" =
      [some "a", some "B"] := by
  decide

/-- C2 (corrected): provided no join-room event ever names the joining
connection's own socket id as the room id, every reachable state has each
connection participating in at most one registry room; and a join for room
B by a connection currently in room A (with B neither A nor the
connection's own id) removes it from A first — broadcasting `user-left` to
A's remaining members via the socket.io room, or deleting A when it became
empty — and only then inserts it into B, every departure message preceding
every arrival message.  Without the own-id proviso the invariant fails
(see the counterexample). -/
theorem claim2_at_most_one_room :
    (∀ st, ReachableR st → ∀ s ∈ st.sockets, (roomsContaining st s.id).length ≤ 1) ∧
    (∀ (st : ServerState) (sid : String) (sock : Socket) (A B : RoomKey) (rA : Room)
        (u : Option String),
      InvR st → findSocket st.sockets sid = some sock →
      mapLookup st.rooms A = some rA → sid ∈ partKeys rA → B ≠ A → B ≠ some sid →
      (∀ rA2, mapLookup (stepState st (InEvent.joinRoom sid (some ⟨B, u⟩))).rooms A =
          some rA2 → sid ∉ partKeys rA2) ∧
      (∃ rB2, mapLookup (stepState st (InEvent.joinRoom sid (some ⟨B, u⟩))).rooms B =
          some rB2 ∧ sid ∈ partKeys rB2) ∧
      (∃ post, (∀ m ∈ post, ∃ ps, m.event = OutEvent.userJoined ps) ∧
        ((mapDelete rA.participants sid = [] ∧
            stepMsgs st (InEvent.joinRoom sid (some ⟨B, u⟩)) = post ∧
            mapLookup (stepState st (InEvent.joinRoom sid (some ⟨B, u⟩))).rooms A = none) ∨
          (mapDelete rA.participants sid ≠ [] ∧
            stepMsgs st (InEvent.joinRoom sid (some ⟨B, u⟩)) =
              socketTo (updateSocket st.sockets sid (fun s => socketLeave s A)) A sid
                (OutEvent.userLeft (mapValues (mapDelete rA.participants sid))) ++ post)))) := by
  refine ⟨?_, ?_⟩
  · intro st hst s hs
    exact roomsContaining_length_le (reachableR_invR hst) hs
  · intro st sid sock A B rA u hR hfs hA hin hBA hBs
    obtain ⟨hmem, hid⟩ := findSocket_eq_some hfs
    subst hid
    obtain ⟨hndS, hlen, hfwd, hbwd⟩ := hR.2 sock hmem
    have hAmem : A ∈ userRooms sock :=
      hbwd (A, rA) (mem_of_mapLookup_eq_some hA) hin
    have hu : userRooms sock = [A] := eq_singleton_of_mem_of_length_le hlen hAmem
    have hAsid : ¬ A = some sock.id := by
      have h5 := hAmem
      unfold userRooms at h5
      exact (mem_listRemove.mp h5).2
    rw [stepState_joinRoom hfs, stepMsgs_joinRoom hfs, handleJoinRoom_eq,
      cleanup_fold_single hu]
    have hl0 : mapLookup (st, ([] : List Msg)).1.rooms A = some rA := hA
    by_cases hdel : mapDelete rA.participants sock.id = []
    · have hstep : cleanupStep sock.id (st, []) A =
          ({ st with
              rooms := (mapDelete st.rooms A),
              sockets := (updateSocket st.sockets sock.id (fun s => socketLeave s A)) },
           ([] : List Msg)) := cleanupStep_last hAsid hl0 hdel
      rw [hstep]
      have hA1c : ∀ rA2, mapLookup (mapDelete st.rooms A) A = some rA2 →
          sock.id ∉ partKeys rA2 := by
        intro rA2 h2
        rw [mapLookup_mapDelete_self] at h2
        exact Option.noConfusion h2
      obtain ⟨h1, h2c, post, hmsgs, hpost⟩ :=
        @joinPhase_switch
          ({ st with
              rooms := (mapDelete st.rooms A),
              sockets := (updateSocket st.sockets sock.id (fun s => socketLeave s A)) },
            ([] : List Msg))
          sock.id B u A hA1c hBA
      refine ⟨h1, h2c, post, hpost, Or.inl ⟨hdel, ?_, ?_⟩⟩
      · exact hmsgs.trans (List.nil_append post)
      · rw [joinPhase_lookup_ne hBA]
        exact mapLookup_mapDelete_self
    · have hstep : cleanupStep sock.id (st, []) A =
          ({ st with
              rooms := (mapSet st.rooms A
                { rA with participants := (mapDelete rA.participants sock.id) }),
              sockets := (updateSocket st.sockets sock.id (fun s => socketLeave s A)) },
           socketTo (updateSocket st.sockets sock.id (fun s => socketLeave s A)) A sock.id
             (OutEvent.userLeft (mapValues (mapDelete rA.participants sock.id)))) :=
        cleanupStep_rest hAsid hl0 hdel
      rw [hstep]
      have hA1c : ∀ rA2, mapLookup (mapSet st.rooms A
          { rA with participants := mapDelete rA.participants sock.id }) A = some rA2 →
          sock.id ∉ partKeys rA2 := by
        intro rA2 h2
        rw [mapLookup_mapSet_self, Option.some.injEq] at h2
        subst h2
        show sock.id ∉ mapKeys (mapDelete rA.participants sock.id)
        rw [mapKeys_mapDelete]
        intro hc
        exact (mem_listRemove.mp hc).2 rfl
      obtain ⟨h1, h2c, post, hmsgs, hpost⟩ :=
        @joinPhase_switch
          ({ st with
              rooms := (mapSet st.rooms A
                { rA with participants := (mapDelete rA.participants sock.id) }),
              sockets := (updateSocket st.sockets sock.id (fun s => socketLeave s A)) },
            socketTo (updateSocket st.sockets sock.id (fun s => socketLeave s A)) A sock.id
              (OutEvent.userLeft (mapValues (mapDelete rA.participants sock.id))))
          sock.id B u A hA1c hBA
      exact ⟨h1, h2c, post, hpost, Or.inr ⟨hdel, hmsgs⟩⟩

theorem claim2_at_most_one_room_witness :
    (∀ s ∈ demo2.sockets, (roomsContaining demo2 s.id).length ≤ 1) ∧
    (∃ rB2, mapLookup (stepState demo2
        (InEvent.joinRoom "a" (some ⟨some "S", some "Al"⟩))).rooms
        (some "S") = some rB2 ∧ "a" ∈ partKeys rB2) := by
  constructor
  · exact claim2_at_most_one_room.1 demo2 demo2_reachableR
  · exact (claim2_at_most_one_room.2 demo2 "a"
      ⟨"a", [some "a", some "R"], some "Al", some "R"⟩ (some "R") (some "S")
      ⟨some "R", [("a", ⟨"a", some "Al", false, 0⟩), ("b", ⟨"b", some "Bo", false, 0⟩)], 0⟩
      (some "Al") (by decide) (by decide) (by decide) (by decide) (by decide)
      (by decide)).2.1

theorem cleanupStep_sockets_ids (sid : String) (acc : ServerState × List Msg) (k : RoomKey) :
    ((cleanupStep sid acc k).1.sockets).map Socket.id = (acc.1.sockets).map Socket.id := by
  by_cases hk : k = some sid
  · rw [cleanupStep_self hk]
  · rcases hl : mapLookup acc.1.rooms k with _ | r
    · rw [cleanupStep_absent hk hl]
      exact updateSocket_map_id (fun s => rfl)
    · by_cases hdel : mapDelete r.participants sid = []
      · rw [cleanupStep_last hk hl hdel]
        exact updateSocket_map_id (fun s => rfl)
      · rw [cleanupStep_rest hk hl hdel]
        exact updateSocket_map_id (fun s => rfl)

theorem foldl_cleanup_sockets_ids (sid : String) (l : List RoomKey)
    (acc : ServerState × List Msg) :
    ((l.foldl (cleanupStep sid) acc).1.sockets).map Socket.id =
      (acc.1.sockets).map Socket.id := by
  induction l generalizing acc with
  | nil => rfl
  | cons x xs ih =>
    simp only [List.foldl_cons]
    rw [ih (cleanupStep sid acc x), cleanupStep_sockets_ids]

theorem cleanupStep_msgs (sid : String) (acc : ServerState × List Msg) (k : RoomKey) :
    ∀ m ∈ (cleanupStep sid acc k).2, m ∈ acc.2 ∨ ∃ ps, m.event = OutEvent.userLeft ps := by
  intro m hm
  by_cases hk : k = some sid
  · rw [cleanupStep_self hk] at hm
    exact Or.inl hm
  · rcases hl : mapLookup acc.1.rooms k with _ | r
    · rw [cleanupStep_absent hk hl] at hm
      exact Or.inl hm
    · by_cases hdel : mapDelete r.participants sid = []
      · rw [cleanupStep_last hk hl hdel] at hm
        exact Or.inl hm
      · rw [cleanupStep_rest hk hl hdel] at hm
        rcases List.mem_append.mp hm with hm2 | hm2
        · exact Or.inl hm2
        · exact Or.inr ⟨_, socketTo_event hm2⟩

theorem foldl_cleanup_msgs (sid : String) (l : List RoomKey) (acc : ServerState × List Msg) :
    ∀ m ∈ (l.foldl (cleanupStep sid) acc).2,
      m ∈ acc.2 ∨ ∃ ps, m.event = OutEvent.userLeft ps := by
  induction l generalizing acc with
  | nil => intro m hm; exact Or.inl hm
  | cons x xs ih =>
    intro m hm
    simp only [List.foldl_cons] at hm
    rcases ih (cleanupStep sid acc x) m hm with h | h
    · exact cleanupStep_msgs sid acc x m h
    · exact Or.inr h

theorem mem_socketJoin_self (s : Socket) (k : RoomKey) : k ∈ (socketJoin s k).sockRooms := by
  unfold socketJoin
  split
  next h => exact h
  next => simp

/-- The join handler's unconditional output contract, used for C5. -/
theorem joinRoom_spec :
    ∀ (st : ServerState) (sid : String) (sock : Socket) (p : JoinPayload),
      findSocket st.sockets sid = some sock →
      ∃ r', mapLookup (stepState st (InEvent.joinRoom sid (some p))).rooms p.room =
          some r' ∧
        mapLookup r'.participants sid = some ⟨sid, p.userName, false, st.now⟩ ∧
        (∃ pre, stepMsgs st (InEvent.joinRoom sid (some p)) = pre ++
            ioTo (stepState st (InEvent.joinRoom sid (some p))).sockets p.room
              (OutEvent.userJoined (mapValues r'.participants)) ∧
          ∀ m ∈ pre, ∃ ps, m.event = OutEvent.userLeft ps) ∧
        (⟨sid, OutEvent.userJoined (mapValues r'.participants)⟩ : Msg) ∈
          stepMsgs st (InEvent.joinRoom sid (some p)) := by
  intro st sid sock p hfs
  obtain ⟨hmem, hid⟩ := findSocket_eq_some hfs
  subst hid
  rw [stepState_joinRoom hfs, stepMsgs_joinRoom hfs, handleJoinRoom_eq]
  generalize hacc : sock.sockRooms.foldl (cleanupStep sock.id) (st, ([] : List Msg)) = acc
  have hnow : acc.1.now = st.now := by
    rw [← hacc]
    exact (foldl_cleanup_frame sock.id sock.sockRooms (st, [])).2
  have hids : (acc.1.sockets).map Socket.id = st.sockets.map Socket.id := by
    rw [← hacc]
    exact foldl_cleanup_sockets_ids sock.id sock.sockRooms (st, [])
  have hpre : ∀ m ∈ acc.2, ∃ ps, m.event = OutEvent.userLeft ps := by
    rw [← hacc]
    intro m hm
    rcases foldl_cleanup_msgs sock.id sock.sockRooms (st, []) m hm with h | h
    · exact absurd h (List.not_mem_nil m)
    · exact h
  obtain ⟨s1, hs1mem, hs1id⟩ := List.mem_map.mp
    (show sock.id ∈ (acc.1.sockets).map Socket.id by
      rw [hids]
      exact List.mem_map.mpr ⟨sock, hmem, rfl⟩)
  have hs'1 : socketJoin s1 p.room ∈
      updateSocket acc.1.sockets sock.id (fun s => socketJoin s p.room) :=
    mem_updateSocket_iff.mpr ⟨s1, hs1mem, by rw [if_pos hs1id]⟩
  have h2id : (socketJoin s1 p.room).id = sock.id := by
    rw [socketJoin_id, hs1id]
  have hs'2 : ({ socketJoin s1 p.room with
        userName := p.userName, currentRoom := p.room } : Socket) ∈
      updateSocket (updateSocket acc.1.sockets sock.id (fun s => socketJoin s p.room))
        sock.id (fun s => { s with userName := p.userName, currentRoom := p.room }) :=
    mem_updateSocket_iff.mpr ⟨socketJoin s1 p.room, hs'1, by rw [if_pos h2id]⟩
  have hs'room : p.room ∈ ({ socketJoin s1 p.room with
      userName := p.userName, currentRoom := p.room } : Socket).sockRooms :=
    mem_socketJoin_self s1 p.room
  have hs'id : ({ socketJoin s1 p.room with
      userName := p.userName, currentRoom := p.room } : Socket).id = sock.id := h2id
  rcases hB : mapLookup acc.1.rooms p.room with _ | rB
  · rw [joinPhase_absent hB]
    refine ⟨⟨p.room, [(sock.id, ⟨sock.id, p.userName, false, acc.1.now⟩)], acc.1.now⟩,
      ?_, ?_, ?_, ?_⟩
    · exact mapLookup_append_singleton_self hB
    · show mapLookup [(sock.id, (⟨sock.id, p.userName, false, acc.1.now⟩ : Participant))]
          sock.id = some ⟨sock.id, p.userName, false, st.now⟩
      rw [hnow]
      simp [mapLookup]
    · exact ⟨acc.2, rfl, hpre⟩
    · apply List.mem_append_right
      rw [mem_ioTo_iff]
      refine ⟨{ socketJoin s1 p.room with
          userName := p.userName, currentRoom := p.room }, hs'2, hs'room, ?_⟩
      rw [hs'id]
      rfl
  · rw [joinPhase_present hB]
    refine ⟨{ rB with participants :=
        (mapSet rB.participants sock.id ⟨sock.id, p.userName, false, acc.1.now⟩) },
      ?_, ?_, ?_, ?_⟩
    · exact mapLookup_mapSet_self
    · show mapLookup (mapSet rB.participants sock.id
          (⟨sock.id, p.userName, false, acc.1.now⟩ : Participant)) sock.id =
        some ⟨sock.id, p.userName, false, st.now⟩
      rw [hnow]
      exact mapLookup_mapSet_self
    · exact ⟨acc.2, rfl, hpre⟩
    · apply List.mem_append_right
      rw [mem_ioTo_iff]
      refine ⟨{ socketJoin s1 p.room with
          userName := p.userName, currentRoom := p.room }, hs'2, hs'room, ?_⟩
      rw [hs'id]

/-- C5: every join event from a connected socket — including one naming a
room id absent from the registry, which is created rather than rejected —
inserts a fresh participant record for the joiner (isTalking false,
joinedAt the current time) and then emits a single `user-joined` broadcast
whose participants payload is the post-mutation membership list of the
room in stored (insertion) order, the joiner included among the
recipients, with only the implicit-leave `user-left` notifications
preceding it; moreover in an invariant state (no own-id-room joins) every
connected socket that is a participant of the post-mutation room receives
that broadcast. -/
theorem claim5_join_create_broadcast :
    (∀ (st : ServerState) (sid : String) (sock : Socket) (p : JoinPayload),
      findSocket st.sockets sid = some sock →
      ∃ r', mapLookup (stepState st (InEvent.joinRoom sid (some p))).rooms p.room =
          some r' ∧
        mapLookup r'.participants sid = some ⟨sid, p.userName, false, st.now⟩ ∧
        (∃ pre, stepMsgs st (InEvent.joinRoom sid (some p)) = pre ++
            ioTo (stepState st (InEvent.joinRoom sid (some p))).sockets p.room
              (OutEvent.userJoined (mapValues r'.participants)) ∧
          ∀ m ∈ pre, ∃ ps, m.event = OutEvent.userLeft ps) ∧
        (⟨sid, OutEvent.userJoined (mapValues r'.participants)⟩ : Msg) ∈
          stepMsgs st (InEvent.joinRoom sid (some p))) ∧
    (∀ (st : ServerState) (sid : String) (sock : Socket) (p : JoinPayload),
      InvR st → findSocket st.sockets sid = some sock → p.room ≠ some sid →
      ∀ r', mapLookup (stepState st (InEvent.joinRoom sid (some p))).rooms p.room =
          some r' →
      ∀ s' ∈ (stepState st (InEvent.joinRoom sid (some p))).sockets,
        s'.id ∈ partKeys r' →
        (⟨s'.id, OutEvent.userJoined (mapValues r'.participants)⟩ : Msg) ∈
          stepMsgs st (InEvent.joinRoom sid (some p))) := by
  refine ⟨joinRoom_spec, ?_⟩
  intro st sid sock p hR hfs hself r' hr' s' hs' hpk
  have hinv2 : InvR (stepState st (InEvent.joinRoom sid (some p))) :=
    invR_stepState (InEvent.joinRoom sid (some p)) hR hself
  obtain ⟨_, _, _, h4⟩ := hinv2.2 s' hs'
  have hroom : p.room ∈ s'.sockRooms := by
    have h5 := h4 (p.room, r') (mem_of_mapLookup_eq_some hr') hpk
    unfold userRooms at h5
    exact (mem_listRemove.mp h5).1
  obtain ⟨r0, hr0, hpart0, ⟨pre, hmsgs, hprel⟩, hjm⟩ := joinRoom_spec st sid sock p hfs
  have hrr : r' = r0 := Option.some.inj (hr'.symm.trans hr0)
  subst hrr
  rw [hmsgs]
  exact List.mem_append_right _ (mem_ioTo_iff.mpr ⟨s', hs', hroom, rfl⟩)

theorem claim5_join_create_broadcast_witness :
    (∃ r', mapLookup (stepState demo0
        (InEvent.joinRoom "a" (some ⟨some "W", some "Al"⟩))).rooms (some "W") = some r' ∧
      mapLookup r'.participants "a" = some ⟨"a", some "Al", false, demo0.now⟩ ∧
      (∃ pre, stepMsgs demo0 (InEvent.joinRoom "a" (some ⟨some "W", some "Al"⟩)) = pre ++
          ioTo (stepState demo0
            (InEvent.joinRoom "a" (some ⟨some "W", some "Al"⟩))).sockets
            (some "W") (OutEvent.userJoined (mapValues r'.participants)) ∧
        ∀ m ∈ pre, ∃ ps, m.event = OutEvent.userLeft ps) ∧
      (⟨"a", OutEvent.userJoined (mapValues r'.participants)⟩ : Msg) ∈
        stepMsgs demo0 (InEvent.joinRoom "a" (some ⟨some "W", some "Al"⟩))) ∧
    (⟨"a", OutEvent.userJoined (mapValues
        [("a", (⟨"a", some "Al", false, 0⟩ : Participant))])⟩ : Msg) ∈
      stepMsgs demo0 (InEvent.joinRoom "a" (some ⟨some "W", some "Al"⟩)) := by
  constructor
  · exact claim5_join_create_broadcast.1 demo0 "a" ⟨"a", [some "a"], none, none⟩
      ⟨some "W", some "Al"⟩ (by decide)
  · exact claim5_join_create_broadcast.2 demo0 "a" ⟨"a", [some "a"], none, none⟩
      ⟨some "W", some "Al"⟩ (by decide) (by decide) (by decide)
      ⟨some "W", [("a", ⟨"a", some "Al", false, 0⟩)], 0⟩ (by decide)
      ⟨"a", [some "a", some "W"], some "Al", some "W"⟩ (by decide) (by decide)

/-- C9 counterexample: rejoining the room named by one's own socket id is
NOT remove-then-reinsert.  With "a" and "b" both in room "a", a rejoin by
"a" leaves "a" at the front of the membership order (record replaced in
place, not moved to the end) and emits no `user-left` to "b": the output
is exactly the two `user-joined` messages. -/
theorem claim9_counterexample :
    mapLookup (stepState (stepState (stepState (stepState (stepState initialState
        (InEvent.connect "a")) (InEvent.connect "b"))
        (InEvent.joinRoom "a" (some ⟨some "a", some "Al"⟩)))
        (InEvent.joinRoom "b" (some ⟨some "a", some "Bo"⟩)))
        (InEvent.joinRoom "a" (some ⟨some "a", some "Al2"⟩))).rooms (some "a") =
      some ⟨some "a", [("a", ⟨"a", some "Al2", false, 0⟩),
        ("b", ⟨"b", some "Bo", false, 0⟩)], 0⟩ ∧
    stepMsgs (stepState (stepState (stepState (stepState initialState
        (InEvent.connect "a")) (InEvent.connect "b"))
        (InEvent.joinRoom "a" (some ⟨some "a", some "Al"⟩)))
        (InEvent.joinRoom "b" (some ⟨some "a", some "Bo"⟩)))
        (InEvent.joinRoom "a" (some ⟨some "a", some "Al2"⟩)) =
      [⟨"a", OutEvent.userJoined [⟨"a", some "Al2", false, 0⟩, ⟨"b", some "Bo", false, 0⟩]⟩,
       ⟨"b", OutEvent.userJoined [⟨"a", some "Al2", false, 0⟩, ⟨"b", some "Bo", false, 0⟩]⟩] := by
  constructor
  · decide
  · decide

/-- C9 (corrected): in an invariant state (reached without own-id-room
joins), a rejoin of the room the connection is already a participant of
first removes its record — broadcasting `user-left` to the room's
remaining socket.io members when other participants remain, or deleting
and recreating the room when it was the sole member — and then re-inserts
a fresh record (isTalking false, joinedAt the current time) at the end of
the membership order.  For the room named by the connection's own socket
id this fails: the record is replaced in place and no `user-left` is
emitted (see the counterexample). -/
theorem claim9_rejoin_appends :
    ∀ (st : ServerState) (sid : String) (sock : Socket) (A : RoomKey) (rA : Room)
        (u : Option String),
      InvR st → findSocket st.sockets sid = some sock →
      mapLookup st.rooms A = some rA → sid ∈ partKeys rA →
      ∃ r', mapLookup (stepState st (InEvent.joinRoom sid (some ⟨A, u⟩))).rooms A =
          some r' ∧
        ((mapDelete rA.participants sid = [] ∧
            r'.participants = [(sid, ⟨sid, u, false, st.now⟩)] ∧
            stepMsgs st (InEvent.joinRoom sid (some ⟨A, u⟩)) =
              ioTo (stepState st (InEvent.joinRoom sid (some ⟨A, u⟩))).sockets A
                (OutEvent.userJoined [⟨sid, u, false, st.now⟩])) ∨
         (mapDelete rA.participants sid ≠ [] ∧
            r'.participants =
              mapDelete rA.participants sid ++ [(sid, ⟨sid, u, false, st.now⟩)] ∧
            stepMsgs st (InEvent.joinRoom sid (some ⟨A, u⟩)) =
              socketTo (updateSocket st.sockets sid (fun s => socketLeave s A)) A sid
                (OutEvent.userLeft (mapValues (mapDelete rA.participants sid))) ++
              ioTo (stepState st (InEvent.joinRoom sid (some ⟨A, u⟩))).sockets A
                (OutEvent.userJoined (mapValues (mapDelete rA.participants sid ++
                  [(sid, ⟨sid, u, false, st.now⟩)]))))) := by
  intro st sid sock A rA u hR hfs hA hin
  obtain ⟨hmem, hid⟩ := findSocket_eq_some hfs
  subst hid
  obtain ⟨hndS, hlen, hfwd, hbwd⟩ := hR.2 sock hmem
  have hAmem : A ∈ userRooms sock :=
    hbwd (A, rA) (mem_of_mapLookup_eq_some hA) hin
  have hu : userRooms sock = [A] := eq_singleton_of_mem_of_length_le hlen hAmem
  have hAsid : ¬ A = some sock.id := by
    have h5 := hAmem
    unfold userRooms at h5
    exact (mem_listRemove.mp h5).2
  rw [stepState_joinRoom hfs, stepMsgs_joinRoom hfs, handleJoinRoom_eq,
    cleanup_fold_single hu]
  have hl0 : mapLookup (st, ([] : List Msg)).1.rooms A = some rA := hA
  by_cases hdel : mapDelete rA.participants sock.id = []
  · have hstep : cleanupStep sock.id (st, []) A =
        ({ st with
            rooms := (mapDelete st.rooms A),
            sockets := (updateSocket st.sockets sock.id (fun s => socketLeave s A)) },
         ([] : List Msg)) := cleanupStep_last hAsid hl0 hdel
    rw [hstep]
    have hjp := @joinPhase_absent
      ({ st with
          rooms := (mapDelete st.rooms A),
          sockets := (updateSocket st.sockets sock.id (fun s => socketLeave s A)) },
        ([] : List Msg))
      sock.id ⟨A, u⟩ (by exact mapLookup_mapDelete_self)
    rw [hjp]
    refine ⟨⟨A, [(sock.id, ⟨sock.id, u, false, st.now⟩)], st.now⟩, ?_,
      Or.inl ⟨hdel, rfl, ?_⟩⟩
    · exact mapLookup_append_singleton_self mapLookup_mapDelete_self
    · rfl
  · have hstep : cleanupStep sock.id (st, []) A =
        ({ st with
            rooms := (mapSet st.rooms A
              { rA with participants := (mapDelete rA.participants sock.id) }),
            sockets := (updateSocket st.sockets sock.id (fun s => socketLeave s A)) },
         socketTo (updateSocket st.sockets sock.id (fun s => socketLeave s A)) A sock.id
           (OutEvent.userLeft (mapValues (mapDelete rA.participants sock.id)))) :=
      cleanupStep_rest hAsid hl0 hdel
    rw [hstep]
    have hjp := @joinPhase_present
      ({ st with
          rooms := (mapSet st.rooms A
            { rA with participants := (mapDelete rA.participants sock.id) }),
          sockets := (updateSocket st.sockets sock.id (fun s => socketLeave s A)) },
        socketTo (updateSocket st.sockets sock.id (fun s => socketLeave s A)) A sock.id
          (OutEvent.userLeft (mapValues (mapDelete rA.participants sock.id))))
      sock.id ⟨A, u⟩ ({ rA with participants := (mapDelete rA.participants sock.id) })
      (by exact mapLookup_mapSet_self)
    rw [hjp]
    have hnot : sock.id ∉ mapKeys (mapDelete rA.participants sock.id) := by
      rw [mapKeys_mapDelete]
      intro hc
      exact (mem_listRemove.mp hc).2 rfl
    have hkey : mapSet (mapDelete rA.participants sock.id) sock.id
        (⟨sock.id, u, false, st.now⟩ : Participant) =
        mapDelete rA.participants sock.id ++ [(sock.id, ⟨sock.id, u, false, st.now⟩)] :=
      mapSet_eq_append hnot
    refine ⟨{ rA with participants :=
        (mapDelete rA.participants sock.id ++ [(sock.id, ⟨sock.id, u, false, st.now⟩)]) },
      ?_, Or.inr ⟨hdel, rfl, ?_⟩⟩
    · have h6 : mapLookup (mapSet (mapSet st.rooms A
          ({ rA with participants := (mapDelete rA.participants sock.id) })) A
          ({ rA with participants := (mapSet (mapDelete rA.participants sock.id) sock.id
            (⟨sock.id, u, false, st.now⟩ : Participant)) })) A =
          some ({ rA with participants := (mapSet (mapDelete rA.participants sock.id)
            sock.id (⟨sock.id, u, false, st.now⟩ : Participant)) } : Room) :=
        mapLookup_mapSet_self
      have h7 : ({ rA with participants := (mapSet (mapDelete rA.participants sock.id)
          sock.id (⟨sock.id, u, false, st.now⟩ : Participant)) } : Room) =
          { rA with participants :=
            (mapDelete rA.participants sock.id ++ [(sock.id, ⟨sock.id, u, false, st.now⟩)]) } := by
        rw [hkey]
      exact h6.trans (congrArg some h7)
    · exact (show socketTo (updateSocket st.sockets sock.id (fun s => socketLeave s A))
          A sock.id (OutEvent.userLeft (mapValues (mapDelete rA.participants sock.id))) ++
          ioTo (updateSocket (updateSocket (updateSocket st.sockets sock.id
              (fun s => socketLeave s A)) sock.id (fun s => socketJoin s A)) sock.id
              (fun s => { s with userName := u, currentRoom := A })) A
            (OutEvent.userJoined (mapValues (mapSet (mapDelete rA.participants sock.id)
              sock.id (⟨sock.id, u, false, st.now⟩ : Participant)))) =
          socketTo (updateSocket st.sockets sock.id (fun s => socketLeave s A)) A sock.id
            (OutEvent.userLeft (mapValues (mapDelete rA.participants sock.id))) ++
          ioTo (updateSocket (updateSocket (updateSocket st.sockets sock.id
              (fun s => socketLeave s A)) sock.id (fun s => socketJoin s A)) sock.id
              (fun s => { s with userName := u, currentRoom := A })) A
            (OutEvent.userJoined (mapValues (mapDelete rA.participants sock.id ++
              [(sock.id, ⟨sock.id, u, false, st.now⟩)]))) by rw [hkey])

theorem claim9_rejoin_appends_witness :
    ∃ r', mapLookup (stepState demo2
        (InEvent.joinRoom "a" (some ⟨some "R", some "Al2"⟩))).rooms (some "R") =
        some r' ∧
      ((mapDelete [("a", (⟨"a", some "Al", false, 0⟩ : Participant)),
            ("b", ⟨"b", some "Bo", false, 0⟩)] "a" = [] ∧
          r'.participants = [("a", ⟨"a", some "Al2", false, demo2.now⟩)] ∧
          stepMsgs demo2 (InEvent.joinRoom "a" (some ⟨some "R", some "Al2"⟩)) =
            ioTo (stepState demo2
              (InEvent.joinRoom "a" (some ⟨some "R", some "Al2"⟩))).sockets (some "R")
              (OutEvent.userJoined [⟨"a", some "Al2", false, demo2.now⟩])) ∨
       (mapDelete [("a", (⟨"a", some "Al", false, 0⟩ : Participant)),
            ("b", ⟨"b", some "Bo", false, 0⟩)] "a" ≠ [] ∧
          r'.participants =
            mapDelete [("a", (⟨"a", some "Al", false, 0⟩ : Participant)),
              ("b", ⟨"b", some "Bo", false, 0⟩)] "a" ++
              [("a", ⟨"a", some "Al2", false, demo2.now⟩)] ∧
          stepMsgs demo2 (InEvent.joinRoom "a" (some ⟨some "R", some "Al2"⟩)) =
            socketTo (updateSocket demo2.sockets "a" (fun s => socketLeave s (some "R")))
              (some "R") "a"
              (OutEvent.userLeft (mapValues
                (mapDelete [("a", (⟨"a", some "Al", false, 0⟩ : Participant)),
                  ("b", ⟨"b", some "Bo", false, 0⟩)] "a"))) ++
            ioTo (stepState demo2
              (InEvent.joinRoom "a" (some ⟨some "R", some "Al2"⟩))).sockets (some "R")
              (OutEvent.userJoined (mapValues
                (mapDelete [("a", (⟨"a", some "Al", false, 0⟩ : Participant)),
                  ("b", ⟨"b", some "Bo", false, 0⟩)] "a" ++
                  [("a", ⟨"a", some "Al2", false, demo2.now⟩)]))))) :=
  claim9_rejoin_appends demo2 "a" ⟨"a", [some "a", some "R"], some "Al", some "R"⟩
    (some "R") ⟨some "R", [("a", ⟨"a", some "Al", false, 0⟩),
      ("b", ⟨"b", some "Bo", false, 0⟩)], 0⟩ (some "Al2")
    (by decide) (by decide) (by decide) (by decide)
